import Mathlib

/-!
The VTIMEZONE to location-template transform of vtimezone2tzif.

A shallow embedding of `vtimezone/vtimezone.go` and the properties of it that
the specification states.

Conventions of the embedding
* A Go `string` is the list of its bytes; a byte is written as the `Char` with
  that code, so ASCII text is its own byte list (`Str`).
* `time.Duration` is an `Int` count of nanoseconds.
* `time.Time` is an `Int`, the absolute instant; `Before` is `<`.
* A Go `map[string]string` is an association list with distinct keys; a lookup
  of an absent key gives the empty string, an assignment overwrites, and a
  `range` loop visits the entries in list order (Go leaves the order open, so
  statements about loops over a map are made for every list).
* A function returning `(T, error)` returns `Except Err T`.
* The recurrence evaluator of `rrule-go` and `sort.Slice` are parameters.
-/

set_option autoImplicit false

namespace Vtimezone

/-! ## Strings -/

/-- Go strings, as byte lists. -/
abbrev Str := List Char

/-- Go `time.Duration`, in nanoseconds. -/
abbrev Duration := Int

/-- The constant `time.Second`. -/
def Second : Duration := 1000000000

/-- The constant `time.Minute`. -/
def Minute : Duration := 60 * Second

/-- The constant `time.Hour`. -/
def Hour : Duration := 60 * Minute

/-- The errors of the package, one constructor per `fmt.Errorf` site, carrying
the formatted arguments (the text of a wrapped library error is left out). -/
inductive Err where
  | unsupportedComponent (name : Str)
  | missingDtstart
  | dtstartFormat
  | missingTzOffsetFrom
  | invalidTzOffsetFrom (cause : Err)
  | missingTzOffsetTo
  | invalidTzOffsetTo (cause : Err)
  | missingRrule
  | rulePartNotSingleEq
  | ruleOptionNoValue (key : Str)
  | invalidTimeOffset (offset : Str)
  | invalidHours (offset : Str)
  | invalidMinutes (offset : Str)
  | invalidSeconds (offset : Str)
  | moreThanOneUnbounded (slotName : Str)
  | tzidInDtstart
  | untilNotUtc
  | nilRrule
  | evaluator (msg : Str)
  | dstWithoutStd
  | zoneNameContainsGt (name : Str)
  | unsupportedFreq (freq : Str)
  | unsupportedInterval (interval : Str)
  | unsupportedField (fieldName : Str)
  | singleByDay
  | byDayTooShort (byDay : Str)
  | parseByDay (byDay : Str)
  | byDayOffset (byDay : Str) (offset : Int)
  | unknownWeekDay (byDay : Str) (code : Str)
  | singleByMonth
  | parseByMonth (byMonth : Str)
  | monthOutOfRange (byMonth : Str)
  | unsupportedCombination (fields : Str)
  | parseDtstart
  deriving DecidableEq, Repr

deriving instance DecidableEq for Except

/-- The half-open byte slice `s[i:j]`. -/
def slice (s : Str) (i j : Nat) : Str := (s.drop i).take (j - i)

/-- The test `strings.HasPrefix(s, c)` for a one-byte string `c`. -/
def startsWith (s : Str) (c : Char) : Bool :=
  match s with
  | [] => false
  | x :: _ => x == c

/-- The test `strings.Contains(s, c)` for a one-byte string `c`. -/
def containsChar (s : Str) (c : Char) : Bool := s.any (fun x => x == c)

/-- The test `strings.Contains(s, sub)`. -/
def containsSub (s sub : Str) : Bool := s.tails.any (fun t => sub.isPrefixOf t)

/-- The call `strings.Split(s, sep)` for a one-byte separator: the pieces
between the separators, always at least one. -/
def splitChar (sep : Char) : Str → List Str
  | [] => [[]]
  | c :: cs =>
    if c = sep then [] :: splitChar sep cs
    else
      match splitChar sep cs with
      | [] => [[c]]
      | p :: ps => (c :: p) :: ps

/-- The call `strings.Join(elems, sep)`. -/
def joinWith (sep : Str) : List Str → Str
  | [] => []
  | [a] => a
  | a :: b :: rest => a ++ sep ++ joinWith sep (b :: rest)

/-! ## strconv and fmt -/

/-- An ASCII decimal digit. -/
def isDigit (c : Char) : Bool := decide (48 ≤ c.toNat) && decide (c.toNat ≤ 57)

/-- The value of one ASCII decimal digit. -/
def digitVal (c : Char) : Nat := c.toNat - 48

/-- The value of a string of decimal digits. -/
def decimalValue (s : Str) : Nat := s.foldl (fun n c => 10 * n + digitVal c) 0

/-- The call `strconv.ParseUint(s, 10, 64)`: a non-empty string of decimal
digits, without sign, whose value fits 64 bits; `none` is any error. -/
def ParseUint (s : Str) : Option Nat :=
  if s.isEmpty then none
  else if s.all isDigit then
    (if decimalValue s < 2 ^ 64 then some (decimalValue s) else none)
  else none

/-- The call `strconv.ParseInt(s, 10, 64)`: an optional sign, then
`ParseUint`, then the signed 64-bit range check; `none` is any error. -/
def ParseInt (s : Str) : Option Int :=
  match s with
  | [] => none
  | c :: t =>
    let neg : Bool := c == '-'
    let body : Str := if c == '+' then t else if c == '-' then t else s
    match ParseUint body with
    | none => none
    | some un =>
      if !neg && decide (un ≥ 2 ^ 63) then none
      else if neg && decide (un > 2 ^ 63) then none
      else some (if neg then -(un : Int) else (un : Int))

/-- The verb `%d`. -/
def fmtD (n : Int) : Str :=
  if n < 0 then '-' :: Nat.toDigits 10 n.natAbs else Nat.toDigits 10 n.natAbs

/-- The verb `%02d`: zero padding to width two, a sign counting for the
width. -/
def fmt02d (n : Int) : Str :=
  if n < 0 then '-' :: Nat.toDigits 10 n.natAbs
  else if n.natAbs < 10 then '0' :: Nat.toDigits 10 n.natAbs
  else Nat.toDigits 10 n.natAbs

/-! ## parseOffset -/

/-- The function `parseOffset` (vtimezone.go, lines 143-176). -/
def parseOffset (offset : Str) : Except Err Duration :=
  let negative : Bool := startsWith offset '-'
  let s : Str :=
    if startsWith offset '-' then offset.drop 1
    else if startsWith offset '+' then offset.drop 1
    else offset
  if s.length ≠ 4 ∧ s.length ≠ 6 then .error (.invalidTimeOffset offset)
  else
    match ParseUint (slice s 0 2) with
    | none => .error (.invalidHours offset)
    | some hour =>
      if hour > 23 then .error (.invalidHours offset)
      else
        match ParseUint (slice s 2 4) with
        | none => .error (.invalidMinutes offset)
        | some min =>
          if min > 59 then .error (.invalidMinutes offset)
          else
            let secR : Except Err Nat :=
              if s.length = 6 then
                match ParseUint (slice s 4 6) with
                | none => .error (.invalidSeconds offset)
                | some sec => if sec > 59 then .error (.invalidSeconds offset) else .ok sec
              else .ok 0
            match secR with
            | .error e => .error e
            | .ok sec =>
              let ret : Duration := (hour : Int) * Hour + (min : Int) * Minute + (sec : Int) * Second
              .ok (if negative then -ret else ret)

/-! ## The input tree and the rule record -/

/-- The first value stored under a key of an association list. -/
def lookupStr (name : Str) : List (Str × Str) → Option Str
  | [] => none
  | (k, v) :: rest => if k = name then some v else lookupStr name rest

/-- A node of the decoded calendar tree (`ical.Component`): its name, its
properties (name and value, `Props.Get` giving the first one stored under a
name) and its children. -/
inductive Component where
  | mk (name : Str) (props : List (Str × Str)) (children : List Component)

/-- The field `Name` of a component. -/
def Component.Name : Component → Str
  | .mk n _ _ => n

/-- The field `Props` of a component. -/
def Component.Props : Component → List (Str × Str)
  | .mk _ p _ => p

/-- The field `Children` of a component. -/
def Component.Children : Component → List Component
  | .mk _ _ c => c

/-- The constant `ical.CompTimezoneStandard`. -/
def CompTimezoneStandard : Str := "STANDARD".toList

/-- The constant `ical.CompTimezoneDaylight`. -/
def CompTimezoneDaylight : Str := "DAYLIGHT".toList

/-- The constant `rrule.LocalDateTimeFormat`. -/
def LocalDateTimeFormat : Str := "20060102T150405".toList

/-- The constant `rrule.DateTimeFormat`. -/
def DateTimeFormat : Str := "20060102T150405Z".toList

/-- A Go `map[string]string`. -/
abbrev StrMap := List (Str × Str)

/-- The map read `m[k]`: the empty string when the key is absent. -/
def mapGet (m : StrMap) (k : Str) : Str := (lookupStr k m).getD []

/-- The map write `m[k] = v`. -/
def mapSet : StrMap → Str → Str → StrMap
  | [], k, v => [(k, v)]
  | (k0, v0) :: rest, k, v =>
    if k0 = k then (k, v) :: rest else (k0, v0) :: mapSet rest k v

/-- The keys of a map. -/
def mapKeys (m : StrMap) : List Str := m.map Prod.fst

/-- The record `zoneRule` (vtimezone.go, lines 178-186); of the `rrule`
property only the value is kept, `none` being the nil pointer. -/
structure zoneRule where
  isDST : Bool
  dtStart : Str
  tzOffsetFrom : Duration
  tzOffsetTo : Duration
  tzName : Str
  rrule : Option Str
  rruleParts : StrMap
  deriving DecidableEq, Repr

/-- The zero value `zoneRule{}`. -/
def zoneRule.zero : zoneRule :=
  { isDST := false, dtStart := [], tzOffsetFrom := 0, tzOffsetTo := 0, tzName := [],
    rrule := none, rruleParts := [] }

/-- The loop of `parseRule` over the parts of the RRULE value (lines 126-136). -/
def parseParts : List Str → StrMap → Except Err StrMap
  | [], m => .ok m
  | part :: rest, m =>
    match splitChar '=' part with
    | [key, value] =>
      if value.length = 0 then .error (.ruleOptionNoValue key)
      else parseParts rest (mapSet m key value)
    | _ => .error .rulePartNotSingleEq

/-- The function `parseRule` (vtimezone.go, lines 81-140). -/
def parseRule (vRule : Component) (isDST : Bool) : Except Err zoneRule :=
  match lookupStr "DTSTART".toList vRule.Props with
  | none => .error .missingDtstart
  | some dtStart =>
    if dtStart.length ≠ LocalDateTimeFormat.length then .error .dtstartFormat
    else
      match lookupStr "TZOFFSETFROM".toList vRule.Props with
      | none => .error .missingTzOffsetFrom
      | some tzOffsetFrom =>
        match parseOffset tzOffsetFrom with
        | .error e => .error (.invalidTzOffsetFrom e)
        | .ok offsetFrom =>
          match lookupStr "TZOFFSETTO".toList vRule.Props with
          | none => .error .missingTzOffsetTo
          | some tzOffsetTo =>
            match parseOffset tzOffsetTo with
            | .error e => .error (.invalidTzOffsetTo e)
            | .ok offsetTo =>
              let tzName : Str := (lookupStr "TZNAME".toList vRule.Props).getD []
              match lookupStr "RRULE".toList vRule.Props with
              | none => .error .missingRrule
              | some rruleValue =>
                match parseParts (splitChar ';' rruleValue) [] with
                | .error e => .error e
                | .ok m =>
                  .ok { isDST := isDST, dtStart := dtStart, tzOffsetFrom := offsetFrom,
                        tzOffsetTo := offsetTo, tzName := tzName, rrule := some rruleValue,
                        rruleParts := m }

/-- The method `isRepeatingForever` (vtimezone.go, lines 189-191). -/
def zoneRule.isRepeatingForever (z : zoneRule) : Bool :=
  decide (mapGet z.rruleParts "UNTIL".toList = []) &&
    decide (mapGet z.rruleParts "COUNT".toList = [])

/-- The slot `extendRuleSlot` (vtimezone.go, lines 66-70). -/
structure extendRuleSlot where
  slotName : Str
  r : zoneRule
  present : Bool
  deriving DecidableEq, Repr

/-- The method `set` of a slot (vtimezone.go, lines 72-79). -/
def extendRuleSlot.set (e : extendRuleSlot) (r : zoneRule) : Except Err extendRuleSlot :=
  if e.present then .error (.moreThanOneUnbounded e.slotName)
  else .ok { e with r := r, present := true }

/-! ## The template and the bounded rules -/

/-- A zone of the template (`timezones.Zone`). -/
structure Zone where
  Name : Str
  Offset : Duration
  IsDST : Bool
  deriving DecidableEq, Repr

/-- A change of the template (`timezones.Change`): an instant and the index of
the zone in force from it. -/
structure Change where
  Start : Int
  ZoneIndex : Int
  deriving DecidableEq, Repr

/-- The template (`timezones.Template`). -/
structure Template where
  Name : Str
  Zones : List Zone
  Changes : List Change
  Extend : Str
  deriving DecidableEq, Repr

/-- The recurrence evaluator of `rrule-go`, as far as the package uses it:
`StrToROptionInLocation` on the text of a rule and the seconds east of UTC of a
fixed zone, and `occurrences`, which is `NewRRule` followed by the exhaustion of
the iterator of the rule. -/
structure Evaluator where
  ROption : Type
  StrToROptionInLocation : Str → Int → Except Err ROption
  occurrences : ROption → Except Err (List Int)

/-- The method `roption` (vtimezone.go, lines 193-205). -/
def zoneRule.roption (ev : Evaluator) (z : zoneRule) : Except Err ev.ROption :=
  if containsSub (mapGet z.rruleParts "DTSTART".toList) "TZID=".toList then .error .tzidInDtstart
  else
    let untilV : Str := mapGet z.rruleParts "UNTIL".toList
    if untilV.length > 0 ∧ untilV.length ≠ DateTimeFormat.length then .error .untilNotUtc
    else
      match z.rrule with
      | none => .error .nilRrule
      | some value => ev.StrToROptionInLocation value (Int.tdiv z.tzOffsetFrom Second)

/-- The function `addZones` (vtimezone.go, lines 207-230). -/
def addZones (ev : Evaluator) (lt : Template) (rule : zoneRule) : Except Err Template :=
  match rule.roption ev with
  | .error e => .error e
  | .ok ro =>
    match ev.occurrences ro with
    | .error e => .error e
    | .ok ts =>
      let zones : List Zone :=
        lt.Zones ++ [{ Name := rule.tzName, Offset := rule.tzOffsetTo, IsDST := rule.isDST }]
      let zoneIndex : Int := (zones.length : Int) - 1
      .ok { lt with
            Zones := zones,
            Changes := lt.Changes ++ ts.map (fun t => { Start := t, ZoneIndex := zoneIndex }) }

/-! ## The extend string -/

/-- Negation of a signed 64-bit integer. -/
def neg64 (x : Int) : Int := if x = -(2 : Int) ^ 63 then x else -x

/-- The function `addExtendName` (vtimezone.go, lines 266-274); the builder is
passed in and its new content returned. -/
def addExtendName (sb : Str) (name : Str) : Except Err Str :=
  if containsChar name '>' then .error (.zoneNameContainsGt name)
  else .ok (sb ++ ['<'] ++ name ++ ['>'])

/-- The function `addExtendOffset` (vtimezone.go, lines 276-285). -/
def addExtendOffset (sb : Str) (offset : Duration) : Str :=
  let sb1 : Str := if offset < 0 then sb ++ ['-'] else sb
  let offset1 : Int := if offset < 0 then neg64 offset else offset
  let hour : Int := Int.tdiv offset1 Hour
  let offset2 : Int := Int.tmod offset1 Hour
  let min : Int := Int.tdiv offset2 Minute
  let offset3 : Int := Int.tmod offset2 Minute
  let sec : Int := Int.tdiv offset3 Second
  sb1 ++ fmt02d hour ++ [':'] ++ fmt02d min ++ [':'] ++ fmt02d sec

/-- The constant `ruleFieldFreq` (`1 << iota`, lines 287-300). -/
def ruleFieldFreq : Nat := 1 <<< 0
/-- The constant `ruleFieldInterval`. -/
def ruleFieldInterval : Nat := 1 <<< 1
/-- The constant `ruleFieldBySecond`. -/
def ruleFieldBySecond : Nat := 1 <<< 2
/-- The constant `ruleFieldByMinute`. -/
def ruleFieldByMinute : Nat := 1 <<< 3
/-- The constant `ruleFieldByHour`. -/
def ruleFieldByHour : Nat := 1 <<< 4
/-- The constant `ruleFieldByDay`. -/
def ruleFieldByDay : Nat := 1 <<< 5
/-- The constant `ruleFieldByMonthDay`. -/
def ruleFieldByMonthDay : Nat := 1 <<< 6
/-- The constant `ruleFieldByYearDay`. -/
def ruleFieldByYearDay : Nat := 1 <<< 7
/-- The constant `ruleFieldByWeekNo`. -/
def ruleFieldByWeekNo : Nat := 1 <<< 8
/-- The constant `ruleFieldByMonth`. -/
def ruleFieldByMonth : Nat := 1 <<< 9
/-- The constant `ruleFieldBySetPos`. -/
def ruleFieldBySetPos : Nat := 1 <<< 10
/-- The constant `ruleFieldWkst`. -/
def ruleFieldWkst : Nat := 1 <<< 11

/-- The table `fieldFlagsByName` (vtimezone.go, lines 302-315). -/
def fieldFlagsByName : List (Str × Nat) :=
  [ ("FREQ".toList, ruleFieldFreq),
    ("INTERVAL".toList, ruleFieldInterval),
    ("BYSECOND".toList, ruleFieldBySecond),
    ("BYMINUTE".toList, ruleFieldByMinute),
    ("BYHOUR".toList, ruleFieldByHour),
    ("BYDAY".toList, ruleFieldByDay),
    ("BYMONTHDAY".toList, ruleFieldByMonthDay),
    ("BYYEARDAY".toList, ruleFieldByYearDay),
    ("BYWEEKNO".toList, ruleFieldByWeekNo),
    ("BYMONTH".toList, ruleFieldByMonth),
    ("BYSETPOS".toList, ruleFieldBySetPos),
    ("WKST".toList, ruleFieldWkst) ]

/-- The table `weekDayMap` (vtimezone.go, lines 317-325). -/
def weekDayMap : List (Str × Int) :=
  [ ("SU".toList, 0), ("MO".toList, 1), ("TU".toList, 2), ("WE".toList, 3),
    ("TH".toList, 4), ("FR".toList, 5), ("SA".toList, 6) ]

/-- The two-result read `v, ok := table[name]` of a table with string keys. -/
def lookupTable {α : Type} (name : Str) : List (Str × α) → Option α
  | [] => none
  | (k, v) :: rest => if k = name then some v else lookupTable name rest

/-- The order `<` of Go strings: lexicographic on the bytes. -/
def strLt : Str → Str → Bool
  | [], [] => false
  | [], _ :: _ => true
  | _ :: _, [] => false
  | a :: as, b :: bs =>
    if a.toNat < b.toNat then true
    else if b.toNat < a.toNat then false
    else strLt as bs

/-- Insertion of a string into an ascending list. -/
def insertStr (a : Str) : List Str → List Str
  | [] => [a]
  | b :: rest => if strLt b a then b :: insertStr a rest else a :: b :: rest

/-- The call `sort.Strings`: the ascending arrangement of the strings (equal
strings are indistinguishable, so the result does not depend on the sorting
method). -/
def sortStrings : List Str → List Str
  | [] => []
  | a :: rest => insertStr a (sortStrings rest)

/-- The loop of `addExtendRule` that collects the flags of the field names
(lines 336-343). -/
def ruleFlags : StrMap → Nat → Except Err Nat
  | [], flags => .ok flags
  | (fieldName, _) :: rest, flags =>
    match lookupTable fieldName fieldFlagsByName with
    | none => .error (.unsupportedField fieldName)
    | some fieldFlag => ruleFlags rest (flags ||| fieldFlag)

/-- The names listed by the default branch of `addExtendRule` before they are
sorted (lines 389-394). -/
def flagNames (flags : Nat) : List Str :=
  (fieldFlagsByName.filter (fun p => decide ((flags &&& p.2) > 0))).map Prod.fst

/-- The BYDAY part of `addExtendRule` (lines 349-373): the week and the
weekday. -/
def extendByDay (byDay : Str) : Except Err (Int × Int) :=
  if containsChar byDay ',' then .error .singleByDay
  else if byDay.length < 2 then .error (.byDayTooShort byDay)
  else
    match ParseInt (byDay.take (byDay.length - 2)) with
    | none => .error (.parseByDay byDay)
    | some offset =>
      let weekR : Except Err Int :=
        if offset = -1 then .ok 5
        else if offset > 0 ∧ offset < 5 then .ok offset
        else .error (.byDayOffset byDay offset)
      match weekR with
      | .error e => .error e
      | .ok week =>
        match lookupTable (byDay.drop (byDay.length - 2)) weekDayMap with
        | none => .error (.unknownWeekDay byDay (byDay.drop (byDay.length - 2)))
        | some weekDay => .ok (week, weekDay)

/-- The BYMONTH part of `addExtendRule` (lines 375-385): the month. The
comma test reads `byDay`, as the source does. -/
def extendByMonth (byDay byMonth : Str) : Except Err Nat :=
  if containsChar byDay ',' then .error .singleByMonth
  else
    match ParseUint byMonth with
    | none => .error (.parseByMonth byMonth)
    | some month =>
      if month < 1 ∨ month > 12 then .error (.monthOutOfRange byMonth)
      else .ok month

/-- The helper `getnum` of package `time`: one or two leading digits, two
being required when `fixed`. -/
def getnum (s : Str) (fixed : Bool) : Option (Nat × Str) :=
  match s with
  | [] => none
  | a :: rest =>
    if !isDigit a then none
    else
      match rest with
      | [] => if fixed then none else some (digitVal a, rest)
      | b :: rest2 =>
        if !isDigit b then (if fixed then none else some (digitVal a, rest))
        else some (digitVal a * 10 + digitVal b, rest2)

/-- The number of days of a month (`daysIn` of package `time`). -/
def daysIn (month year : Nat) : Nat :=
  if month = 2 then
    (if year % 4 = 0 ∧ (year % 100 ≠ 0 ∨ year % 400 = 0) then 29 else 28)
  else if month = 4 ∨ month = 6 ∨ month = 9 ∨ month = 11 then 30
  else 31

/-- The clock of `time.ParseInLocation(rrule.LocalDateTimeFormat, value, loc)`
for a fixed zone `loc`: hour, minute and second of the parsed local time, which
do not depend on the zone. The layout is `20060102T150405`: a four-digit year,
a two-digit month and day, `T`, the hour, a two-digit minute and second, and
an optional fraction of a second; `none` is any error. -/
def parseLocalClock (value : Str) : Option (Nat × Nat × Nat) :=
  if value.length < 4 ∨ !(value.take 4).all isDigit then none
  else
    let year : Nat := decimalValue (value.take 4)
    match getnum (value.drop 4) true with
    | none => none
    | some (month, v1) =>
      if month = 0 ∨ 12 < month then none
      else
        match getnum v1 true with
        | none => none
        | some (day, v2) =>
          match v2 with
          | [] => none
          | t :: v3 =>
            if t ≠ 'T' then none
            else
              match getnum v3 false with
              | none => none
              | some (hour, v4) =>
                if 24 ≤ hour then none
                else
                  match getnum v4 true with
                  | none => none
                  | some (min, v5) =>
                    if 60 ≤ min then none
                    else
                      match getnum v5 true with
                      | none => none
                      | some (sec, v6) =>
                        if 60 ≤ sec then none
                        else
                          let v7 : Str :=
                            match v6 with
                            | p :: d :: more =>
                              if (p = '.' ∨ p = ',') ∧ isDigit d = true
                              then more.dropWhile isDigit else v6
                            | _ => v6
                          if v7 ≠ [] then none
                          else if day < 1 ∨ day > daysIn month year then none
                          else some (hour, min, sec)

/-- The function `addExtendRule` (vtimezone.go, lines 327-408). -/
def addExtendRule (sb : Str) (rule : zoneRule) : Except Err Str :=
  let freq : Str := mapGet rule.rruleParts "FREQ".toList
  if freq ≠ "YEARLY".toList then .error (.unsupportedFreq freq)
  else
    let interval : Str := mapGet rule.rruleParts "INTERVAL".toList
    if interval ≠ [] ∧ interval ≠ "1".toList then .error (.unsupportedInterval interval)
    else
      match ruleFlags rule.rruleParts 0 with
      | .error e => .error e
      | .ok flags0 =>
        let flags : Nat := flags0 &&& ((ruleFieldFreq ||| ruleFieldInterval) ^^^ (2 ^ 64 - 1))
        if flags = (ruleFieldByMonth ||| ruleFieldByDay) then
          let byDay : Str := mapGet rule.rruleParts "BYDAY".toList
          match extendByDay byDay with
          | .error e => .error e
          | .ok (week, weekDay) =>
            let byMonth : Str := mapGet rule.rruleParts "BYMONTH".toList
            match extendByMonth byDay byMonth with
            | .error e => .error e
            | .ok month =>
              let sb1 : Str :=
                sb ++ ['M'] ++ fmtD (month : Int) ++ ['.'] ++ fmtD week ++ ['.'] ++ fmtD weekDay
              match parseLocalClock rule.dtStart with
              | none => .error .parseDtstart
              | some (hour, minute, second) =>
                .ok (sb1 ++ ['/'] ++ fmt02d (hour : Int) ++ [':'] ++ fmt02d (minute : Int)
                      ++ [':'] ++ fmt02d (second : Int))
        else
          .error (.unsupportedCombination
            (joinWith ", ".toList (sortStrings (flagNames flags))))

/-- The function `addExtendRules` (vtimezone.go, lines 232-264). -/
def addExtendRules (lt : Template) (stdRule dstRule : extendRuleSlot) : Except Err Template :=
  if !stdRule.present && dstRule.present then .error .dstWithoutStd
  else
    match addExtendName [] stdRule.r.tzName with
    | .error e => .error e
    | .ok sb1 =>
      let sb2 : Str := addExtendOffset sb1 (neg64 stdRule.r.tzOffsetTo)
      if !dstRule.present then .ok { lt with Extend := sb2 }
      else
        match addExtendName sb2 dstRule.r.tzName with
        | .error e => .error e
        | .ok sb3 =>
          let sb4 : Str := addExtendOffset sb3 (neg64 dstRule.r.tzOffsetTo)
          match addExtendRule sb4 dstRule.r with
          | .error e => .error e
          | .ok sb5 =>
            match addExtendRule sb5 stdRule.r with
            | .error e => .error e
            | .ok sb6 => .ok { lt with Extend := sb6 }

/-! ## ToLocationTemplate -/

/-- The loop of `ToLocationTemplate` over the children (lines 25-52): the
template and the two slots after the children have been processed. -/
def processChildren (ev : Evaluator) :
    List Component → Template → extendRuleSlot → extendRuleSlot →
      Except Err (Template × extendRuleSlot × extendRuleSlot)
  | [], lt, stdRule, dstRule => .ok (lt, stdRule, dstRule)
  | child :: rest, lt, stdRule, dstRule =>
    let isStd : Bool := decide (child.Name = CompTimezoneStandard)
    let isDst : Bool := decide (child.Name = CompTimezoneDaylight)
    if !isStd && !isDst then .error (.unsupportedComponent child.Name)
    else
      match parseRule child isDst with
      | .error e => .error e
      | .ok rule =>
        if rule.isRepeatingForever then
          if isStd then
            match stdRule.set rule with
            | .error e => .error e
            | .ok stdRule1 => processChildren ev rest lt stdRule1 dstRule
          else
            match dstRule.set rule with
            | .error e => .error e
            | .ok dstRule1 => processChildren ev rest lt stdRule dstRule1
        else
          match addZones ev lt rule with
          | .error e => .error e
          | .ok lt1 => processChildren ev rest lt1 stdRule dstRule

/-- The comparison handed to `sort.Slice` (lines 59-61). -/
def changeBefore (a b : Change) : Bool := decide (a.Start < b.Start)

/-- The function `ToLocationTemplate` (vtimezone.go, lines 15-64); `sortSlice`
is `sort.Slice`, given the comparison and the list and returning the sorted
list. -/
def ToLocationTemplate (ev : Evaluator)
    (sortSlice : (Change → Change → Bool) → List Change → List Change)
    (name : Str) (vTimezone : Component) : Except Err Template :=
  let lt0 : Template := { Name := name, Zones := [], Changes := [], Extend := [] }
  let stdRule0 : extendRuleSlot :=
    { slotName := "standard".toList, r := zoneRule.zero, present := false }
  let dstRule0 : extendRuleSlot :=
    { slotName := "daylight".toList, r := zoneRule.zero, present := false }
  match processChildren ev vTimezone.Children lt0 stdRule0 dstRule0 with
  | .error e => .error e
  | .ok (lt, stdRule, dstRule) =>
    match addExtendRules lt stdRule dstRule with
    | .error e => .error e
    | .ok lt1 => .ok { lt1 with Changes := sortSlice changeBefore lt1.Changes }

/-- The contract of `sort.Slice` for the comparison of `ToLocationTemplate`:
the result is a rearrangement of the list in which no element comes before
one that is less than it. -/
def SortsChanges (sortSlice : (Change → Change → Bool) → List Change → List Change) : Prop :=
  ∀ l : List Change,
    (sortSlice changeBefore l).Perm l ∧
      (sortSlice changeBefore l).Pairwise (fun a b => changeBefore b a = false)

/-- Insertion of a change into a list sorted by a comparison. -/
def insertChange (less : Change → Change → Bool) (a : Change) : List Change → List Change
  | [] => [a]
  | b :: rest => if less b a then b :: insertChange less a rest else a :: b :: rest

/-- An insertion sort, one sorting method that meets the contract of
`sort.Slice`. -/
def insertionSortSlice (less : Change → Change → Bool) : List Change → List Change
  | [] => []
  | a :: rest => insertChange less a (insertionSortSlice less rest)

/-! ## Definitions used by the statements -/

/-- The grammar of an offset in the words of the specification: an optional
single sign, then two digits of hours, two of minutes and, optionally, two of
seconds, within 23, 59 and 59; `d` is the signed duration it denotes. -/
def OffsetText (s : Str) (d : Duration) : Prop :=
  ∃ (sign : Str) (h1 h2 m1 m2 : Char) (secs : Str),
    s = sign ++ [h1, h2, m1, m2] ++ secs ∧
    (sign = [] ∨ sign = ['+'] ∨ sign = ['-']) ∧
    isDigit h1 = true ∧ isDigit h2 = true ∧ isDigit m1 = true ∧ isDigit m2 = true ∧
    (secs = [] ∨ ∃ s1 s2 : Char, secs = [s1, s2] ∧ isDigit s1 = true ∧ isDigit s2 = true) ∧
    10 * digitVal h1 + digitVal h2 ≤ 23 ∧
    10 * digitVal m1 + digitVal m2 ≤ 59 ∧
    decimalValue secs ≤ 59 ∧
    d = (if sign = ['-'] then -1 else 1) *
          (((10 * digitVal h1 + digitVal h2 : Nat) : Int) * Hour
            + ((10 * digitVal m1 + digitVal m2 : Nat) : Int) * Minute
            + ((decimalValue secs : Nat) : Int) * Second)

/-- The part of `parseOffset` after the sign has been taken off. -/
def offsetBody (offset : Str) (negative : Bool) (s : Str) : Except Err Duration :=
  if s.length ≠ 4 ∧ s.length ≠ 6 then .error (.invalidTimeOffset offset)
  else
    match ParseUint (slice s 0 2) with
    | none => .error (.invalidHours offset)
    | some hour =>
      if hour > 23 then .error (.invalidHours offset)
      else
        match ParseUint (slice s 2 4) with
        | none => .error (.invalidMinutes offset)
        | some min =>
          if min > 59 then .error (.invalidMinutes offset)
          else
            let secR : Except Err Nat :=
              if s.length = 6 then
                match ParseUint (slice s 4 6) with
                | none => .error (.invalidSeconds offset)
                | some sec => if sec > 59 then .error (.invalidSeconds offset) else .ok sec
              else .ok 0
            match secR with
            | .error e => .error e
            | .ok sec =>
              let ret : Duration := (hour : Int) * Hour + (min : Int) * Minute + (sec : Int) * Second
              .ok (if negative then -ret else ret)

/-- The digits part of the grammar of an offset. -/
def OffsetDigits (neg : Bool) (s : Str) (d : Duration) : Prop :=
  ∃ (h1 h2 m1 m2 : Char) (secs : Str),
    s = [h1, h2, m1, m2] ++ secs ∧
    isDigit h1 = true ∧ isDigit h2 = true ∧ isDigit m1 = true ∧ isDigit m2 = true ∧
    (secs = [] ∨ ∃ s1 s2 : Char, secs = [s1, s2] ∧ isDigit s1 = true ∧ isDigit s2 = true) ∧
    10 * digitVal h1 + digitVal h2 ≤ 23 ∧
    10 * digitVal m1 + digitVal m2 ≤ 59 ∧
    decimalValue secs ≤ 59 ∧
    d = (if neg = true then -1 else 1) *
          (((10 * digitVal h1 + digitVal h2 : Nat) : Int) * Hour
            + ((10 * digitVal m1 + digitVal m2 : Nat) : Int) * Minute
            + ((decimalValue secs : Nat) : Int) * Second)

/-- The values of a map are all non-empty. -/
def ValuesNonEmpty (m : StrMap) : Prop := ∀ p ∈ m, p.2 ≠ []

/-- Every change of the template refers to a zone of the template. -/
def ChangesInRange (lt : Template) : Prop :=
  ∀ c ∈ lt.Changes, 0 ≤ c.ZoneIndex ∧ c.ZoneIndex < (lt.Zones.length : Int)

/-- The field names of a map, FREQ and INTERVAL apart, are exactly BYMONTH and
BYDAY. -/
def FieldsAreMonthDay (m : StrMap) : Prop :=
  "BYMONTH".toList ∈ mapKeys m ∧ "BYDAY".toList ∈ mapKeys m ∧
    ∀ k ∈ mapKeys m, k = "FREQ".toList ∨ k = "INTERVAL".toList ∨
      k = "BYMONTH".toList ∨ k = "BYDAY".toList

/-- The text that `addExtendRule` appends for a month, week, weekday and
clock. -/
def ruleText (month : Nat) (week weekDay : Int) (hour minute second : Nat) : Str :=
  ['M'] ++ fmtD (month : Int) ++ ['.'] ++ fmtD week ++ ['.'] ++ fmtD weekDay
    ++ ['/'] ++ fmt02d (hour : Int) ++ [':'] ++ fmt02d (minute : Int)
    ++ [':'] ++ fmt02d (second : Int)

/-- A rule with BYHOUR in addition to BYMONTH and BYDAY. -/
def byHourRule : zoneRule :=
  { zoneRule.zero with
    dtStart := "19700329T020000".toList,
    rrule := some "FREQ=YEARLY;BYMONTH=3;BYDAY=-1SU;BYHOUR=2".toList,
    rruleParts := [("FREQ".toList, "YEARLY".toList), ("BYMONTH".toList, "3".toList),
                   ("BYDAY".toList, "-1SU".toList), ("BYHOUR".toList, "2".toList)] }

/-- A rule with BYHOUR and a field name that the table does not have. -/
def unknownFieldRule : zoneRule :=
  { zoneRule.zero with
    dtStart := "19700329T020000".toList,
    rrule := some "FREQ=YEARLY;BYMONTH=3;BYDAY=-1SU;BYHOUR=2;FOO=1".toList,
    rruleParts := [("FREQ".toList, "YEARLY".toList), ("BYMONTH".toList, "3".toList),
                   ("BYDAY".toList, "-1SU".toList), ("BYHOUR".toList, "2".toList),
                   ("FOO".toList, "1".toList)] }

/-- The field list that the specification describes for the error: the field
names present other than FREQ, INTERVAL, BYMONTH and BYDAY, sorted and joined
by `sep`. -/
def unsupportedFieldList (sep : Str) (rule : zoneRule) : Str :=
  joinWith sep (sortStrings ((mapKeys rule.rruleParts).filter (fun k =>
    !decide (k ∈ ["FREQ".toList, "INTERVAL".toList, "BYMONTH".toList, "BYDAY".toList]))))

/-- A decimal integer: an optional sign and one or more decimal digits; `v` is
its value. -/
def IsDecimalInt (s : Str) (v : Int) : Prop :=
  ∃ (sign digits : Str),
    s = sign ++ digits ∧ (sign = [] ∨ sign = ['+'] ∨ sign = ['-']) ∧
    digits ≠ [] ∧ (∀ c ∈ digits, isDigit c = true) ∧
    v = (if sign = ['-'] then -1 else 1) * ((decimalValue digits : Nat) : Int)

/-- The BYDAY values of the specification: one token without comma, made of a
decimal integer offset of value -1, 1, 2, 3 or 4 and a two-letter weekday
code; the week is 5 for the offset -1 and the offset otherwise, and the
weekday is SU=0, MO=1, TU=2, WE=3, TH=4, FR=5, SA=6. -/
def ByDayText (byDay : Str) (week weekDay : Int) : Prop :=
  ∃ (off code : Str) (v : Int),
    byDay = off ++ code ∧ ',' ∉ byDay ∧ IsDecimalInt off v ∧
    ((v = -1 ∧ week = 5) ∨ (1 ≤ v ∧ v ≤ 4 ∧ week = v)) ∧
    ((code = "SU".toList ∧ weekDay = 0) ∨ (code = "MO".toList ∧ weekDay = 1) ∨
     (code = "TU".toList ∧ weekDay = 2) ∨ (code = "WE".toList ∧ weekDay = 3) ∨
     (code = "TH".toList ∧ weekDay = 4) ∨ (code = "FR".toList ∧ weekDay = 5) ∨
     (code = "SA".toList ∧ weekDay = 6))

/-- The BYMONTH values of the specification: one token of decimal digits
whose value is 1 to 12; `month` is the value. -/
def ByMonthText (byMonth : Str) (month : Nat) : Prop :=
  byMonth ≠ [] ∧ (∀ c ∈ byMonth, isDigit c = true) ∧ decimalValue byMonth = month ∧
    1 ≤ month ∧ month ≤ 12

/-- An extend rule `FREQ=YEARLY;BYMONTH=...;BYDAY=...` starting at 02:00:00,
for a BYMONTH and a BYDAY value. -/
def monthDayRule (byMonth byDay : Str) : zoneRule :=
  { zoneRule.zero with
    dtStart := "19700329T020000".toList,
    rruleParts := [("FREQ".toList, "YEARLY".toList), ("BYMONTH".toList, byMonth),
                   ("BYDAY".toList, byDay)] }

/-- The text of an offset in the extend string. -/
def offsetText (d : Duration) : Str := addExtendOffset [] d

/-- An evaluator that yields the two instants 5 and 3, in this order, for every
rule. -/
def sampleEvaluator : Evaluator :=
  { ROption := Unit, StrToROptionInLocation := fun _ _ => .ok (),
    occurrences := fun _ => .ok [5, 3] }

/-- The standard sub-definition of the CET/CEST example. -/
def cetStandard : Component :=
  .mk "STANDARD".toList
    [ ("DTSTART".toList, "19701025T030000".toList),
      ("TZOFFSETFROM".toList, "+0200".toList),
      ("TZOFFSETTO".toList, "+0100".toList),
      ("TZNAME".toList, "CET".toList),
      ("RRULE".toList, "FREQ=YEARLY;BYMONTH=10;BYDAY=-1SU".toList) ] []

/-- The daylight sub-definition of the CET/CEST example. -/
def cestDaylight : Component :=
  .mk "DAYLIGHT".toList
    [ ("DTSTART".toList, "19700329T020000".toList),
      ("TZOFFSETFROM".toList, "+0100".toList),
      ("TZOFFSETTO".toList, "+0200".toList),
      ("TZNAME".toList, "CEST".toList),
      ("RRULE".toList, "FREQ=YEARLY;BYMONTH=3;BYDAY=-1SU".toList) ] []

/-- The CET/CEST example: one unbounded standard rule and one unbounded
daylight rule. -/
def cetCestZone : Component :=
  .mk "VTIMEZONE".toList [("TZID".toList, "Europe/Bratislava".toList)]
    [cetStandard, cestDaylight]

/-- The rule record of `cetStandard`. -/
def cetRule : zoneRule :=
  { isDST := false, dtStart := "19701025T030000".toList, tzOffsetFrom := 2 * Hour,
    tzOffsetTo := Hour, tzName := "CET".toList,
    rrule := some "FREQ=YEARLY;BYMONTH=10;BYDAY=-1SU".toList,
    rruleParts := [("FREQ".toList, "YEARLY".toList), ("BYMONTH".toList, "10".toList),
                   ("BYDAY".toList, "-1SU".toList)] }

/-- The rule record of `cestDaylight`. -/
def cestRule : zoneRule :=
  { isDST := true, dtStart := "19700329T020000".toList, tzOffsetFrom := Hour,
    tzOffsetTo := 2 * Hour, tzName := "CEST".toList,
    rrule := some "FREQ=YEARLY;BYMONTH=3;BYDAY=-1SU".toList,
    rruleParts := [("FREQ".toList, "YEARLY".toList), ("BYMONTH".toList, "3".toList),
                   ("BYDAY".toList, "-1SU".toList)] }

/-- The extend string of the CET/CEST example. -/
def cetCestExtend : Str :=
  "<CET>-01:00:00<CEST>-02:00:00M3.5.0/02:00:00M10.5.0/03:00:00".toList

/-- A bounded daylight sub-definition, with `COUNT=2`. -/
def boundedDaylight : Component :=
  .mk "DAYLIGHT".toList
    [ ("DTSTART".toList, "19700329T020000".toList),
      ("TZOFFSETFROM".toList, "+0100".toList),
      ("TZOFFSETTO".toList, "+0200".toList),
      ("TZNAME".toList, "CEST".toList),
      ("RRULE".toList, "FREQ=YEARLY;BYMONTH=3;BYDAY=-1SU;COUNT=2".toList) ] []

/-- A definition with two bounded rules around an unbounded standard rule. -/
def mixedZone : Component :=
  .mk "VTIMEZONE".toList [] [boundedDaylight, cetStandard, boundedDaylight]

/-- The template of `mixedZone` under `sampleEvaluator`. -/
def mixedTemplate : Template :=
  { Name := "x".toList,
    Zones := [⟨"CEST".toList, 2 * Hour, true⟩, ⟨"CEST".toList, 2 * Hour, true⟩],
    Changes := [⟨3, 0⟩, ⟨3, 1⟩, ⟨5, 0⟩, ⟨5, 1⟩],
    Extend := "<CET>-01:00:00".toList }

/-- A definition without children. -/
def emptyZone : Component := .mk "VTIMEZONE".toList [] []

/-- A definition with one bounded rule only. -/
def boundedOnlyZone : Component := .mk "VTIMEZONE".toList [] [boundedDaylight]

/-- A bounded standard sub-definition with `COUNT=1` and a local start. -/
def countOneStandard (dtStart : Str) : Component :=
  .mk "STANDARD".toList
    [ ("DTSTART".toList, dtStart),
      ("TZOFFSETFROM".toList, "+0100".toList),
      ("TZOFFSETTO".toList, "+0100".toList),
      ("RRULE".toList, "FREQ=YEARLY;COUNT=1".toList) ] []

/-- The number of days from 1970-01-01 to a date of the proleptic Gregorian
calendar. -/
def daysFromCivil (year month day : Int) : Int :=
  let y : Int := if month ≤ 2 then year - 1 else year
  let era : Int := y / 400
  let yoe : Int := y - era * 400
  let mp : Int := if month > 2 then month - 3 else month + 9
  let doy : Int := (153 * mp + 2) / 5 + day - 1
  let doe : Int := yoe * 365 + yoe / 4 - yoe / 100 + doy
  era * 146097 + doe - 719468

/-- The instant, in seconds since 1970-01-01T00:00:00Z, of a local date-time
`YYYYMMDDTHHMMSS` read in the fixed zone that is `offsetFrom` east of UTC. -/
def localStartInstant (dtStart : Str) (offsetFrom : Duration) : Option Int :=
  if dtStart.length = 15 ∧ (dtStart.take 8).all isDigit ∧ (dtStart.drop 9).all isDigit then
    some (daysFromCivil (decimalValue (slice dtStart 0 4)) (decimalValue (slice dtStart 4 6))
            (decimalValue (slice dtStart 6 8)) * 86400
          + (decimalValue (slice dtStart 9 11) : Int) * 3600
          + (decimalValue (slice dtStart 11 13) : Int) * 60
          + (decimalValue (slice dtStart 13 15) : Int)
          - Int.tdiv offsetFrom Second)
  else none

/-- The rule record of `countOneStandard`. -/
def countOneRule (dtStart : Str) : zoneRule :=
  { isDST := false, dtStart := dtStart, tzOffsetFrom := Hour, tzOffsetTo := Hour, tzName := [],
    rrule := some "FREQ=YEARLY;COUNT=1".toList,
    rruleParts := [("FREQ".toList, "YEARLY".toList), ("COUNT".toList, "1".toList)] }

/-- The body of the loop of `ToLocationTemplate` for one child (lines 26-51). -/
def processChild (ev : Evaluator) (child : Component) (lt : Template)
    (stdRule dstRule : extendRuleSlot) :
    Except Err (Template × extendRuleSlot × extendRuleSlot) :=
  let isStd : Bool := decide (child.Name = CompTimezoneStandard)
  let isDst : Bool := decide (child.Name = CompTimezoneDaylight)
  if !isStd && !isDst then .error (.unsupportedComponent child.Name)
  else
    match parseRule child isDst with
    | .error e => .error e
    | .ok rule =>
      if rule.isRepeatingForever then
        if isStd then
          match stdRule.set rule with
          | .error e => .error e
          | .ok stdRule1 => .ok (lt, stdRule1, dstRule)
        else
          match dstRule.set rule with
          | .error e => .error e
          | .ok dstRule1 => .ok (lt, stdRule, dstRule1)
      else
        match addZones ev lt rule with
        | .error e => .error e
        | .ok lt1 => .ok (lt1, stdRule, dstRule)

/-- A child is an unbounded standard rule with record `r`. -/
def UnboundedStandard (c : Component) (r : zoneRule) : Prop :=
  c.Name = CompTimezoneStandard ∧ parseRule c false = .ok r ∧ r.isRepeatingForever = true

/-- A child is an unbounded daylight rule with record `r`. -/
def UnboundedDaylight (c : Component) (r : zoneRule) : Prop :=
  c.Name = CompTimezoneDaylight ∧ parseRule c true = .ok r ∧ r.isRepeatingForever = true

/-- A child is a bounded rule with record `r`. -/
def BoundedRule (c : Component) (r : zoneRule) : Prop :=
  (c.Name = CompTimezoneStandard ∨ c.Name = CompTimezoneDaylight) ∧
    parseRule c (decide (c.Name = CompTimezoneDaylight)) = .ok r ∧
    r.isRepeatingForever = false

/-- The initial template of `ToLocationTemplate`. -/
def initTemplate (name : Str) : Template :=
  { Name := name, Zones := [], Changes := [], Extend := [] }

/-- The initial standard slot of `ToLocationTemplate`. -/
def initStd : extendRuleSlot :=
  { slotName := "standard".toList, r := zoneRule.zero, present := false }

/-- The initial daylight slot of `ToLocationTemplate`. -/
def initDst : extendRuleSlot :=
  { slotName := "daylight".toList, r := zoneRule.zero, present := false }

/-- Two decimal digits of a number below 100, zero-padded. -/
def twoDigits (n : Nat) : Str := [Char.ofNat (48 + n / 10), Char.ofNat (48 + n % 10)]

/-- The signed `HH:MM:SS` text of a duration: a leading `-` exactly when the
duration is negative, then the hours, minutes and seconds of its magnitude,
each as two zero-padded digits, separated by `:`. -/
def signedClock (d : Duration) : Str :=
  (if d < 0 then ['-'] else []) ++
    twoDigits (d.natAbs / 1000000000 / 3600) ++ [':'] ++
    twoDigits (d.natAbs / 1000000000 % 3600 / 60) ++ [':'] ++
    twoDigits (d.natAbs / 1000000000 % 60)

/-- A text with its `:` characters removed. -/
def removeColons (s : Str) : Str := s.filter (fun c => c != ':')

/-- A standard child whose rule, if it can be read, is unbounded. -/
def StandardUnbounded (c : Component) : Prop :=
  c.Name = CompTimezoneStandard ∧
    ∀ r, parseRule c false = .ok r → r.isRepeatingForever = true

/-- A daylight child whose rule, if it can be read, is unbounded. -/
def DaylightUnbounded (c : Component) : Prop :=
  c.Name = CompTimezoneDaylight ∧
    ∀ r, parseRule c true = .ok r → r.isRepeatingForever = true

/-- The child is a standard or daylight sub-definition that `parseRule` reads
and, when its rule is bounded, `addZones` expands without error. -/
def ChildProcessable (ev : Evaluator) (c : Component) : Prop :=
  (c.Name = CompTimezoneStandard ∨ c.Name = CompTimezoneDaylight) ∧
    ∃ r, parseRule c (decide (c.Name = CompTimezoneDaylight)) = .ok r ∧
      (r.isRepeatingForever = false → ∀ lt, ∃ lt1, addZones ev lt r = .ok lt1)

/-- The recurrence fields of a rule are in the subset that the extend string
can express: FREQ=YEARLY, INTERVAL absent or 1, the other fields exactly
BYMONTH and BYDAY, each with a valid single value. -/
def SupportedRule (r : zoneRule) : Prop :=
  mapGet r.rruleParts "FREQ".toList = "YEARLY".toList ∧
  (mapGet r.rruleParts "INTERVAL".toList = [] ∨
    mapGet r.rruleParts "INTERVAL".toList = "1".toList) ∧
  FieldsAreMonthDay r.rruleParts ∧
  (∃ week weekDay, ByDayText (mapGet r.rruleParts "BYDAY".toList) week weekDay) ∧
  (∃ month, ByMonthText (mapGet r.rruleParts "BYMONTH".toList) month)

/-- A definition whose only child is the standard rule of the CET/CEST
example. -/
def cetOnlyZone : Component := .mk "VTIMEZONE".toList [] [cetStandard]

/-- An unbounded standard sub-definition with the rule `FREQ=DAILY;BYSETPOS=1`. -/
def dailyStandard : Component :=
  .mk "STANDARD".toList
    [ ("DTSTART".toList, "19701025T030000".toList),
      ("TZOFFSETFROM".toList, "+0200".toList),
      ("TZOFFSETTO".toList, "+0100".toList),
      ("TZNAME".toList, "CET".toList),
      ("RRULE".toList, "FREQ=DAILY;BYSETPOS=1".toList) ] []

/-- The rule record of `dailyStandard`. -/
def dailyRule : zoneRule :=
  { isDST := false, dtStart := "19701025T030000".toList, tzOffsetFrom := 2 * Hour,
    tzOffsetTo := Hour, tzName := "CET".toList,
    rrule := some "FREQ=DAILY;BYSETPOS=1".toList,
    rruleParts := [("FREQ".toList, "DAILY".toList), ("BYSETPOS".toList, "1".toList)] }

/-- A definition whose only child is `dailyStandard`. -/
def dailyOnlyZone : Component := .mk "VTIMEZONE".toList [] [dailyStandard]

/-- A definition with the unsupported standard rule `dailyStandard` and the
daylight rule of the CET/CEST example. -/
def dailyPairZone : Component := .mk "VTIMEZONE".toList [] [dailyStandard, cestDaylight]

/-- A definition with two unbounded standard rules. -/
def twoStandardZone : Component := .mk "VTIMEZONE".toList [] [cetStandard, cetStandard]

/-- A definition with an unbounded daylight rule only. -/
def daylightOnlyZone : Component := .mk "VTIMEZONE".toList [] [cestDaylight]

/-- The zones that the bounded rules among the children allocate, in the
order of the children: name, offset to, and polarity of each bounded rule. -/
def boundedZones : List Component → List Zone
  | [] => []
  | c :: rest =>
    match parseRule c (decide (c.Name = CompTimezoneDaylight)) with
    | .ok r =>
      if r.isRepeatingForever then boundedZones rest
      else
        { Name := r.tzName, Offset := r.tzOffsetTo,
          IsDST := decide (c.Name = CompTimezoneDaylight) } :: boundedZones rest
    | .error _ => boundedZones rest

/-- The occurrences that the evaluator yields for a rule, none when it rejects
the rule. -/
def ruleOccurrences (ev : Evaluator) (r : zoneRule) : List Int :=
  match r.roption ev with
  | .ok ro =>
    match ev.occurrences ro with
    | .ok ts => ts
    | .error _ => []
  | .error _ => []

/-- The changes that the bounded rules among the children produce, in
discovery order; `n` is the number of zones allocated before. -/
def discoveredChanges (ev : Evaluator) : List Component → Nat → List Change
  | [], _ => []
  | c :: rest, n =>
    match parseRule c (decide (c.Name = CompTimezoneDaylight)) with
    | .ok r =>
      if r.isRepeatingForever then discoveredChanges ev rest n
      else
        (ruleOccurrences ev r).map (fun t => { Start := t, ZoneIndex := (n : Int) })
          ++ discoveredChanges ev rest (n + 1)
    | .error _ => discoveredChanges ev rest n

/-- The changes with the same instant are in the same order in both lists. -/
def KeepsTieOrder (discovered result : List Change) : Prop :=
  ∀ t : Int, result.filter (fun c => decide (c.Start = t))
    = discovered.filter (fun c => decide (c.Start = t))

/-- An evaluator that yields no occurrence for every rule. -/
def emptyEvaluator : Evaluator :=
  { ROption := Unit, StrToROptionInLocation := fun _ _ => .ok (),
    occurrences := fun _ => .ok [] }

/-- The name of a part `NAME=VALUE` of a rule: the text before the first `=`. -/
def fieldName (part : Str) : Str := part.takeWhile (fun c => c != '=')

/-- The value of a part `NAME=VALUE` of a rule: the text after the first `=`. -/
def fieldValue (part : Str) : Str := (part.dropWhile (fun c => c != '=')).drop 1

/-- A part of a rule with exactly one `=` and a non-empty value. -/
def WellFormedPart (part : Str) : Prop := part.count '=' = 1 ∧ fieldValue part ≠ []

/-- The name and value of a part. -/
def partPair (part : Str) : Str × Str := (fieldName part, fieldValue part)

/-- The map after the pairs have been assigned in order. -/
def setAll (m : StrMap) (pairs : List (Str × Str)) : StrMap :=
  pairs.foldl (fun acc p => mapSet acc p.1 p.2) m

/-- A standard sub-definition of the CET/CEST shape with a given RRULE value. -/
def standardWithRule (value : Str) : Component :=
  .mk "STANDARD".toList
    [ ("DTSTART".toList, "19701025T030000".toList),
      ("TZOFFSETFROM".toList, "+0200".toList),
      ("TZOFFSETTO".toList, "+0100".toList),
      ("TZNAME".toList, "CET".toList),
      ("RRULE".toList, value) ] []

/-- The rule record of `standardWithRule` for a field map. -/
def standardRuleWith (value : Str) (m : StrMap) : zoneRule :=
  { isDST := false, dtStart := "19701025T030000".toList, tzOffsetFrom := 2 * Hour,
    tzOffsetTo := Hour, tzName := "CET".toList, rrule := some value, rruleParts := m }

/-! ## The library function `sort.Slice`

The Go standard library sorts a slice in place through two operations on
indices, `Less(i, j)` and `Swap(i, j)`. The definitions below follow
`sort.Slice` and the functions of `sort/zsortfunc.go` it calls, as of Go 1.19
(pattern-defeating quicksort), one definition per function of the library. The
slice is a list, and a function that changes the slice returns the new list. -/

/-- The element at an index of the slice. -/
def sort.elemAt (data : List Change) (i : Nat) : Change := data.getD i ⟨0, 0⟩

/-- The operation `data.Less(i, j)`: the comparison of `sort.Slice` on the
elements at the two indices. -/
def sort.Less (less : Change → Change → Bool) (data : List Change) (i j : Nat) : Bool :=
  less (sort.elemAt data i) (sort.elemAt data j)

/-- The operation `data.Swap(i, j)`. -/
def sort.Swap (data : List Change) (i j : Nat) : List Change :=
  (data.set i (sort.elemAt data j)).set j (sort.elemAt data i)

/-- The inner loop of `insertionSort_func`:
`for j := i; j > a && data.Less(j, j-1); j-- { data.Swap(j, j-1) }`. -/
def sort.insertionSort_inner (less : Change → Change → Bool) (a : Nat) :
    Nat → List Change → List Change
  | 0, data => data
  | j + 1, data =>
    if j + 1 > a ∧ sort.Less less data (j + 1) j = true then
      sort.insertionSort_inner less a j (sort.Swap data (j + 1) j)
    else data

/-- The function `insertionSort_func`: insertion sort of `data[a:b]`. -/
def sort.insertionSort_func (less : Change → Change → Bool) (data : List Change)
    (a b : Nat) : List Change :=
  (List.range' (a + 1) (b - (a + 1))).foldl
    (fun d i => sort.insertionSort_inner less a i d) data

/-- The function `siftDown_func`: the loop on `root`, started at `lo`; it ends
within `hi` rounds because `root` grows in each. -/
def sort.siftDown_func (less : Change → Change → Bool) (hi first : Nat) :
    Nat → List Change → Nat → List Change
  | 0, data, _ => data
  | fuel + 1, data, root =>
    let child := 2 * root + 1
    if child ≥ hi then data
    else
      let child1 :=
        if child + 1 < hi ∧ sort.Less less data (first + child) (first + child + 1) = true
        then child + 1 else child
      if sort.Less less data (first + root) (first + child1) = false then data
      else sort.siftDown_func less hi first fuel (sort.Swap data (first + root) (first + child1))
        child1

/-- The function `heapSort_func`: heap sort of `data[a:b]`. -/
def sort.heapSort_func (less : Change → Change → Bool) (data : List Change)
    (a b : Nat) : List Change :=
  let first := a
  let lo := 0
  let hi := b - a
  let heap := ((List.range ((hi - 1) / 2 + 1)).reverse).foldl
    (fun d i => sort.siftDown_func less hi first hi d i) data
  ((List.range hi).reverse).foldl
    (fun d i => sort.siftDown_func less i first i (sort.Swap d first (first + i)) lo) heap

/-- The loop `for i <= j && data.Less(i, a) { i++ }` of `partition_func`; the
first argument bounds the number of rounds. -/
def sort.partition_up (less : Change → Change → Bool) (data : List Change) (a j : Nat) :
    Nat → Nat → Nat
  | 0, i => i
  | fuel + 1, i =>
    if i ≤ j ∧ sort.Less less data i a = true then sort.partition_up less data a j fuel (i + 1)
    else i

/-- The loop `for i <= j && !data.Less(j, a) { j-- }` of `partition_func`. -/
def sort.partition_down (less : Change → Change → Bool) (data : List Change) (a i : Nat) :
    Nat → Nat
  | 0 => 0
  | j + 1 =>
    if i ≤ j + 1 ∧ sort.Less less data (j + 1) a = false then sort.partition_down less data a i j
    else j + 1

/-- The main loop of `partition_func`; the result is the slice and the final
`j`. The first argument bounds the number of rounds. -/
def sort.partition_loop (less : Change → Change → Bool) (a : Nat) :
    Nat → List Change → Nat → Nat → List Change × Nat
  | 0, data, _, j => (data, j)
  | fuel + 1, data, i, j =>
    let i1 := sort.partition_up less data a j (j + 1 - i) i
    let j1 := sort.partition_down less data a i1 j
    if i1 > j1 then (data, j1)
    else sort.partition_loop less a fuel (sort.Swap data i1 j1) (i1 + 1) (j1 - 1)

/-- The function `partition_func`: one quicksort partition of `data[a:b]`
around `data[pivot]`; the result is the slice, the new index of the pivot and
whether the slice was already partitioned. -/
def sort.partition_func (less : Change → Change → Bool) (data : List Change)
    (a b pivot : Nat) : List Change × Nat × Bool :=
  let data1 := sort.Swap data a pivot
  let i := sort.partition_up less data1 a (b - 1) (b - a) (a + 1)
  let j := sort.partition_down less data1 a i (b - 1)
  if i > j then (sort.Swap data1 j a, j, true)
  else
    let r := sort.partition_loop less a (b - a) (sort.Swap data1 i j) (i + 1) (j - 1)
    (sort.Swap r.1 r.2 a, r.2, false)

/-- The loop `for i <= j && !data.Less(a, i) { i++ }` of `partitionEqual_func`. -/
def sort.partitionEqual_up (less : Change → Change → Bool) (data : List Change) (a j : Nat) :
    Nat → Nat → Nat
  | 0, i => i
  | fuel + 1, i =>
    if i ≤ j ∧ sort.Less less data a i = false then
      sort.partitionEqual_up less data a j fuel (i + 1)
    else i

/-- The loop `for i <= j && data.Less(a, j) { j-- }` of `partitionEqual_func`. -/
def sort.partitionEqual_down (less : Change → Change → Bool) (data : List Change) (a i : Nat) :
    Nat → Nat
  | 0 => 0
  | j + 1 =>
    if i ≤ j + 1 ∧ sort.Less less data a (j + 1) = true then
      sort.partitionEqual_down less data a i j
    else j + 1

/-- The main loop of `partitionEqual_func`; the result is the slice and the
final `i`. -/
def sort.partitionEqual_loop (less : Change → Change → Bool) (a : Nat) :
    Nat → List Change → Nat → Nat → List Change × Nat
  | 0, data, i, _ => (data, i)
  | fuel + 1, data, i, j =>
    let i1 := sort.partitionEqual_up less data a j (j + 1 - i) i
    let j1 := sort.partitionEqual_down less data a i1 j
    if i1 > j1 then (data, i1)
    else sort.partitionEqual_loop less a fuel (sort.Swap data i1 j1) (i1 + 1) (j1 - 1)

/-- The function `partitionEqual_func`: partitions `data[a:b]` into the elements
equal to `data[pivot]` and the elements greater than it. -/
def sort.partitionEqual_func (less : Change → Change → Bool) (data : List Change)
    (a b pivot : Nat) : List Change × Nat :=
  sort.partitionEqual_loop less a (b - a + 1) (sort.Swap data a pivot) (a + 1) (b - 1)

/-- The loop `for i < b && !data.Less(i, i-1) { i++ }` of
`partialInsertionSort_func`. -/
def sort.partialInsertionSort_skip (less : Change → Change → Bool) (data : List Change)
    (b : Nat) : Nat → Nat → Nat
  | 0, i => i
  | fuel + 1, i =>
    if i < b ∧ sort.Less less data i (i - 1) = false then
      sort.partialInsertionSort_skip less data b fuel (i + 1)
    else i

/-- The loop `for j := i - 1; j >= 1; j--` of `partialInsertionSort_func` that
shifts the smaller element to the left. -/
def sort.partialInsertionSort_left (less : Change → Change → Bool) :
    Nat → List Change → List Change
  | 0, data => data
  | j + 1, data =>
    if sort.Less less data (j + 1) j = false then data
    else sort.partialInsertionSort_left less j (sort.Swap data (j + 1) j)

/-- The loop `for j := i + 1; j < b; j++` of `partialInsertionSort_func` that
shifts the greater element to the right. -/
def sort.partialInsertionSort_right (less : Change → Change → Bool) (b : Nat) :
    Nat → List Change → Nat → List Change
  | 0, data, _ => data
  | fuel + 1, data, j =>
    if j < b then
      if sort.Less less data j (j - 1) = false then data
      else sort.partialInsertionSort_right less b fuel (sort.Swap data j (j - 1)) (j + 1)
    else data

/-- The outer loop of `partialInsertionSort_func`, `steps` rounds are left. -/
def sort.partialInsertionSort_steps (less : Change → Change → Bool) (a b : Nat) :
    Nat → List Change → Nat → List Change × Bool
  | 0, data, _ => (data, false)
  | steps + 1, data, i =>
    let i1 := sort.partialInsertionSort_skip less data b (b - i) i
    if i1 = b then (data, true)
    else if b - a < 50 then (data, false)
    else
      let data1 := sort.Swap data i1 (i1 - 1)
      let data2 :=
        if i1 - a ≥ 2 then sort.partialInsertionSort_left less (i1 - 1) data1 else data1
      let data3 :=
        if b - i1 ≥ 2 then sort.partialInsertionSort_right less b (b - i1) data2 (i1 + 1)
        else data2
      sort.partialInsertionSort_steps less a b steps data3 i1

/-- The function `partialInsertionSort_func`: partially sorts `data[a:b]`, true
when the slice is sorted at the end (`maxSteps` is 5, `shortestShifting`
is 50). -/
def sort.partialInsertionSort_func (less : Change → Change → Bool) (data : List Change)
    (a b : Nat) : List Change × Bool :=
  sort.partialInsertionSort_steps less a b 5 data (a + 1)

/-- The method `Next` of `xorshift`, on 64 bits, with the shifts 13, 17 and 5 of
Go 1.19. It is used by `breakPatterns_func` only, after an unbalanced partition
of more than twelve elements. -/
def sort.xorshift_Next (r : Nat) : Nat :=
  let r1 := r ^^^ ((r <<< 13) % 2 ^ 64)
  let r2 := r1 ^^^ (r1 >>> 17)
  r2 ^^^ ((r2 <<< 5) % 2 ^ 64)

/-- The function `bits.Len`: the number of bits of a number, 0 for 0. -/
def sort.bitsLen : Nat → Nat → Nat
  | 0, _ => 0
  | fuel + 1, n => if n = 0 then 0 else 1 + sort.bitsLen fuel (n / 2)

/-- The function `nextPowerOfTwo`. -/
def sort.nextPowerOfTwo (length : Nat) : Nat := 2 ^ sort.bitsLen length length

/-- The loop of `breakPatterns_func`, `3 - i` rounds are left. -/
def sort.breakPatterns_loop (a length modulus idx : Nat) :
    Nat → Nat → Nat → List Change → List Change
  | 0, _, _, data => data
  | rounds + 1, i, random, data =>
    let random1 := sort.xorshift_Next random
    let other := (random1 % 2 ^ 64) &&& (modulus - 1)
    let other1 := if other ≥ length then other - length else other
    sort.breakPatterns_loop a length modulus idx rounds (i + 1) random1
      (sort.Swap data (idx - 1 + i) (a + other1))

/-- The function `breakPatterns_func`: scatters three elements of `data[a:b]`. -/
def sort.breakPatterns_func (data : List Change) (a b : Nat) : List Change :=
  let length := b - a
  if length ≥ 8 then
    sort.breakPatterns_loop a length (sort.nextPowerOfTwo length) (a + (length / 4) * 2 - 1)
      3 0 length data
  else data

/-- The hint of `choosePivot_func` (`sortedHint`). -/
inductive sort.sortedHint where
  | unknownHint
  | increasingHint
  | decreasingHint
  deriving DecidableEq, Repr

/-- The function `order2_func`: the two indices in the order of their elements,
and the count of swaps. -/
def sort.order2_func (less : Change → Change → Bool) (data : List Change)
    (a b swaps : Nat) : Nat × Nat × Nat :=
  if sort.Less less data b a = true then (b, a, swaps + 1) else (a, b, swaps)

/-- The function `median_func`: the index of the median of three elements, and
the count of swaps. -/
def sort.median_func (less : Change → Change → Bool) (data : List Change)
    (a b c swaps : Nat) : Nat × Nat :=
  let r1 := sort.order2_func less data a b swaps
  let r2 := sort.order2_func less data r1.2.1 c r1.2.2
  let r3 := sort.order2_func less data r1.1 r2.1 r2.2.2
  (r3.2.1, r3.2.2)

/-- The function `medianAdjacent_func`. -/
def sort.medianAdjacent_func (less : Change → Change → Bool) (data : List Change)
    (a swaps : Nat) : Nat × Nat :=
  sort.median_func less data (a - 1) a (a + 1) swaps

/-- The function `choosePivot_func`: a pivot in `data[a:b]` and a hint
(`shortestNinther` is 50, `maxSwaps` is 12). -/
def sort.choosePivot_func (less : Change → Change → Bool) (data : List Change)
    (a b : Nat) : Nat × sort.sortedHint :=
  let l := b - a
  let i := a + l / 4 * 1
  let j := a + l / 4 * 2
  let k := a + l / 4 * 3
  let r : Nat × Nat :=
    if l ≥ 8 then
      if l ≥ 50 then
        let ri := sort.medianAdjacent_func less data i 0
        let rj := sort.medianAdjacent_func less data j ri.2
        let rk := sort.medianAdjacent_func less data k rj.2
        sort.median_func less data ri.1 rj.1 rk.1 rk.2
      else sort.median_func less data i j k 0
    else (j, 0)
  if r.2 = 0 then (r.1, .increasingHint)
  else if r.2 = 12 then (r.1, .decreasingHint)
  else (r.1, .unknownHint)

/-- The loop of `reverseRange_func`. -/
def sort.reverseRange_loop : Nat → List Change → Nat → Nat → List Change
  | 0, data, _, _ => data
  | fuel + 1, data, i, j =>
    if i < j then sort.reverseRange_loop fuel (sort.Swap data i j) (i + 1) (j - 1) else data

/-- The function `reverseRange_func`: reverses `data[a:b]`. -/
def sort.reverseRange_func (data : List Change) (a b : Nat) : List Change :=
  sort.reverseRange_loop (b - a) data a (b - 1)

/-- The function `pdqsort_func`: sorts `data[a:b]`. The loop and the recursive
call are one recursion; the first argument bounds its depth, and `b - a`
decreases in each round. -/
def sort.pdqsort_func (less : Change → Change → Bool) :
    Nat → List Change → Nat → Nat → Nat → Bool → Bool → List Change
  | 0, data, _, _, _, _, _ => data
  | fuel + 1, data, a, b, limit, wasBalanced, wasPartitioned =>
    let length := b - a
    if length ≤ 12 then sort.insertionSort_func less data a b
    else if limit = 0 then sort.heapSort_func less data a b
    else
      let data1 := if wasBalanced = false then sort.breakPatterns_func data a b else data
      let limit1 := if wasBalanced = false then limit - 1 else limit
      let ph := sort.choosePivot_func less data1 a b
      let data2 :=
        if ph.2 = .decreasingHint then sort.reverseRange_func data1 a b else data1
      let pivot := if ph.2 = .decreasingHint then (b - 1) - (ph.1 - a) else ph.1
      let hint := if ph.2 = .decreasingHint then sort.sortedHint.increasingHint else ph.2
      let partial1 :=
        if wasBalanced = true ∧ wasPartitioned = true ∧ hint = .increasingHint then
          sort.partialInsertionSort_func less data2 a b
        else (data2, false)
      if partial1.2 = true then partial1.1
      else
        let data3 := partial1.1
        if a > 0 ∧ sort.Less less data3 (a - 1) pivot = false then
          let pe := sort.partitionEqual_func less data3 a b pivot
          sort.pdqsort_func less fuel pe.1 pe.2 b limit1 wasBalanced wasPartitioned
        else
          let p := sort.partition_func less data3 a b pivot
          let mid := p.2.1
          let leftLen := mid - a
          let rightLen := b - mid
          let balanceThreshold := length / 8
          if leftLen < rightLen then
            sort.pdqsort_func less fuel
              (sort.pdqsort_func less fuel p.1 a mid limit1 true true)
              (mid + 1) b limit1 (decide (leftLen ≥ balanceThreshold)) p.2.2
          else
            sort.pdqsort_func less fuel
              (sort.pdqsort_func less fuel p.1 (mid + 1) b limit1 true true)
              a mid limit1 (decide (rightLen ≥ balanceThreshold)) p.2.2

/-- The function `sort.Slice`: sorts the slice by the comparison, with
`limit := bits.Len(uint(length))`. -/
def sort.Slice (less : Change → Change → Bool) (data : List Change) : List Change :=
  sort.pdqsort_func less (data.length + 1) data 0 data.length
    (sort.bitsLen data.length data.length) true true

/-- A bounded daylight sub-definition, with `COUNT=7`. -/
def countSevenDaylight : Component :=
  .mk "DAYLIGHT".toList
    [ ("DTSTART".toList, "19700329T020000".toList),
      ("TZOFFSETFROM".toList, "+0100".toList),
      ("TZOFFSETTO".toList, "+0200".toList),
      ("TZNAME".toList, "CEST".toList),
      ("RRULE".toList, "FREQ=YEARLY;BYMONTH=3;BYDAY=-1SU;COUNT=7".toList) ] []

/-- A definition with the same bounded rule twice, around the standard rule of
the CET/CEST example. -/
def tiedZone : Component :=
  .mk "VTIMEZONE".toList [] [countSevenDaylight, cetStandard, countSevenDaylight]

/-- An evaluator that yields the same seven increasing instants for every
rule. -/
def sevenEvaluator : Evaluator :=
  { ROption := Unit, StrToROptionInLocation := fun _ _ => .ok (),
    occurrences := fun _ => .ok [1, 2, 3, 4, 5, 6, 7] }

/-- The changes of `tiedZone` under `sevenEvaluator`, in discovery order. -/
def tiedDiscovered : List Change :=
  [⟨1, 0⟩, ⟨2, 0⟩, ⟨3, 0⟩, ⟨4, 0⟩, ⟨5, 0⟩, ⟨6, 0⟩, ⟨7, 0⟩,
   ⟨1, 1⟩, ⟨2, 1⟩, ⟨3, 1⟩, ⟨4, 1⟩, ⟨5, 1⟩, ⟨6, 1⟩, ⟨7, 1⟩]

/-- The changes of `tiedZone` under `sevenEvaluator` after `sort.Slice`. -/
def tiedSorted : List Change :=
  [⟨1, 1⟩, ⟨1, 0⟩, ⟨2, 0⟩, ⟨2, 1⟩, ⟨3, 0⟩, ⟨3, 1⟩, ⟨4, 0⟩,
   ⟨4, 1⟩, ⟨5, 0⟩, ⟨5, 1⟩, ⟨6, 0⟩, ⟨6, 1⟩, ⟨7, 0⟩, ⟨7, 1⟩]

/-! ## Theorems -/

theorem digitVal_le (c : Char) (h : isDigit c = true) : digitVal c ≤ 9 := by
  simp only [isDigit, Bool.and_eq_true, decide_eq_true_eq] at h
  simp only [digitVal]; omega

theorem ParseUint_two (a b : Char) (n : Nat) :
    ParseUint [a, b] = some n ↔
      isDigit a = true ∧ isDigit b = true ∧ n = 10 * digitVal a + digitVal b := by
  unfold ParseUint
  simp only [List.isEmpty_cons, Bool.false_eq_true, if_false, List.all_cons, List.all_nil,
    Bool.and_true, Bool.and_eq_true, decimalValue, List.foldl_cons, List.foldl_nil]
  constructor
  · intro h
    split at h
    · rename_i hd
      split at h
      · simp at h; exact ⟨hd.1, hd.2, by omega⟩
      · simp at h
    · simp at h
  · rintro ⟨ha, hb, rfl⟩
    have := digitVal_le a ha
    have := digitVal_le b hb
    rw [if_pos ⟨ha, hb⟩, if_pos (by omega)]
    simp

theorem ParseUint_two_none (a b : Char) :
    ParseUint [a, b] = none ↔ ¬ (isDigit a = true ∧ isDigit b = true) := by
  constructor
  · intro h hd
    have := (ParseUint_two a b _).2 ⟨hd.1, hd.2, rfl⟩
    rw [h] at this; simp at this
  · intro h
    cases hp : ParseUint [a, b] with
    | none => rfl
    | some n => exact absurd ((ParseUint_two a b n).1 hp |> fun x => ⟨x.1, x.2.1⟩) h

theorem parseOffset_eq_body (offset : Str) :
    parseOffset offset = offsetBody offset (startsWith offset '-')
      (if startsWith offset '-' then offset.drop 1
       else if startsWith offset '+' then offset.drop 1 else offset) := rfl

theorem sign_mul (neg : Bool) (x : Int) :
    (if neg = true then -x else x) = (if neg = true then -1 else 1) * x := by
  cases neg <;> simp

theorem offsetBody_four (o : Str) (neg : Bool) (a b c e : Char) (d : Duration) :
    offsetBody o neg [a, b, c, e] = .ok d ↔ OffsetDigits neg [a, b, c, e] d := by
  unfold offsetBody OffsetDigits
  simp only [List.length_cons, List.length_nil, slice, List.drop, List.take]
  constructor
  · intro h
    simp at h
    cases hp : ParseUint [a, b] with
    | none => simp [hp] at h
    | some hh =>
      cases hq : ParseUint [c, e] with
      | none => simp [hp, hq] at h; split at h <;> simp at h
      | some mm =>
        simp [hp, hq] at h
        split at h
        · simp at h
        · split at h
          · simp at h
          · simp at h
            obtain ⟨ha, hb, rfl⟩ := (ParseUint_two a b hh).1 hp
            obtain ⟨hc, he, rfl⟩ := (ParseUint_two c e mm).1 hq
            refine ⟨a, b, c, e, [], rfl, ha, hb, hc, he, Or.inl rfl, by omega, by omega, by simp [decimalValue], ?_⟩
            rw [← h, sign_mul]; simp [decimalValue]
  · rintro ⟨h1, h2, m1, m2, secs, hs, ha, hb, hc, he, hsecs, hH, hM, hS, rfl⟩
    simp at hs
    obtain ⟨rfl, rfl, rfl, rfl, rfl⟩ := hs
    have hp := (ParseUint_two a b _).2 ⟨ha, hb, rfl⟩
    have hq := (ParseUint_two c e _).2 ⟨hc, he, rfl⟩
    simp [hp, hq]
    rw [if_neg (by omega), if_neg (by omega)]
    simp [decimalValue, sign_mul]

theorem offsetBody_six (o : Str) (neg : Bool) (a b c e f g : Char) (d : Duration) :
    offsetBody o neg [a, b, c, e, f, g] = .ok d ↔ OffsetDigits neg [a, b, c, e, f, g] d := by
  unfold offsetBody OffsetDigits
  simp only [List.length_cons, List.length_nil, slice, List.drop, List.take]
  constructor
  · intro h
    simp at h
    cases hp : ParseUint [a, b] with
    | none => simp [hp] at h
    | some hh =>
      cases hq : ParseUint [c, e] with
      | none => simp [hp, hq] at h; split at h <;> simp at h
      | some mm =>
        cases hr : ParseUint [f, g] with
        | none => simp [hp, hq, hr] at h; split at h <;> [simp at h; (split at h <;> simp at h)]
        | some ss =>
          obtain ⟨ha, hb, rfl⟩ := (ParseUint_two a b hh).1 hp
          obtain ⟨hc, he, rfl⟩ := (ParseUint_two c e mm).1 hq
          obtain ⟨hf, hg, rfl⟩ := (ParseUint_two f g ss).1 hr
          by_cases hH : 23 < 10 * digitVal a + digitVal b
          · simp [hp, hq, hr, hH] at h
          by_cases hM : 59 < 10 * digitVal c + digitVal e
          · simp [hp, hq, hr, hH, hM] at h
          by_cases hS : 59 < 10 * digitVal f + digitVal g
          · simp [hp, hq, hr, hH, hM, hS] at h
          simp [hp, hq, hr, hH, hM, hS] at h
          refine ⟨a, b, c, e, [f, g], rfl, ha, hb, hc, he, Or.inr ⟨f, g, rfl, hf, hg⟩,
            by omega, by omega, by simp [decimalValue]; omega, ?_⟩
          rw [← h, sign_mul]; simp [decimalValue]
  · rintro ⟨h1, h2, m1, m2, secs, hs, ha, hb, hc, he, hsecs, hH, hM, hS, rfl⟩
    simp at hs
    obtain ⟨rfl, rfl, rfl, rfl, rfl⟩ := hs
    rcases hsecs with h0 | ⟨s1, s2, h2, hf, hg⟩
    · simp at h0
    · simp at h2
      obtain ⟨rfl, rfl⟩ := h2
      have hp := (ParseUint_two a b _).2 ⟨ha, hb, rfl⟩
      have hq := (ParseUint_two c e _).2 ⟨hc, he, rfl⟩
      have hr := (ParseUint_two f g _).2 ⟨hf, hg, rfl⟩
      simp [decimalValue] at hS
      simp [hp, hq, hr]
      rw [if_neg (by omega), if_neg (by omega), if_neg (by omega)]
      simp [decimalValue, sign_mul]

theorem offsetBody_iff (o : Str) (neg : Bool) (s : Str) (d : Duration) :
    offsetBody o neg s = .ok d ↔ OffsetDigits neg s d := by
  by_cases h4 : s.length = 4
  · match s, h4 with
    | [a, b, c, e], _ => exact offsetBody_four o neg a b c e d
  by_cases h6 : s.length = 6
  · match s, h6 with
    | [a, b, c, e, f, g], _ => exact offsetBody_six o neg a b c e f g d
  constructor
  · intro h
    unfold offsetBody at h
    rw [if_pos ⟨h4, h6⟩] at h
    cases h
  · rintro ⟨h1, h2, m1, m2, secs, rfl, -, -, -, -, hsecs, -⟩
    rcases hsecs with rfl | ⟨s1, s2, rfl, -, -⟩
    · simp at h4
    · simp at h6

theorem isDigit_ne_sign (c : Char) (h : isDigit c = true) : c ≠ '-' ∧ c ≠ '+' := by
  constructor <;> rintro rfl <;> revert h <;> decide

theorem parseOffset_iff (s : Str) (d : Duration) :
    parseOffset s = .ok d ↔ OffsetText s d := by
  rw [parseOffset_eq_body]
  constructor
  · intro h
    by_cases hm : startsWith s '-' = true
    · rw [if_pos hm, hm, offsetBody_iff] at h
      obtain ⟨h1, h2, m1, m2, secs, hs, ha, hb, hc, he, hsecs, hH, hM, hS, rfl⟩ := h
      match s, hm, hs with
      | x :: t, hm, hs =>
        simp [startsWith] at hm hs
        subst hm; subst hs
        exact ⟨['-'], h1, h2, m1, m2, secs, by simp, Or.inr (Or.inr rfl), ha, hb, hc, he, hsecs,
          hH, hM, hS, by simp⟩
    · by_cases hp : startsWith s '+' = true
      · rw [if_neg hm, if_pos hp, offsetBody_iff] at h
        simp only [Bool.not_eq_true] at hm
        rw [hm] at h
        obtain ⟨h1, h2, m1, m2, secs, hs, ha, hb, hc, he, hsecs, hH, hM, hS, rfl⟩ := h
        match s, hp, hs with
        | x :: t, hp, hs =>
          simp [startsWith] at hp hs
          subst hp; subst hs
          exact ⟨['+'], h1, h2, m1, m2, secs, by simp, Or.inr (Or.inl rfl), ha, hb, hc, he, hsecs,
            hH, hM, hS, by simp⟩
      · rw [if_neg hm, if_neg hp, offsetBody_iff] at h
        simp only [Bool.not_eq_true] at hm
        rw [hm] at h
        obtain ⟨h1, h2, m1, m2, secs, hs, ha, hb, hc, he, hsecs, hH, hM, hS, rfl⟩ := h
        exact ⟨[], h1, h2, m1, m2, secs, by simpa using hs, Or.inl rfl, ha, hb, hc, he, hsecs,
          hH, hM, hS, by simp⟩
  · rintro ⟨sign, h1, h2, m1, m2, secs, rfl, hsign, ha, hb, hc, he, hsecs, hH, hM, hS, rfl⟩
    rcases hsign with rfl | rfl | rfl
    · have hn := isDigit_ne_sign h1 ha
      have e1 : startsWith ([] ++ [h1, h2, m1, m2] ++ secs) '-' = false := by
        simp [startsWith, hn.1]
      have e2 : startsWith ([] ++ [h1, h2, m1, m2] ++ secs) '+' = false := by
        simp [startsWith, hn.2]
      rw [e1, e2, offsetBody_iff]
      exact ⟨h1, h2, m1, m2, secs, by simp, ha, hb, hc, he, hsecs, hH, hM, hS, by simp⟩
    · have e1 : startsWith (['+'] ++ [h1, h2, m1, m2] ++ secs) '-' = false := by
        simp [startsWith]
      have e2 : startsWith (['+'] ++ [h1, h2, m1, m2] ++ secs) '+' = true := by
        simp [startsWith]
      rw [e1, e2, offsetBody_iff]
      exact ⟨h1, h2, m1, m2, secs, by simp, ha, hb, hc, he, hsecs, hH, hM, hS, by simp⟩
    · have e1 : startsWith (['-'] ++ [h1, h2, m1, m2] ++ secs) '-' = true := by
        simp [startsWith]
      rw [e1, offsetBody_iff]
      exact ⟨h1, h2, m1, m2, secs, by simp, ha, hb, hc, he, hsecs, hH, hM, hS, by simp⟩

/-- Claim C2: `parseOffset` succeeds on a string exactly when it is an optional
single `+` or `-` followed by four or six decimal digits HHMM[SS] with
HH at most 23, MM at most 59 and SS at most 59, and the result is then the
signed duration of HH hours, MM minutes and SS seconds, negative only after
`-`; `+0100` is one hour, `-0930` is minus nine and a half hours, `0200` is two
hours, and hour 24 and minute 60 are rejected. -/
theorem C2_parseOffset_grammar :
    (∀ (s : Str) (d : Duration), parseOffset s = .ok d ↔ OffsetText s d) ∧
    (∀ s : Str, (∃ d, parseOffset s = .ok d) ↔ ∃ d, OffsetText s d) ∧
    parseOffset "+0100".toList = .ok Hour ∧
    parseOffset "-0930".toList = .ok (-(9 * Hour + 30 * Minute)) ∧
    parseOffset "0200".toList = .ok (2 * Hour) ∧
    parseOffset "+2400".toList = .error (.invalidHours "+2400".toList) ∧
    parseOffset "+0060".toList = .error (.invalidMinutes "+0060".toList) := by
  refine ⟨parseOffset_iff, fun s => ?_, by decide, by decide, by decide, by decide, by decide⟩
  constructor
  · rintro ⟨d, h⟩; exact ⟨d, (parseOffset_iff s d).1 h⟩
  · rintro ⟨d, h⟩; exact ⟨d, (parseOffset_iff s d).2 h⟩

/-! ## The field map -/

theorem mapKeys_mapSet (m : StrMap) (k v : Str) (x : Str) :
    x ∈ mapKeys (mapSet m k v) ↔ x = k ∨ x ∈ mapKeys m := by
  induction m with
  | nil => simp [mapSet, mapKeys]
  | cons p rest ih =>
    obtain ⟨k0, v0⟩ := p
    unfold mapSet
    by_cases h : k0 = k
    · rw [if_pos h]; subst h; simp [mapKeys]
    · rw [if_neg h]
      simp only [mapKeys, List.map_cons, List.mem_cons] at ih ⊢
      rw [ih]; tauto

theorem mem_mapSet (m : StrMap) (k v : Str) (p : Str × Str) (h : p ∈ mapSet m k v) :
    p = (k, v) ∨ p ∈ m := by
  induction m with
  | nil => simp [mapSet] at h; exact Or.inl h
  | cons q rest ih =>
    obtain ⟨k0, v0⟩ := q
    unfold mapSet at h
    by_cases hk : k0 = k
    · rw [if_pos hk] at h
      rcases List.mem_cons.1 h with h | h
      · exact Or.inl h
      · exact Or.inr (List.mem_cons_of_mem _ h)
    · rw [if_neg hk] at h
      rcases List.mem_cons.1 h with h | h
      · exact Or.inr (h ▸ List.mem_cons_self _ _)
      · rcases ih h with h | h
        · exact Or.inl h
        · exact Or.inr (List.mem_cons_of_mem _ h)

theorem lookupStr_none_iff (m : StrMap) (k : Str) :
    lookupStr k m = none ↔ k ∉ mapKeys m := by
  induction m with
  | nil => simp [lookupStr, mapKeys]
  | cons p rest ih =>
    obtain ⟨k0, v0⟩ := p
    unfold lookupStr
    by_cases h : k0 = k
    · rw [if_pos h]; simp [mapKeys, h]
    · rw [if_neg h, ih]; simp [mapKeys, Ne.symm h]

theorem lookupStr_mem (m : StrMap) (k v : Str) (h : lookupStr k m = some v) : (k, v) ∈ m := by
  induction m with
  | nil => simp [lookupStr] at h
  | cons p rest ih =>
    obtain ⟨k0, v0⟩ := p
    unfold lookupStr at h
    by_cases hk : k0 = k
    · rw [if_pos hk] at h; simp at h; subst hk; subst h; exact List.mem_cons_self _ _
    · rw [if_neg hk] at h; exact List.mem_cons_of_mem _ (ih h)

theorem mapGet_eq_nil_iff (m : StrMap) (hm : ValuesNonEmpty m) (k : Str) :
    mapGet m k = [] ↔ k ∉ mapKeys m := by
  unfold mapGet
  cases h : lookupStr k m with
  | none => simp [(lookupStr_none_iff m k).1 h]
  | some v =>
    have hmem := lookupStr_mem m k v h
    have hv : v ≠ [] := hm _ hmem
    have hk : k ∈ mapKeys m := List.mem_map.2 ⟨(k, v), hmem, rfl⟩
    simp [hv, hk]

theorem parseParts_inv (P : StrMap → Prop)
    (hstep : ∀ m k v, P m → v ≠ [] → P (mapSet m k v))
    (parts : List Str) (m m1 : StrMap) (hm : P m)
    (h : parseParts parts m = .ok m1) : P m1 := by
  induction parts generalizing m with
  | nil => simp [parseParts] at h; exact h ▸ hm
  | cons part rest ih =>
    unfold parseParts at h
    split at h
    · rename_i key value heq
      split at h
      · cases h
      · rename_i hv
        exact ih (mapSet m key value) (hstep m key value hm (by
          intro hnil; apply hv; simp [hnil])) h
    · cases h

theorem parseParts_valuesNonEmpty (parts : List Str) (m1 : StrMap)
    (h : parseParts parts [] = .ok m1) : ValuesNonEmpty m1 := by
  refine parseParts_inv ValuesNonEmpty ?_ parts [] m1 (by intro p hp; cases hp) h
  intro m k v hm hv p hp
  rcases mem_mapSet m k v p hp with rfl | hp
  · exact hv
  · exact hm p hp

/-- What a successful `parseRule` has read. -/
theorem parseRule_ok (vRule : Component) (isDST : Bool) (r : zoneRule)
    (h : parseRule vRule isDST = .ok r) :
    ∃ (from_ to_ value : Str),
      lookupStr "DTSTART".toList vRule.Props = some r.dtStart ∧
      r.dtStart.length = LocalDateTimeFormat.length ∧
      lookupStr "TZOFFSETFROM".toList vRule.Props = some from_ ∧
      parseOffset from_ = .ok r.tzOffsetFrom ∧
      lookupStr "TZOFFSETTO".toList vRule.Props = some to_ ∧
      parseOffset to_ = .ok r.tzOffsetTo ∧
      r.tzName = (lookupStr "TZNAME".toList vRule.Props).getD [] ∧
      lookupStr "RRULE".toList vRule.Props = some value ∧
      r.rrule = some value ∧
      parseParts (splitChar ';' value) [] = .ok r.rruleParts ∧
      r.isDST = isDST := by
  unfold parseRule at h
  split at h
  · cases h
  · rename_i dtStart hdt
    split at h
    · cases h
    · rename_i hlen
      split at h
      · cases h
      · rename_i from_ hfrom
        split at h
        · cases h
        · rename_i offsetFrom hpf
          split at h
          · cases h
          · rename_i to_ hto
            split at h
            · cases h
            · rename_i offsetTo hpt
              split at h
              · cases h
              · rename_i value hval
                split at h
                · cases h
                · rename_i m hm
                  simp only [Except.ok.injEq] at h
                  subst h
                  exact ⟨from_, to_, value, hdt, by simpa using hlen, hfrom, hpf, hto, hpt, rfl,
                    hval, rfl, hm, rfl⟩

theorem parseRule_valuesNonEmpty (vRule : Component) (isDST : Bool) (r : zoneRule)
    (h : parseRule vRule isDST = .ok r) : ValuesNonEmpty r.rruleParts := by
  obtain ⟨_, _, value, -, -, -, -, -, -, -, -, -, hp, -⟩ := parseRule_ok vRule isDST r h
  exact parseParts_valuesNonEmpty _ _ hp

/-- Claim C5: for every rule returned by `parseRule`, `isRepeatingForever` is
true exactly when the field map has neither the key COUNT nor the key UNTIL;
absence of the key and emptiness of the value agree because no value stored by
`parseRule` is empty. -/
theorem C5_isRepeatingForever_iff_keys_absent (vRule : Component) (isDST : Bool) (r : zoneRule)
    (h : parseRule vRule isDST = .ok r) :
    (r.isRepeatingForever = true ↔
      ("COUNT".toList ∉ mapKeys r.rruleParts ∧ "UNTIL".toList ∉ mapKeys r.rruleParts)) ∧
    ValuesNonEmpty r.rruleParts := by
  have hv := parseRule_valuesNonEmpty vRule isDST r h
  refine ⟨?_, hv⟩
  unfold zoneRule.isRepeatingForever
  rw [Bool.and_eq_true, decide_eq_true_eq, decide_eq_true_eq,
    mapGet_eq_nil_iff _ hv, mapGet_eq_nil_iff _ hv]
  tauto

theorem addZones_ok (ev : Evaluator) (lt lt1 : Template) (rule : zoneRule)
    (h : addZones ev lt rule = .ok lt1) :
    ∃ (ro : ev.ROption) (ts : List Int),
      rule.roption ev = .ok ro ∧ ev.occurrences ro = .ok ts ∧
      lt1 = { lt with
              Zones := lt.Zones ++ [{ Name := rule.tzName, Offset := rule.tzOffsetTo,
                                      IsDST := rule.isDST }],
              Changes := lt.Changes ++
                ts.map (fun t => { Start := t, ZoneIndex := (lt.Zones.length : Int) }) } := by
  unfold addZones at h
  split at h
  · cases h
  · rename_i ro hro
    split at h
    · cases h
    · rename_i ts hts
      simp only [Except.ok.injEq] at h
      refine ⟨ro, ts, hro, hts, ?_⟩
      rw [← h]
      simp

theorem addZones_inRange (ev : Evaluator) (lt lt1 : Template) (rule : zoneRule)
    (hlt : ChangesInRange lt) (h : addZones ev lt rule = .ok lt1) : ChangesInRange lt1 := by
  obtain ⟨ro, ts, -, -, rfl⟩ := addZones_ok ev lt lt1 rule h
  intro c hc
  simp only [List.mem_append, List.mem_map] at hc
  simp only [List.length_append, List.length_singleton, Nat.cast_add, Nat.cast_one]
  rcases hc with hc | ⟨t, -, rfl⟩
  · have := hlt c hc
    omega
  · simp

theorem processChildren_inRange (ev : Evaluator) (children : List Component)
    (lt : Template) (s d : extendRuleSlot) (lt1 : Template) (s1 d1 : extendRuleSlot)
    (hlt : ChangesInRange lt)
    (h : processChildren ev children lt s d = .ok (lt1, s1, d1)) : ChangesInRange lt1 := by
  induction children generalizing lt s d with
  | nil =>
    simp only [processChildren, Except.ok.injEq, Prod.mk.injEq] at h
    exact h.1 ▸ hlt
  | cons child rest ih =>
    unfold processChildren at h
    simp only at h
    split at h
    · cases h
    · split at h
      · cases h
      · rename_i rule hrule
        split at h
        · split at h
          · split at h
            · cases h
            · exact ih lt _ _ hlt h
          · split at h
            · cases h
            · exact ih lt _ _ hlt h
        · split at h
          · cases h
          · rename_i lt2 hlt2
            exact ih lt2 _ _ (addZones_inRange ev lt lt2 rule hlt hlt2) h

theorem addExtendRules_fields (lt lt1 : Template) (s d : extendRuleSlot)
    (h : addExtendRules lt s d = .ok lt1) :
    lt1.Zones = lt.Zones ∧ lt1.Changes = lt.Changes ∧ lt1.Name = lt.Name := by
  unfold addExtendRules at h
  split at h
  · cases h
  · split at h
    · cases h
    · simp only at h
      split at h
      · simp only [Except.ok.injEq] at h; subst h; simp
      · split at h
        · cases h
        · split at h
          · cases h
          · split at h
            · cases h
            · simp only [Except.ok.injEq] at h; subst h; simp

theorem ToLocationTemplate_ok (ev : Evaluator)
    (sortSlice : (Change → Change → Bool) → List Change → List Change)
    (name : Str) (vTimezone : Component) (lt : Template)
    (h : ToLocationTemplate ev sortSlice name vTimezone = .ok lt) :
    ∃ (lt1 lt2 : Template) (s d : extendRuleSlot),
      processChildren ev vTimezone.Children
        { Name := name, Zones := [], Changes := [], Extend := [] }
        { slotName := "standard".toList, r := zoneRule.zero, present := false }
        { slotName := "daylight".toList, r := zoneRule.zero, present := false }
        = .ok (lt1, s, d) ∧
      addExtendRules lt1 s d = .ok lt2 ∧
      lt = { lt2 with Changes := sortSlice changeBefore lt2.Changes } := by
  unfold ToLocationTemplate at h
  simp only at h
  split at h
  · cases h
  · rename_i lt1 s d h1
    split at h
    · cases h
    · rename_i lt2 h2
      simp only [Except.ok.injEq] at h
      exact ⟨lt1, lt2, s, d, h1, h2, h.symm⟩

/-- Claim C3: on every definition on which `ToLocationTemplate` succeeds,
whatever occurrences the evaluator yields and whatever method `sort.Slice`
uses within its contract, the changes of the template are in non-decreasing
order of their instants and the zone index of every change is at least 0 and
less than the number of zones. -/
theorem C3_changes_sorted_and_indices_in_range (ev : Evaluator)
    (sortSlice : (Change → Change → Bool) → List Change → List Change)
    (hsort : SortsChanges sortSlice)
    (name : Str) (vTimezone : Component) (lt : Template)
    (h : ToLocationTemplate ev sortSlice name vTimezone = .ok lt) :
    lt.Changes.Pairwise (fun a b => a.Start ≤ b.Start) ∧
    ∀ c ∈ lt.Changes, 0 ≤ c.ZoneIndex ∧ c.ZoneIndex < (lt.Zones.length : Int) := by
  obtain ⟨lt1, lt2, s, d, h1, h2, rfl⟩ := ToLocationTemplate_ok ev sortSlice name vTimezone lt h
  obtain ⟨hz, hc, -⟩ := addExtendRules_fields lt1 lt2 s d h2
  have hr : ChangesInRange lt1 :=
    processChildren_inRange ev _ _ _ _ lt1 s d (by intro c hc; cases hc) h1
  obtain ⟨hperm, hsorted⟩ := hsort lt2.Changes
  constructor
  · refine hsorted.imp ?_
    intro a b hab
    simp only [changeBefore, decide_eq_false_iff_not, not_lt] at hab
    exact hab
  · intro c hcm
    have : c ∈ lt1.Changes := hc ▸ (hperm.mem_iff.1 hcm)
    simpa [hz] using hr c this

theorem insertChange_perm (less : Change → Change → Bool) (a : Change) (l : List Change) :
    (insertChange less a l).Perm (a :: l) := by
  induction l with
  | nil => simp [insertChange]
  | cons b rest ih =>
    unfold insertChange
    split
    · exact (List.Perm.cons b ih).trans (List.Perm.swap a b rest)
    · exact List.Perm.refl _

theorem insertionSortSlice_perm (less : Change → Change → Bool) (l : List Change) :
    (insertionSortSlice less l).Perm l := by
  induction l with
  | nil => simp [insertionSortSlice]
  | cons a rest ih =>
    unfold insertionSortSlice
    exact (insertChange_perm less a _).trans (List.Perm.cons a ih)

theorem insertChange_sorted (a : Change) (l : List Change)
    (hl : l.Pairwise (fun x y => changeBefore y x = false)) :
    (insertChange changeBefore a l).Pairwise (fun x y => changeBefore y x = false) := by
  induction l with
  | nil => simp [insertChange]
  | cons b rest ih =>
    unfold insertChange
    rw [List.pairwise_cons] at hl
    split
    · rename_i hba
      rw [List.pairwise_cons]
      refine ⟨?_, ih hl.2⟩
      intro y hy
      rcases List.mem_cons.1 ((insertChange_perm changeBefore a rest).mem_iff.1 hy) with rfl | hy
      · simp only [changeBefore, decide_eq_true_eq, decide_eq_false_iff_not, not_lt] at hba ⊢
        omega
      · exact hl.1 y hy
    · rename_i hba
      rw [List.pairwise_cons]
      refine ⟨?_, List.pairwise_cons.2 hl⟩
      intro y hy
      simp only [changeBefore, decide_eq_true_eq, decide_eq_false_iff_not, not_lt] at hba ⊢
      rcases List.mem_cons.1 hy with rfl | hy
      · omega
      · have := hl.1 y hy
        simp only [changeBefore, decide_eq_false_iff_not, not_lt] at this
        omega

theorem insertionSortSlice_sorts : SortsChanges insertionSortSlice := by
  intro l
  refine ⟨insertionSortSlice_perm _ l, ?_⟩
  induction l with
  | nil => simp [insertionSortSlice]
  | cons a rest ih =>
    unfold insertionSortSlice
    exact insertChange_sorted a _ ih

/-! ## The field flags -/

theorem lookupTable_mem {α : Type} (t : List (Str × α)) (k : Str) (v : α)
    (h : lookupTable k t = some v) : (k, v) ∈ t := by
  induction t with
  | nil => simp [lookupTable] at h
  | cons p rest ih =>
    obtain ⟨k0, v0⟩ := p
    unfold lookupTable at h
    by_cases hk : k0 = k
    · rw [if_pos hk] at h; simp at h; subst hk; subst h; exact List.mem_cons_self _ _
    · rw [if_neg hk] at h; exact List.mem_cons_of_mem _ (ih h)

theorem lookupTable_of_mem {α : Type} (t : List (Str × α)) (hn : (t.map Prod.fst).Nodup)
    (k : Str) (v : α) (h : (k, v) ∈ t) : lookupTable k t = some v := by
  induction t with
  | nil => cases h
  | cons p rest ih =>
    obtain ⟨k0, v0⟩ := p
    simp only [List.map_cons, List.nodup_cons] at hn
    unfold lookupTable
    rcases List.mem_cons.1 h with h | h
    · simp only [Prod.mk.injEq] at h
      rw [if_pos h.1.symm, h.2]
    · have : k0 ≠ k := by
        rintro rfl
        exact hn.1 (List.mem_map.2 ⟨(k0, v), h, rfl⟩)
      rw [if_neg this]
      exact ih hn.2 h

theorem lookupTable_none {α : Type} (t : List (Str × α)) (k : Str)
    (h : lookupTable k t = none) : k ∉ t.map Prod.fst := by
  induction t with
  | nil => simp
  | cons p rest ih =>
    obtain ⟨k0, v0⟩ := p
    unfold lookupTable at h
    by_cases hk : k0 = k
    · rw [if_pos hk] at h; cases h
    · rw [if_neg hk] at h
      simp only [List.map_cons, List.mem_cons, not_or]
      exact ⟨Ne.symm hk, ih h⟩

theorem fieldFlags_keys_nodup : (fieldFlagsByName.map Prod.fst).Nodup := by decide

theorem fieldFlags_values_nodup : (fieldFlagsByName.map Prod.snd).Nodup := by decide

theorem fieldFlags_pow : ∀ p ∈ fieldFlagsByName, ∃ j, j < 12 ∧ p.2 = 2 ^ j := by decide

theorem fieldFlags_name_unique (k1 k2 : Str) (fl : Nat)
    (h1 : (k1, fl) ∈ fieldFlagsByName) (h2 : (k2, fl) ∈ fieldFlagsByName) : k1 = k2 := by
  have key : ∀ (t : List (Str × Nat)), (t.map Prod.snd).Nodup →
      (k1, fl) ∈ t → (k2, fl) ∈ t → k1 = k2 := by
    intro t
    induction t with
    | nil => intro _ h; cases h
    | cons p rest ih =>
      intro hn h1 h2
      simp only [List.map_cons, List.nodup_cons] at hn
      rcases List.mem_cons.1 h1 with e1 | m1 <;> rcases List.mem_cons.1 h2 with e2 | m2
      · rw [← e1] at e2; exact (Prod.mk.inj e2).1.symm
      · exact absurd (List.mem_map.2 ⟨(k2, fl), m2, by rw [← e1]⟩) hn.1
      · exact absurd (List.mem_map.2 ⟨(k1, fl), m1, by rw [← e2]⟩) hn.1
      · exact ih hn.2 m1 m2
  exact key _ fieldFlags_values_nodup h1 h2

theorem ruleFlags_ok (m : StrMap) (f0 f : Nat) (h : ruleFlags m f0 = .ok f) :
    (∀ k ∈ mapKeys m, ∃ fl, lookupTable k fieldFlagsByName = some fl) ∧
    ∀ i, f.testBit i = true ↔
      (f0.testBit i = true ∨
        ∃ k ∈ mapKeys m, ∃ fl, lookupTable k fieldFlagsByName = some fl ∧ fl.testBit i = true) := by
  induction m generalizing f0 with
  | nil =>
    simp only [ruleFlags, Except.ok.injEq] at h
    subst h
    simp [mapKeys]
  | cons p rest ih =>
    obtain ⟨k0, v0⟩ := p
    unfold ruleFlags at h
    split at h
    · cases h
    · rename_i fl hfl
      obtain ⟨h1, h2⟩ := ih _ h
      constructor
      · intro k hk
        simp only [mapKeys, List.map_cons, List.mem_cons] at hk
        rcases hk with rfl | hk
        · exact ⟨fl, hfl⟩
        · exact h1 k hk
      · intro i
        rw [h2 i, Nat.testBit_or, Bool.or_eq_true]
        simp only [mapKeys, List.map_cons, List.mem_cons, exists_eq_or_imp]
        constructor
        · rintro ((h | h) | h)
          · exact Or.inl h
          · exact Or.inr (Or.inl ⟨fl, hfl, h⟩)
          · exact Or.inr (Or.inr h)
        · rintro (h | ⟨fl1, hfl1, h⟩ | h)
          · exact Or.inl (Or.inl h)
          · rw [hfl] at hfl1; cases hfl1; exact Or.inl (Or.inr h)
          · exact Or.inr h

theorem ruleFlags_error (m : StrMap) (f0 : Nat) (e : Err) (h : ruleFlags m f0 = .error e) :
    ∃ k ∈ mapKeys m, lookupTable k fieldFlagsByName = none ∧ e = .unsupportedField k := by
  induction m generalizing f0 with
  | nil => simp [ruleFlags] at h
  | cons p rest ih =>
    obtain ⟨k0, v0⟩ := p
    unfold ruleFlags at h
    split at h
    · rename_i hnone
      simp only [Except.error.injEq] at h
      exact ⟨k0, by simp [mapKeys], hnone, h.symm⟩
    · obtain ⟨k, hk, h1, h2⟩ := ih _ h
      exact ⟨k, by simp only [mapKeys, List.map_cons, List.mem_cons] at hk ⊢; exact Or.inr hk, h1, h2⟩

theorem ruleFlags_total (m : StrMap) (f0 : Nat)
    (hk : ∀ k ∈ mapKeys m, ∃ fl, lookupTable k fieldFlagsByName = some fl) :
    ∃ f, ruleFlags m f0 = .ok f := by
  cases h : ruleFlags m f0 with
  | ok f => exact ⟨f, rfl⟩
  | error e =>
    obtain ⟨k, hkm, hnone, -⟩ := ruleFlags_error m f0 e h
    obtain ⟨fl, hfl⟩ := hk k hkm
    rw [hnone] at hfl; cases hfl

/-- The flag of a table entry is set in the collected flags exactly when the
name of the entry is a key of the map. -/
theorem ruleFlags_testBit (m : StrMap) (f : Nat) (h : ruleFlags m 0 = .ok f)
    (name : Str) (j : Nat) (hmem : (name, 2 ^ j) ∈ fieldFlagsByName) :
    f.testBit j = true ↔ name ∈ mapKeys m := by
  obtain ⟨-, h2⟩ := ruleFlags_ok m 0 f h
  rw [h2 j]
  simp only [Nat.zero_testBit, Bool.false_eq_true, false_or]
  constructor
  · rintro ⟨k, hk, fl, hfl, hbit⟩
    have hm2 := lookupTable_mem _ _ _ hfl
    obtain ⟨j2, -, hj2⟩ := fieldFlags_pow _ hm2
    simp only at hj2
    subst hj2
    rw [Nat.testBit_two_pow, decide_eq_true_eq] at hbit
    subst hbit
    exact (fieldFlags_name_unique _ _ _ hm2 hmem) ▸ hk
  · intro hk
    exact ⟨name, hk, 2 ^ j, lookupTable_of_mem _ fieldFlags_keys_nodup _ _ hmem, by
      rw [Nat.testBit_two_pow]; simp⟩

theorem ruleFlags_testBit_high (m : StrMap) (f : Nat) (h : ruleFlags m 0 = .ok f)
    (i : Nat) (hi : f.testBit i = true) : ∃ name, (name, 2 ^ i) ∈ fieldFlagsByName := by
  obtain ⟨-, h2⟩ := ruleFlags_ok m 0 f h
  rw [h2 i] at hi
  simp only [Nat.zero_testBit, Bool.false_eq_true, false_or] at hi
  obtain ⟨k, hk, fl, hfl, hbit⟩ := hi
  have hm2 := lookupTable_mem _ _ _ hfl
  obtain ⟨j2, -, hj2⟩ := fieldFlags_pow _ hm2
  simp only at hj2
  subst hj2
  rw [Nat.testBit_two_pow, decide_eq_true_eq] at hbit
  subst hbit
  exact ⟨k, hm2⟩

/-- The mask that clears the FREQ and INTERVAL flags: its bits. -/
theorem mask_testBit (i : Nat) :
    ((ruleFieldFreq ||| ruleFieldInterval) ^^^ (2 ^ 64 - 1)).testBit i
      = (decide (2 ≤ i) && decide (i < 64)) := by
  have e : (ruleFieldFreq ||| ruleFieldInterval) = 2 ^ 2 - 1 := by decide
  rw [e, Nat.testBit_xor, Nat.testBit_two_pow_sub_one, Nat.testBit_two_pow_sub_one]
  by_cases h1 : i < 2 <;> by_cases h2 : i < 64 <;> simp [h1, h2] <;> omega

theorem monthDay_testBit (i : Nat) :
    (ruleFieldByMonth ||| ruleFieldByDay).testBit i = (decide (i = 9) || decide (i = 5)) := by
  have e : (ruleFieldByMonth ||| ruleFieldByDay) = 2 ^ 9 ||| 2 ^ 5 := by decide
  rw [e, Nat.testBit_or, Nat.testBit_two_pow, Nat.testBit_two_pow]
  simp [eq_comm]

theorem fieldFlags_value_unique (k : Str) (i j : Nat)
    (h1 : (k, 2 ^ i) ∈ fieldFlagsByName) (h2 : (k, 2 ^ j) ∈ fieldFlagsByName) : i = j := by
  have e1 := lookupTable_of_mem _ fieldFlags_keys_nodup _ _ h1
  have e2 := lookupTable_of_mem _ fieldFlags_keys_nodup _ _ h2
  rw [e1] at e2
  simp only [Option.some.injEq] at e2
  exact Nat.pow_right_injective (le_refl 2) e2

theorem mem_freq : ("FREQ".toList, 2 ^ 0) ∈ fieldFlagsByName := by decide

theorem mem_interval : ("INTERVAL".toList, 2 ^ 1) ∈ fieldFlagsByName := by decide

theorem mem_byDay : ("BYDAY".toList, 2 ^ 5) ∈ fieldFlagsByName := by decide

theorem mem_byMonth : ("BYMONTH".toList, 2 ^ 9) ∈ fieldFlagsByName := by decide

theorem cleared_testBit (f i : Nat) :
    (f &&& ((ruleFieldFreq ||| ruleFieldInterval) ^^^ (2 ^ 64 - 1))).testBit i
      = (f.testBit i && (decide (2 ≤ i) && decide (i < 64))) := by
  rw [Nat.testBit_and, mask_testBit]

theorem flags_monthDay_iff (m : StrMap) (f : Nat) (h : ruleFlags m 0 = .ok f) :
    f &&& ((ruleFieldFreq ||| ruleFieldInterval) ^^^ (2 ^ 64 - 1))
        = (ruleFieldByMonth ||| ruleFieldByDay) ↔ FieldsAreMonthDay m := by
  constructor
  · intro heq
    have hbit : ∀ i, (f.testBit i && (decide (2 ≤ i) && decide (i < 64)))
        = (decide (i = 9) || decide (i = 5)) := by
      intro i
      rw [← cleared_testBit, heq, monthDay_testBit]
    refine ⟨?_, ?_, ?_⟩
    · have := hbit 9
      simp at this
      exact (ruleFlags_testBit m f h _ 9 mem_byMonth).1 this
    · have := hbit 5
      simp at this
      exact (ruleFlags_testBit m f h _ 5 mem_byDay).1 this
    · intro k hk
      obtain ⟨fl, hfl⟩ := (ruleFlags_ok m 0 f h).1 k hk
      have hmem := lookupTable_mem _ _ _ hfl
      obtain ⟨j, hj12, hj⟩ := fieldFlags_pow _ hmem
      simp only at hj
      subst hj
      have hf : f.testBit j = true := (ruleFlags_testBit m f h k j hmem).2 hk
      have hb := hbit j
      rw [hf] at hb
      by_cases h2 : 2 ≤ j
      · have h64 : j < 64 := by omega
        simp [h2, h64] at hb
        rcases hb with rfl | rfl
        · exact Or.inr (Or.inr (Or.inl (fieldFlags_name_unique _ _ _ hmem mem_byMonth)))
        · exact Or.inr (Or.inr (Or.inr (fieldFlags_name_unique _ _ _ hmem mem_byDay)))
      · have : j = 0 ∨ j = 1 := by omega
        rcases this with rfl | rfl
        · exact Or.inl (fieldFlags_name_unique _ _ _ hmem mem_freq)
        · exact Or.inr (Or.inl (fieldFlags_name_unique _ _ _ hmem mem_interval))
  · rintro ⟨hM, hD, hall⟩
    apply Nat.eq_of_testBit_eq
    intro i
    rw [cleared_testBit, monthDay_testBit]
    by_cases h9 : i = 9
    · subst h9
      simp [(ruleFlags_testBit m f h _ 9 mem_byMonth).2 hM]
    by_cases h5 : i = 5
    · subst h5
      simp [(ruleFlags_testBit m f h _ 5 mem_byDay).2 hD]
    simp only [h9, h5, decide_False, Bool.or_self]
    cases hf : f.testBit i with
    | false => simp
    | true =>
      obtain ⟨name, hname⟩ := ruleFlags_testBit_high m f h i hf
      have hk := (ruleFlags_testBit m f h name i hname).1 hf
      rcases hall name hk with rfl | rfl | rfl | rfl
      · have := fieldFlags_value_unique _ _ _ hname mem_freq
        subst this; simp
      · have := fieldFlags_value_unique _ _ _ hname mem_interval
        subst this; simp
      · exact absurd (fieldFlags_value_unique _ _ _ hname mem_byMonth) h9
      · exact absurd (fieldFlags_value_unique _ _ _ hname mem_byDay) h5

/-- When `addExtendRule` succeeds, and with what. -/
theorem addExtendRule_ok_iff (sb : Str) (rule : zoneRule) (out : Str) :
    addExtendRule sb rule = .ok out ↔
      mapGet rule.rruleParts "FREQ".toList = "YEARLY".toList ∧
      (mapGet rule.rruleParts "INTERVAL".toList = [] ∨
        mapGet rule.rruleParts "INTERVAL".toList = "1".toList) ∧
      (∃ f, ruleFlags rule.rruleParts 0 = .ok f ∧
        f &&& ((ruleFieldFreq ||| ruleFieldInterval) ^^^ (2 ^ 64 - 1))
          = (ruleFieldByMonth ||| ruleFieldByDay)) ∧
      ∃ (week weekDay : Int) (month hour minute second : Nat),
        extendByDay (mapGet rule.rruleParts "BYDAY".toList) = .ok (week, weekDay) ∧
        extendByMonth (mapGet rule.rruleParts "BYDAY".toList)
          (mapGet rule.rruleParts "BYMONTH".toList) = .ok month ∧
        parseLocalClock rule.dtStart = some (hour, minute, second) ∧
        out = sb ++ ruleText month week weekDay hour minute second := by
  unfold addExtendRule
  simp only
  constructor
  · intro h
    split at h
    · cases h
    · rename_i hfreq
      split at h
      · cases h
      · rename_i hint
        split at h
        · cases h
        · rename_i f hf
          split at h
          · rename_i hflags
            split at h
            · cases h
            · rename_i week weekDay hday
              split at h
              · cases h
              · rename_i month hmonth
                split at h
                · cases h
                · rename_i hour minute second hclock
                  simp only [Except.ok.injEq] at h
                  refine ⟨not_not.1 hfreq, ?_, ⟨f, hf, hflags⟩, week, weekDay, month, hour,
                    minute, second, hday, hmonth, hclock, ?_⟩
                  · by_cases h0 : mapGet rule.rruleParts "INTERVAL".toList = []
                    · exact Or.inl h0
                    · right
                      by_contra h1
                      exact hint ⟨h0, h1⟩
                  · rw [← h]; simp [ruleText]
          · cases h
  · rintro ⟨hfreq, hint, ⟨f, hf, hflags⟩, week, weekDay, month, hour, minute, second, hday,
      hmonth, hclock, rfl⟩
    rw [if_neg (not_not.2 hfreq)]
    rw [if_neg (fun hc => hint.elim hc.1 hc.2)]
    rw [hf]
    simp only
    rw [if_pos hflags, hday]
    simp only
    rw [hmonth]
    simp only
    rw [hclock]
    simp [ruleText]

/-! ## sort.Strings -/

theorem strLt_asymm (a b : Str) (h : strLt a b = true) : strLt b a = false := by
  induction a generalizing b with
  | nil => cases b <;> simp [strLt] at h ⊢
  | cons x xs ih =>
    cases b with
    | nil => simp [strLt] at h
    | cons y ys =>
      unfold strLt at h ⊢
      by_cases h1 : x.toNat < y.toNat
      · rw [if_neg (by omega), if_pos h1]
      · rw [if_neg h1] at h
        by_cases h2 : y.toNat < x.toNat
        · rw [if_pos h2] at h; cases h
        · rw [if_neg h2] at h
          rw [if_neg h2, if_neg h1]
          exact ih ys h

theorem strLt_le_trans (a b c : Str) (hab : strLt b a = false) (hbc : strLt c b = false) :
    strLt c a = false := by
  induction a generalizing b c with
  | nil => cases c <;> simp [strLt]
  | cons x xs ih =>
    cases c with
    | nil => cases b <;> simp [strLt] at hab hbc
    | cons z zs =>
      cases b with
      | nil => simp [strLt] at hab
      | cons y ys =>
        unfold strLt at hab hbc ⊢
        by_cases h1 : y.toNat < x.toNat
        · rw [if_pos h1] at hab; cases hab
        · rw [if_neg h1] at hab
          by_cases h2 : z.toNat < y.toNat
          · rw [if_pos h2] at hbc; cases hbc
          · rw [if_neg h2] at hbc
            by_cases h3 : x.toNat < y.toNat
            · rw [if_neg (by omega), if_pos (by omega)]
            · rw [if_neg h3] at hab
              by_cases h4 : y.toNat < z.toNat
              · rw [if_neg (by omega), if_pos (by omega)]
              · rw [if_neg h4] at hbc
                rw [if_neg (by omega), if_neg (by omega)]
                exact ih ys zs hab hbc

theorem insertStr_perm (a : Str) (l : List Str) : (insertStr a l).Perm (a :: l) := by
  induction l with
  | nil => simp [insertStr]
  | cons b rest ih =>
    unfold insertStr
    split
    · exact (List.Perm.cons b ih).trans (List.Perm.swap a b rest)
    · exact List.Perm.refl _

theorem sortStrings_perm (l : List Str) : (sortStrings l).Perm l := by
  induction l with
  | nil => simp [sortStrings]
  | cons a rest ih =>
    unfold sortStrings
    exact (insertStr_perm a _).trans (List.Perm.cons a ih)

theorem insertStr_sorted (a : Str) (l : List Str)
    (hl : l.Pairwise (fun x y => strLt y x = false)) :
    (insertStr a l).Pairwise (fun x y => strLt y x = false) := by
  induction l with
  | nil => simp [insertStr]
  | cons b rest ih =>
    unfold insertStr
    rw [List.pairwise_cons] at hl
    split
    · rename_i hba
      rw [List.pairwise_cons]
      refine ⟨?_, ih hl.2⟩
      intro y hy
      rcases List.mem_cons.1 ((insertStr_perm a rest).mem_iff.1 hy) with rfl | hy
      · exact strLt_asymm _ _ hba
      · exact hl.1 y hy
    · rename_i hba
      simp only [Bool.not_eq_true] at hba
      rw [List.pairwise_cons]
      refine ⟨?_, List.pairwise_cons.2 hl⟩
      intro y hy
      rcases List.mem_cons.1 hy with rfl | hy
      · exact hba
      · exact strLt_le_trans a b y hba (hl.1 y hy)

theorem sortStrings_sorted (l : List Str) :
    (sortStrings l).Pairwise (fun x y => strLt y x = false) := by
  induction l with
  | nil => simp [sortStrings]
  | cons a rest ih =>
    unfold sortStrings
    exact insertStr_sorted a _ ih

theorem flagNames_mem (m : StrMap) (f : Nat) (h : ruleFlags m 0 = .ok f) (k : Str) :
    k ∈ flagNames (f &&& ((ruleFieldFreq ||| ruleFieldInterval) ^^^ (2 ^ 64 - 1))) ↔
      (k ∈ mapKeys m ∧ k ≠ "FREQ".toList ∧ k ≠ "INTERVAL".toList) := by
  unfold flagNames
  simp only [List.mem_map, List.mem_filter, decide_eq_true_eq]
  constructor
  · rintro ⟨p, ⟨hp, hgt⟩, rfl⟩
    obtain ⟨j, hj12, hj⟩ := fieldFlags_pow p hp
    obtain ⟨name, fl⟩ := p
    simp only at hj hgt ⊢
    subst hj
    rw [Nat.and_two_pow] at hgt
    have hbit : (f &&& ((ruleFieldFreq ||| ruleFieldInterval) ^^^ (2 ^ 64 - 1))).testBit j = true := by
      by_contra hb
      simp only [Bool.not_eq_true] at hb
      rw [hb] at hgt
      simp at hgt
    rw [cleared_testBit] at hbit
    simp only [Bool.and_eq_true, decide_eq_true_eq] at hbit
    refine ⟨(ruleFlags_testBit m f h name j hp).1 hbit.1, ?_, ?_⟩
    · rintro rfl
      have := fieldFlags_value_unique _ _ _ hp mem_freq
      omega
    · rintro rfl
      have := fieldFlags_value_unique _ _ _ hp mem_interval
      omega
  · rintro ⟨hk, hnf, hni⟩
    obtain ⟨fl, hfl⟩ := (ruleFlags_ok m 0 f h).1 k hk
    have hmem := lookupTable_mem _ _ _ hfl
    obtain ⟨j, hj12, hj⟩ := fieldFlags_pow _ hmem
    simp only at hj
    subst hj
    refine ⟨(k, 2 ^ j), ⟨hmem, ?_⟩, rfl⟩
    have h2 : 2 ≤ j := by
      by_contra hlt
      have : j = 0 ∨ j = 1 := by omega
      rcases this with rfl | rfl
      · exact hnf (fieldFlags_name_unique _ _ _ hmem mem_freq)
      · exact hni (fieldFlags_name_unique _ _ _ hmem mem_interval)
    have hbit : (f &&& ((ruleFieldFreq ||| ruleFieldInterval) ^^^ (2 ^ 64 - 1))).testBit j = true := by
      rw [cleared_testBit, (ruleFlags_testBit m f h k j hmem).2 hk]
      simp only [Bool.true_and, Bool.and_eq_true, decide_eq_true_eq]
      omega
    simp only
    rw [Nat.and_two_pow, hbit]
    simp

theorem flagNames_nodup (flags : Nat) : (flagNames flags).Nodup := by
  unfold flagNames
  exact List.Nodup.sublist (List.Sublist.map _ (List.filter_sublist _)) fieldFlags_keys_nodup

theorem addExtendRule_combination (sb : Str) (rule : zoneRule) (f : Nat)
    (hfreq : mapGet rule.rruleParts "FREQ".toList = "YEARLY".toList)
    (hint : mapGet rule.rruleParts "INTERVAL".toList = [] ∨
      mapGet rule.rruleParts "INTERVAL".toList = "1".toList)
    (hf : ruleFlags rule.rruleParts 0 = .ok f)
    (hsig : ¬ FieldsAreMonthDay rule.rruleParts) :
    addExtendRule sb rule = .error (.unsupportedCombination (joinWith ", ".toList
      (sortStrings (flagNames (f &&& ((ruleFieldFreq ||| ruleFieldInterval) ^^^ (2 ^ 64 - 1))))))) := by
  unfold addExtendRule
  simp only
  rw [if_neg (not_not.2 hfreq), if_neg (fun hc => hint.elim hc.1 hc.2), hf]
  simp only
  rw [if_neg (fun hc => hsig ((flags_monthDay_iff _ f hf).1 hc))]

theorem addExtendRule_unknown (sb : Str) (rule : zoneRule) (e : Err)
    (hfreq : mapGet rule.rruleParts "FREQ".toList = "YEARLY".toList)
    (hint : mapGet rule.rruleParts "INTERVAL".toList = [] ∨
      mapGet rule.rruleParts "INTERVAL".toList = "1".toList)
    (hf : ruleFlags rule.rruleParts 0 = .error e) :
    addExtendRule sb rule = .error e := by
  unfold addExtendRule
  simp only
  rw [if_neg (not_not.2 hfreq), if_neg (fun hc => hint.elim hc.1 hc.2), hf]

/-- Claim C6: for every rule that `parseRule` returns, success of
`addExtendRule` implies that FREQ is YEARLY, that INTERVAL is absent or 1, and
that the field names other than FREQ and INTERVAL are exactly BYMONTH and
BYDAY; every other field or combination, a missing BYMONTH or BYDAY and every
name outside the table make it fail. -/
theorem C6_addExtendRule_success_needs_month_day_signature (vRule : Component) (isDST : Bool)
    (rule : zoneRule) (sb : Str) (hparse : parseRule vRule isDST = .ok rule) :
    (∀ out, addExtendRule sb rule = .ok out →
      mapGet rule.rruleParts "FREQ".toList = "YEARLY".toList ∧
      ("INTERVAL".toList ∉ mapKeys rule.rruleParts ∨
        mapGet rule.rruleParts "INTERVAL".toList = "1".toList) ∧
      FieldsAreMonthDay rule.rruleParts) ∧
    (¬ (mapGet rule.rruleParts "FREQ".toList = "YEARLY".toList ∧
        ("INTERVAL".toList ∉ mapKeys rule.rruleParts ∨
          mapGet rule.rruleParts "INTERVAL".toList = "1".toList) ∧
        FieldsAreMonthDay rule.rruleParts) →
      ∃ e, addExtendRule sb rule = .error e) := by
  have hv := parseRule_valuesNonEmpty vRule isDST rule hparse
  have key : ∀ out, addExtendRule sb rule = .ok out →
      mapGet rule.rruleParts "FREQ".toList = "YEARLY".toList ∧
      ("INTERVAL".toList ∉ mapKeys rule.rruleParts ∨
        mapGet rule.rruleParts "INTERVAL".toList = "1".toList) ∧
      FieldsAreMonthDay rule.rruleParts := by
    intro out h
    obtain ⟨hfreq, hint, ⟨f, hf, hflags⟩, -⟩ := (addExtendRule_ok_iff sb rule out).1 h
    refine ⟨hfreq, ?_, (flags_monthDay_iff _ f hf).1 hflags⟩
    rcases hint with h0 | h1
    · exact Or.inl ((mapGet_eq_nil_iff _ hv _).1 h0)
    · exact Or.inr h1
  refine ⟨key, ?_⟩
  intro hnot
  cases h : addExtendRule sb rule with
  | error e => exact ⟨e, rfl⟩
  | ok out => exact absurd (key out h) hnot

/-- Claim C7, as amended: for every rule with FREQ=YEARLY, INTERVAL absent or
1, whose other field names are not exactly BYMONTH and BYDAY, `addExtendRule`
fails. When every field name is in the table, the error lists every field name
present other than FREQ and INTERVAL, BYMONTH and BYDAY included, each once, in
ascending order of Go strings, joined by a comma and a space. When some field
name is not in the table, the error names one field that is not in the
table. -/
theorem C7_unsupported_combination_lists_all_fields (sb : Str) (rule : zoneRule)
    (hfreq : mapGet rule.rruleParts "FREQ".toList = "YEARLY".toList)
    (hint : mapGet rule.rruleParts "INTERVAL".toList = [] ∨
      mapGet rule.rruleParts "INTERVAL".toList = "1".toList)
    (hsig : ¬ FieldsAreMonthDay rule.rruleParts) :
    ((∀ k ∈ mapKeys rule.rruleParts, k ∈ fieldFlagsByName.map Prod.fst) →
      ∃ L : List Str,
        addExtendRule sb rule = .error (.unsupportedCombination (joinWith ", ".toList L)) ∧
        L.Pairwise (fun x y => strLt y x = false) ∧ L.Nodup ∧
        ∀ k, k ∈ L ↔ (k ∈ mapKeys rule.rruleParts ∧ k ≠ "FREQ".toList ∧ k ≠ "INTERVAL".toList)) ∧
    ((∃ k ∈ mapKeys rule.rruleParts, k ∉ fieldFlagsByName.map Prod.fst) →
      ∃ k ∈ mapKeys rule.rruleParts, k ∉ fieldFlagsByName.map Prod.fst ∧
        addExtendRule sb rule = .error (.unsupportedField k)) := by
  constructor
  · intro hall
    have hknown : ∀ k ∈ mapKeys rule.rruleParts, ∃ fl, lookupTable k fieldFlagsByName = some fl := by
      intro k hk
      obtain ⟨p, hp, rfl⟩ := List.mem_map.1 (hall k hk)
      exact ⟨p.2, lookupTable_of_mem _ fieldFlags_keys_nodup _ _ hp⟩
    obtain ⟨f, hf⟩ := ruleFlags_total rule.rruleParts 0 hknown
    refine ⟨_, addExtendRule_combination sb rule f hfreq hint hf hsig, sortStrings_sorted _,
      (sortStrings_perm _).nodup_iff.2 (flagNames_nodup _), ?_⟩
    intro k
    rw [(sortStrings_perm _).mem_iff, flagNames_mem _ f hf]
  · rintro ⟨k, hk, hnot⟩
    cases hf : ruleFlags rule.rruleParts 0 with
    | ok f =>
      obtain ⟨fl, hfl⟩ := (ruleFlags_ok _ 0 f hf).1 k hk
      exact absurd (List.mem_map.2 ⟨(k, fl), lookupTable_mem _ _ _ hfl, rfl⟩) hnot
    | error e =>
      obtain ⟨k1, hk1, hnone, rfl⟩ := ruleFlags_error _ 0 e hf
      exact ⟨k1, hk1, lookupTable_none _ _ hnone, addExtendRule_unknown sb rule _ hfreq hint hf⟩

/-- Counterexample to C7 as stated: for the rule with BYHOUR in addition to
BYMONTH and BYDAY the error lists `BYDAY, BYHOUR, BYMONTH`, not the unsupported
field `BYHOUR` alone; and for a rule that also has the unknown field FOO the
error names FOO only, not the list `BYHOUR, FOO`. -/
theorem C7_counterexample_error_lists_supported_fields :
    addExtendRule [] byHourRule
        = .error (.unsupportedCombination "BYDAY, BYHOUR, BYMONTH".toList) ∧
    unsupportedFieldList ", ".toList byHourRule = "BYHOUR".toList ∧
    addExtendRule [] byHourRule
        ≠ .error (.unsupportedCombination (unsupportedFieldList ", ".toList byHourRule)) ∧
    addExtendRule [] unknownFieldRule = .error (.unsupportedField "FOO".toList) ∧
    unsupportedFieldList ", ".toList unknownFieldRule = "BYHOUR, FOO".toList := by
  decide

theorem ParseUint_iff (s : Str) (n : Nat) :
    ParseUint s = some n ↔
      s ≠ [] ∧ (∀ c ∈ s, isDigit c = true) ∧ decimalValue s = n ∧ n < 2 ^ 64 := by
  unfold ParseUint
  by_cases h0 : s = []
  · subst h0; simp
  · have he : s.isEmpty = false := by cases s <;> simp at h0 ⊢
    rw [he]
    simp only [Bool.false_eq_true, if_false]
    by_cases hd : s.all isDigit = true
    · rw [if_pos hd]
      have hd2 : ∀ c ∈ s, isDigit c = true := by simpa using hd
      by_cases hv : decimalValue s < 2 ^ 64
      · rw [if_pos hv]
        constructor
        · intro h; simp only [Option.some.injEq] at h; subst h; exact ⟨h0, hd2, rfl, hv⟩
        · rintro ⟨-, -, rfl, -⟩; rfl
      · rw [if_neg hv]
        constructor
        · intro h; cases h
        · rintro ⟨-, -, rfl, h⟩; exact absurd h hv
    · rw [if_neg hd]
      constructor
      · intro h; cases h
      · rintro ⟨-, h, -, -⟩
        exact absurd (by simpa using h) hd

theorem ParseInt_some (s : Str) (v : Int) (h : ParseInt s = some v) : IsDecimalInt s v := by
  cases s with
  | nil => simp [ParseInt] at h
  | cons c t =>
    unfold ParseInt at h
    simp only at h
    by_cases hp : c = '+'
    · subst hp
      simp only [beq_self_eq_true, if_true] at h
      cases hu : ParseUint t with
      | none => simp [hu] at h
      | some un =>
        rw [hu] at h
        simp only at h
        obtain ⟨hne, hd, hval, -⟩ := (ParseUint_iff t un).1 hu
        have hneg : (('+' : Char) == '-') = false := by decide
        rw [hneg] at h
        simp only [Bool.not_false, Bool.true_and, Bool.false_and, Bool.false_eq_true, if_false] at h
        split at h
        · cases h
        · simp only [Option.some.injEq] at h
          exact ⟨['+'], t, rfl, Or.inr (Or.inl rfl), hne, hd, by rw [← h, hval]; simp⟩
    · by_cases hm : c = '-'
      · subst hm
        have hplus : (('-' : Char) == '+') = false := by decide
        simp only [hplus, Bool.false_eq_true, if_false, beq_self_eq_true, if_true] at h
        cases hu : ParseUint t with
        | none => simp [hu] at h
        | some un =>
          rw [hu] at h
          simp only [Bool.not_true, Bool.false_and, Bool.false_eq_true, if_false,
            Bool.true_and] at h
          obtain ⟨hne, hd, hval, -⟩ := (ParseUint_iff t un).1 hu
          split at h
          · cases h
          · simp only [Option.some.injEq] at h
            exact ⟨['-'], t, rfl, Or.inr (Or.inr rfl), hne, hd, by rw [← h, hval]; simp⟩
      · have e1 : (c == '+') = false := by simpa using hp
        have e2 : (c == '-') = false := by simpa using hm
        simp only [e1, e2, Bool.false_eq_true, if_false] at h
        cases hu : ParseUint (c :: t) with
        | none => simp [hu] at h
        | some un =>
          rw [hu] at h
          simp only [Bool.not_false, Bool.true_and, Bool.false_and, Bool.false_eq_true,
            if_false] at h
          obtain ⟨hne, hd, hval, -⟩ := (ParseUint_iff (c :: t) un).1 hu
          split at h
          · cases h
          · simp only [Option.some.injEq] at h
            exact ⟨[], c :: t, rfl, Or.inl rfl, hne, hd, by rw [← h, hval]; simp⟩

theorem ParseInt_of (s : Str) (v : Int) (h : IsDecimalInt s v)
    (hlo : -(2 : Int) ^ 63 ≤ v) (hhi : v < (2 : Int) ^ 63) : ParseInt s = some v := by
  obtain ⟨sign, digits, rfl, hsign, hne, hd, rfl⟩ := h
  cases digits with
  | nil => exact absurd rfl hne
  | cons d ds =>
    have hdd : isDigit d = true := hd d (List.mem_cons_self _ _)
    rcases hsign with rfl | rfl | rfl
    · have hn := isDigit_ne_sign d hdd
      have e1 : (d == '+') = false := by simpa using hn.2
      have e2 : (d == '-') = false := by simpa using hn.1
      have hc : ([] : Str) ≠ ['-'] := by decide
      simp only [List.nil_append, hc, if_false, one_mul] at hlo hhi ⊢
      have hu : ParseUint (d :: ds) = some (decimalValue (d :: ds)) :=
        (ParseUint_iff _ _).2 ⟨hne, hd, rfl, by omega⟩
      unfold ParseInt
      simp only [e1, e2, Bool.false_eq_true, if_false, hu, Bool.not_false, Bool.true_and,
        Bool.false_and]
      rw [if_neg (by simp only [ge_iff_le, decide_eq_true_eq]; omega)]
    · have hc : (['+'] : Str) ≠ ['-'] := by decide
      simp only [hc, if_false, one_mul] at hlo hhi ⊢
      have hu : ParseUint (d :: ds) = some (decimalValue (d :: ds)) :=
        (ParseUint_iff _ _).2 ⟨hne, hd, rfl, by omega⟩
      have hneg : (('+' : Char) == '-') = false := by decide
      show ParseInt ('+' :: d :: ds) = _
      unfold ParseInt
      simp only [beq_self_eq_true, if_true, hu, hneg, Bool.not_false, Bool.true_and,
        Bool.false_and, Bool.false_eq_true, if_false]
      rw [if_neg (by simp only [ge_iff_le, decide_eq_true_eq]; omega)]
    · simp only [if_true] at hlo hhi ⊢
      have hu : ParseUint (d :: ds) = some (decimalValue (d :: ds)) :=
        (ParseUint_iff _ _).2 ⟨hne, hd, rfl, by omega⟩
      have hplus : (('-' : Char) == '+') = false := by decide
      show ParseInt ('-' :: d :: ds) = _
      unfold ParseInt
      simp only [hplus, beq_self_eq_true, if_true, hu, Bool.not_true, Bool.false_and,
        Bool.false_eq_true, if_false, Bool.true_and]
      rw [if_neg (by simp only [gt_iff_lt, decide_eq_true_eq]; omega)]
      simp

theorem containsChar_false_iff (s : Str) (c : Char) : containsChar s c = false ↔ c ∉ s := by
  unfold containsChar
  induction s with
  | nil => simp
  | cons x xs ih =>
    simp only [List.any_cons, Bool.or_eq_false_iff, ih, List.mem_cons, not_or, beq_eq_false_iff_ne,
      ne_eq]
    constructor
    · rintro ⟨h1, h2⟩; exact ⟨fun h => h1 h.symm, h2⟩
    · rintro ⟨h1, h2⟩; exact ⟨fun h => h1 h.symm, h2⟩

theorem weekDayMap_keys_nodup : (weekDayMap.map Prod.fst).Nodup := by decide

theorem weekDay_lookup_iff (code : Str) (wd : Int) :
    lookupTable code weekDayMap = some wd ↔
      ((code = "SU".toList ∧ wd = 0) ∨ (code = "MO".toList ∧ wd = 1) ∨
       (code = "TU".toList ∧ wd = 2) ∨ (code = "WE".toList ∧ wd = 3) ∨
       (code = "TH".toList ∧ wd = 4) ∨ (code = "FR".toList ∧ wd = 5) ∨
       (code = "SA".toList ∧ wd = 6)) := by
  constructor
  · intro h
    have := lookupTable_mem _ _ _ h
    simpa [weekDayMap] using this
  · intro h
    apply lookupTable_of_mem _ weekDayMap_keys_nodup
    simpa [weekDayMap] using h

theorem extendByDay_iff (byDay : Str) (week weekDay : Int) :
    extendByDay byDay = .ok (week, weekDay) ↔ ByDayText byDay week weekDay := by
  constructor
  · intro h
    unfold extendByDay at h
    split at h
    · cases h
    · rename_i hcomma
      split at h
      · cases h
      · rename_i hlen
        split at h
        · cases h
        · rename_i offset hoff
          simp only at h
          split at h
          · cases h
          · rename_i wk hwk
            split at h
            · cases h
            · rename_i wd hwd
              simp only [Except.ok.injEq, Prod.mk.injEq] at h
              obtain ⟨rfl, rfl⟩ := h
              refine ⟨byDay.take (byDay.length - 2), byDay.drop (byDay.length - 2), offset,
                (List.take_append_drop _ _).symm,
                (containsChar_false_iff _ _).1 (by simpa using hcomma),
                ParseInt_some _ _ hoff, ?_, (weekDay_lookup_iff _ _).1 hwd⟩
              by_cases h1 : offset = -1
              · rw [if_pos h1] at hwk
                simp only [Except.ok.injEq] at hwk
                exact Or.inl ⟨h1, hwk.symm⟩
              · rw [if_neg h1] at hwk
                by_cases h2 : offset > 0 ∧ offset < 5
                · rw [if_pos h2] at hwk
                  simp only [Except.ok.injEq] at hwk
                  exact Or.inr ⟨by omega, by omega, hwk.symm⟩
                · rw [if_neg h2] at hwk
                  cases hwk
  · rintro ⟨off, code, v, rfl, hcomma, hdec, hweek, hcode⟩
    have hlen : code.length = 2 := by
      rcases hcode with h | h | h | h | h | h | h <;> rw [h.1] <;> rfl
    have htake : (off ++ code).take ((off ++ code).length - 2) = off := by
      rw [List.length_append, hlen, Nat.add_sub_cancel]
      exact List.take_left' rfl
    have hdrop : (off ++ code).drop ((off ++ code).length - 2) = code := by
      rw [List.length_append, hlen, Nat.add_sub_cancel]
      exact List.drop_left' rfl
    have hv : -(2 : Int) ^ 63 ≤ v ∧ v < (2 : Int) ^ 63 := by
      rcases hweek with ⟨h, -⟩ | ⟨h1, h2, -⟩
      · subst h; decide
      · constructor <;> omega
    have hparse := ParseInt_of off v hdec hv.1 hv.2
    have hwd := (weekDay_lookup_iff code weekDay).2 hcode
    unfold extendByDay
    rw [if_neg (by rw [(containsChar_false_iff _ _).2 hcomma]; simp)]
    rw [if_neg (by rw [List.length_append, hlen]; omega)]
    rw [htake, hdrop, hparse]
    simp only
    rcases hweek with ⟨h, hw⟩ | ⟨h1, h2, hw⟩
    · subst h; subst hw
      simp only [if_true]
      rw [hwd]
    · have hne : v ≠ -1 := by omega
      rw [if_neg hne, if_pos ⟨by omega, by omega⟩]
      simp only
      rw [hwd, hw]

theorem extendByMonth_iff (byDay byMonth : Str) (hcomma : ',' ∉ byDay) (month : Nat) :
    extendByMonth byDay byMonth = .ok month ↔ ByMonthText byMonth month := by
  unfold extendByMonth ByMonthText
  rw [if_neg (by rw [(containsChar_false_iff _ _).2 hcomma]; simp)]
  constructor
  · intro h
    split at h
    · cases h
    · rename_i m hm
      split at h
      · cases h
      · rename_i hr
        simp only [Except.ok.injEq] at h
        subst h
        obtain ⟨h1, h2, h3, -⟩ := (ParseUint_iff _ _).1 hm
        exact ⟨h1, h2, h3, by omega, by omega⟩
  · rintro ⟨h1, h2, h3, h4, h5⟩
    have : ParseUint byMonth = some month :=
      (ParseUint_iff _ _).2 ⟨h1, h2, h3, lt_of_le_of_lt h5 (by norm_num)⟩
    rw [this]
    simp only
    rw [if_neg (by omega)]

theorem ByDayText_noComma (byDay : Str) (week weekDay : Int) (h : ByDayText byDay week weekDay) :
    ',' ∉ byDay := by
  obtain ⟨_, _, _, _, hc, _⟩ := h
  exact hc

theorem flags_of_fieldsAreMonthDay (m : StrMap) (h : FieldsAreMonthDay m) :
    ∃ f, ruleFlags m 0 = .ok f ∧
      f &&& ((ruleFieldFreq ||| ruleFieldInterval) ^^^ (2 ^ 64 - 1))
        = (ruleFieldByMonth ||| ruleFieldByDay) := by
  have hknown : ∀ k ∈ mapKeys m, ∃ fl, lookupTable k fieldFlagsByName = some fl := by
    intro k hk
    rcases h.2.2 k hk with rfl | rfl | rfl | rfl
    · exact ⟨_, lookupTable_of_mem _ fieldFlags_keys_nodup _ _ mem_freq⟩
    · exact ⟨_, lookupTable_of_mem _ fieldFlags_keys_nodup _ _ mem_interval⟩
    · exact ⟨_, lookupTable_of_mem _ fieldFlags_keys_nodup _ _ mem_byMonth⟩
    · exact ⟨_, lookupTable_of_mem _ fieldFlags_keys_nodup _ _ mem_byDay⟩
  obtain ⟨f, hf⟩ := ruleFlags_total m 0 hknown
  exact ⟨f, hf, (flags_monthDay_iff m f hf).2 h⟩

/-- The result of `addExtendRule` on a rule with the supported fields. -/
theorem addExtendRule_valid (sb : Str) (rule : zoneRule) (month hour minute second : Nat)
    (week weekDay : Int)
    (hfreq : mapGet rule.rruleParts "FREQ".toList = "YEARLY".toList)
    (hint : mapGet rule.rruleParts "INTERVAL".toList = [] ∨
      mapGet rule.rruleParts "INTERVAL".toList = "1".toList)
    (hsig : FieldsAreMonthDay rule.rruleParts)
    (hmonth : ByMonthText (mapGet rule.rruleParts "BYMONTH".toList) month)
    (hday : ByDayText (mapGet rule.rruleParts "BYDAY".toList) week weekDay)
    (hclock : parseLocalClock rule.dtStart = some (hour, minute, second)) :
    addExtendRule sb rule = .ok (sb ++ ruleText month week weekDay hour minute second) :=
  (addExtendRule_ok_iff sb rule _).2 ⟨hfreq, hint, flags_of_fieldsAreMonthDay _ hsig,
    week, weekDay, month, hour, minute, second, (extendByDay_iff _ _ _).2 hday,
    (extendByMonth_iff _ _ (ByDayText_noComma _ _ _ hday) _).2 hmonth, hclock, rfl⟩

/-- Claim C8: for a rule that is valid apart from BYDAY, `addExtendRule`
succeeds exactly when BYDAY is one token without comma made of a decimal
integer offset of value -1, 1, 2, 3 or 4 followed by one of SU, MO, TU, WE, TH,
FR, SA; the week written is 5 for the offset -1 and the offset itself
otherwise, and the weekday written is SU=0, MO=1, TU=2, WE=3, TH=4, FR=5, SA=6.
The offsets 5, 0 and -2, a missing offset, another two-letter code and a list
are rejected. -/
theorem C8_byDay_accepted_iff_offset_and_weekday (sb : Str) (rule : zoneRule)
    (month hour minute second : Nat)
    (hfreq : mapGet rule.rruleParts "FREQ".toList = "YEARLY".toList)
    (hint : mapGet rule.rruleParts "INTERVAL".toList = [] ∨
      mapGet rule.rruleParts "INTERVAL".toList = "1".toList)
    (hsig : FieldsAreMonthDay rule.rruleParts)
    (hmonth : ByMonthText (mapGet rule.rruleParts "BYMONTH".toList) month)
    (hclock : parseLocalClock rule.dtStart = some (hour, minute, second)) :
    (∀ out, addExtendRule sb rule = .ok out ↔
      ∃ week weekDay, ByDayText (mapGet rule.rruleParts "BYDAY".toList) week weekDay ∧
        out = sb ++ ruleText month week weekDay hour minute second) ∧
    ((¬ ∃ week weekDay, ByDayText (mapGet rule.rruleParts "BYDAY".toList) week weekDay) →
      ∃ e, addExtendRule sb rule = .error e) ∧
    extendByDay "-1SU".toList = .ok (5, 0) ∧
    extendByDay "1MO".toList = .ok (1, 1) ∧
    extendByDay "4SA".toList = .ok (4, 6) ∧
    extendByDay "5SU".toList = .error (.byDayOffset "5SU".toList 5) ∧
    extendByDay "0SU".toList = .error (.byDayOffset "0SU".toList 0) ∧
    extendByDay "-2SU".toList = .error (.byDayOffset "-2SU".toList (-2)) ∧
    extendByDay "SU".toList = .error (.parseByDay "SU".toList) ∧
    extendByDay "1XX".toList = .error (.unknownWeekDay "1XX".toList "XX".toList) ∧
    extendByDay "1SU,2SU".toList = .error .singleByDay ∧
    addExtendRule [] (monthDayRule "3".toList "2TU".toList) = .ok "M3.2.2/02:00:00".toList ∧
    addExtendRule [] (monthDayRule "3".toList "-1SA".toList) = .ok "M3.5.6/02:00:00".toList := by
  have key : ∀ out, addExtendRule sb rule = .ok out ↔
      ∃ week weekDay, ByDayText (mapGet rule.rruleParts "BYDAY".toList) week weekDay ∧
        out = sb ++ ruleText month week weekDay hour minute second := by
    intro out
    constructor
    · intro h
      obtain ⟨-, -, -, week, weekDay, month1, hour1, minute1, second1, hday, hm, hc, rfl⟩ :=
        (addExtendRule_ok_iff sb rule out).1 h
      have hd := (extendByDay_iff _ _ _).1 hday
      have hm1 := (extendByMonth_iff _ _ (ByDayText_noComma _ _ _ hd) _).1 hm
      have e1 : month1 = month := by rw [← hm1.2.2.1, ← hmonth.2.2.1]
      rw [hclock] at hc
      simp only [Option.some.injEq, Prod.mk.injEq] at hc
      obtain ⟨rfl, rfl, rfl⟩ := hc
      subst e1
      exact ⟨week, weekDay, hd, rfl⟩
    · rintro ⟨week, weekDay, hd, rfl⟩
      exact addExtendRule_valid sb rule month hour minute second week weekDay hfreq hint hsig
        hmonth hd hclock
  refine ⟨key, ?_, by decide, by decide, by decide, by decide, by decide, by decide, by decide,
    by decide, by decide, by decide, by decide⟩
  intro hnot
  cases h : addExtendRule sb rule with
  | error e => exact ⟨e, rfl⟩
  | ok out =>
    obtain ⟨week, weekDay, hd, -⟩ := (key out).1 h
    exact absurd ⟨week, weekDay, hd⟩ hnot

/-- Claim C9: `addExtendRule` succeeds only if BYMONTH is one token of decimal
digits, without comma, whose value is 1 to 12, and that value is the month
written in `M{month}.{week}.{weekday}`; the values `x`, `0`, `13` and `3,4` are
rejected. -/
theorem C9_byMonth_single_integer_1_to_12 (sb : Str) (rule : zoneRule) (out : Str)
    (h : addExtendRule sb rule = .ok out) :
    (∃ (month : Nat) (week weekDay : Int) (hour minute second : Nat),
      ByMonthText (mapGet rule.rruleParts "BYMONTH".toList) month ∧
      ',' ∉ mapGet rule.rruleParts "BYMONTH".toList ∧
      out = sb ++ ruleText month week weekDay hour minute second ∧
      ruleText month week weekDay hour minute second
        = ['M'] ++ fmtD (month : Int) ++ ['.'] ++ fmtD week ++ ['.'] ++ fmtD weekDay
            ++ ['/'] ++ fmt02d (hour : Int) ++ [':'] ++ fmt02d (minute : Int)
            ++ [':'] ++ fmt02d (second : Int)) ∧
    addExtendRule [] (monthDayRule "3".toList "-1SU".toList) = .ok "M3.5.0/02:00:00".toList ∧
    addExtendRule [] (monthDayRule "12".toList "-1SU".toList) = .ok "M12.5.0/02:00:00".toList ∧
    addExtendRule [] (monthDayRule "x".toList "-1SU".toList)
      = .error (.parseByMonth "x".toList) ∧
    addExtendRule [] (monthDayRule "0".toList "-1SU".toList)
      = .error (.monthOutOfRange "0".toList) ∧
    addExtendRule [] (monthDayRule "13".toList "-1SU".toList)
      = .error (.monthOutOfRange "13".toList) ∧
    addExtendRule [] (monthDayRule "3,4".toList "-1SU".toList)
      = .error (.parseByMonth "3,4".toList) := by
  refine ⟨?_, by decide, by decide, by decide, by decide, by decide, by decide⟩
  obtain ⟨-, -, -, week, weekDay, month, hour, minute, second, hday, hm, -, rfl⟩ :=
    (addExtendRule_ok_iff sb rule out).1 h
  have hd := (extendByDay_iff _ _ _).1 hday
  have hm1 := (extendByMonth_iff _ _ (ByDayText_noComma _ _ _ hd) _).1 hm
  refine ⟨month, week, weekDay, hour, minute, second, hm1, ?_, rfl, rfl⟩
  intro hc
  have := hm1.2.1 _ hc
  revert this
  decide

theorem mapGet_absent (m : StrMap) (k : Str) (h : k ∉ mapKeys m) : mapGet m k = [] := by
  unfold mapGet
  rw [(lookupStr_none_iff m k).2 h]
  rfl

theorem isRepeatingForever_of_fields (r : zoneRule) (h : FieldsAreMonthDay r.rruleParts) :
    r.isRepeatingForever = true := by
  have h1 : "UNTIL".toList ∉ mapKeys r.rruleParts := by
    intro hk
    rcases h.2.2 _ hk with e | e | e | e <;> revert e <;> decide
  have h2 : "COUNT".toList ∉ mapKeys r.rruleParts := by
    intro hk
    rcases h.2.2 _ hk with e | e | e | e <;> revert e <;> decide
  unfold zoneRule.isRepeatingForever
  rw [mapGet_absent _ _ h1, mapGet_absent _ _ h2]
  rfl

theorem parseOffset_bound (s : Str) (d : Duration) (h : parseOffset s = .ok d) :
    -(86399 * Second) ≤ d ∧ d ≤ 86399 * Second := by
  obtain ⟨sign, h1, h2, m1, m2, secs, -, -, -, -, -, -, -, hH, hM, hS, rfl⟩ :=
    (parseOffset_iff s d).1 h
  have eH : Hour = (3600000000000 : Int) := by decide
  have eM : Minute = (60000000000 : Int) := by decide
  have eS : Second = (1000000000 : Int) := by decide
  rw [eH, eM, eS]
  generalize digitVal h1 = a at *
  generalize digitVal h2 = b at *
  generalize digitVal m1 = c at *
  generalize digitVal m2 = e at *
  generalize decimalValue secs = g at *
  push_cast
  split
  · constructor
    · show (-(86399 * 1000000000) : Int) ≤ _
      omega
    · show (_ : Int) ≤ 86399 * 1000000000
      omega
  · constructor
    · show (-(86399 * 1000000000) : Int) ≤ _
      omega
    · show (_ : Int) ≤ 86399 * 1000000000
      omega

theorem neg64_of_parseOffset (s : Str) (d : Duration) (h : parseOffset s = .ok d) :
    neg64 d = -d := by
  have hb := parseOffset_bound s d h
  have eS : Second = (1000000000 : Int) := by decide
  rw [eS] at hb
  unfold neg64
  rw [if_neg]
  intro hc
  have h1 : (-(86399 * 1000000000) : Int) ≤ d := hb.1
  have h2 : d = -(2 : Int) ^ 63 := hc
  omega

theorem addExtendOffset_append (sb : Str) (d : Duration) :
    addExtendOffset sb d = sb ++ offsetText d := by
  unfold offsetText addExtendOffset
  simp only
  split <;> simp

theorem processChildren_standard (ev : Evaluator) (child : Component) (rest : List Component)
    (lt : Template) (s d : extendRuleSlot) (rule : zoneRule)
    (hname : child.Name = CompTimezoneStandard)
    (hparse : parseRule child false = .ok rule)
    (hforever : rule.isRepeatingForever = true) (hs : s.present = false) :
    processChildren ev (child :: rest) lt s d
      = processChildren ev rest lt { s with r := rule, present := true } d := by
  have hd : decide (CompTimezoneStandard = CompTimezoneDaylight) = false := by decide
  rw [processChildren]
  simp only [hname, hd, decide_True, Bool.not_true, Bool.false_and, Bool.false_eq_true, if_false,
    hparse, hforever, if_true, extendRuleSlot.set, hs]

theorem processChildren_daylight (ev : Evaluator) (child : Component) (rest : List Component)
    (lt : Template) (s d : extendRuleSlot) (rule : zoneRule)
    (hname : child.Name = CompTimezoneDaylight)
    (hparse : parseRule child true = .ok rule)
    (hforever : rule.isRepeatingForever = true) (hd : d.present = false) :
    processChildren ev (child :: rest) lt s d
      = processChildren ev rest lt s { d with r := rule, present := true } := by
  have hs : decide (CompTimezoneDaylight = CompTimezoneStandard) = false := by decide
  rw [processChildren]
  simp only [hname, hs, decide_True, Bool.not_true, Bool.not_false, Bool.and_false,
    Bool.false_eq_true, if_false, hparse, hforever, if_true, extendRuleSlot.set, hd]

theorem addExtendRules_pair (lt : Template) (s d : extendRuleSlot) (tS tD : Str)
    (hs : s.present = true) (hd : d.present = true)
    (hgtS : '>' ∉ s.r.tzName) (hgtD : '>' ∉ d.r.tzName)
    (hD : ∀ sb, addExtendRule sb d.r = .ok (sb ++ tD))
    (hS : ∀ sb, addExtendRule sb s.r = .ok (sb ++ tS)) :
    addExtendRules lt s d = .ok { lt with
      Extend := ['<'] ++ s.r.tzName ++ ['>'] ++ offsetText (neg64 s.r.tzOffsetTo)
        ++ ['<'] ++ d.r.tzName ++ ['>'] ++ offsetText (neg64 d.r.tzOffsetTo) ++ tD ++ tS } := by
  unfold addExtendRules addExtendName
  rw [(containsChar_false_iff _ _).2 hgtS, (containsChar_false_iff _ _).2 hgtD]
  simp only [hs, hd, Bool.not_true, Bool.false_and, Bool.false_eq_true, if_false, hD, hS,
    addExtendOffset_append, List.nil_append, List.append_assoc]

theorem sortSlice_nil (sortSlice : (Change → Change → Bool) → List Change → List Change)
    (hsort : SortsChanges sortSlice) : sortSlice changeBefore [] = [] :=
  List.Perm.eq_nil (hsort []).1

/-- The template that `ToLocationTemplate` returns for a pair of unbounded
rules. -/
theorem toLocationTemplate_pair (ev : Evaluator)
    (sortSlice : (Change → Change → Bool) → List Change → List Change)
    (hsort : SortsChanges sortSlice)
    (name : Str) (vTimezone cStd cDst : Component) (std dst : zoneRule)
    (monthS hourS minuteS secondS monthD hourD minuteD secondD : Nat)
    (weekS weekDayS weekD weekDayD : Int)
    (hchildren : vTimezone.Children = [cStd, cDst] ∨ vTimezone.Children = [cDst, cStd])
    (hnameS : cStd.Name = CompTimezoneStandard) (hnameD : cDst.Name = CompTimezoneDaylight)
    (hparseS : parseRule cStd false = .ok std) (hparseD : parseRule cDst true = .ok dst)
    (hfreqS : mapGet std.rruleParts "FREQ".toList = "YEARLY".toList)
    (hintS : mapGet std.rruleParts "INTERVAL".toList = [] ∨
      mapGet std.rruleParts "INTERVAL".toList = "1".toList)
    (hsigS : FieldsAreMonthDay std.rruleParts)
    (hmonthS : ByMonthText (mapGet std.rruleParts "BYMONTH".toList) monthS)
    (hdayS : ByDayText (mapGet std.rruleParts "BYDAY".toList) weekS weekDayS)
    (hclockS : parseLocalClock std.dtStart = some (hourS, minuteS, secondS))
    (hgtS : '>' ∉ std.tzName)
    (hfreqD : mapGet dst.rruleParts "FREQ".toList = "YEARLY".toList)
    (hintD : mapGet dst.rruleParts "INTERVAL".toList = [] ∨
      mapGet dst.rruleParts "INTERVAL".toList = "1".toList)
    (hsigD : FieldsAreMonthDay dst.rruleParts)
    (hmonthD : ByMonthText (mapGet dst.rruleParts "BYMONTH".toList) monthD)
    (hdayD : ByDayText (mapGet dst.rruleParts "BYDAY".toList) weekD weekDayD)
    (hclockD : parseLocalClock dst.dtStart = some (hourD, minuteD, secondD))
    (hgtD : '>' ∉ dst.tzName) :
    ToLocationTemplate ev sortSlice name vTimezone = .ok
      { Name := name, Zones := [], Changes := [],
        Extend := ['<'] ++ std.tzName ++ ['>'] ++ offsetText (-std.tzOffsetTo)
          ++ ['<'] ++ dst.tzName ++ ['>'] ++ offsetText (-dst.tzOffsetTo)
          ++ ruleText monthD weekD weekDayD hourD minuteD secondD
          ++ ruleText monthS weekS weekDayS hourS minuteS secondS } := by
  have hfS := isRepeatingForever_of_fields std hsigS
  have hfD := isRepeatingForever_of_fields dst hsigD
  have hnS : neg64 std.tzOffsetTo = -std.tzOffsetTo := by
    obtain ⟨_, to_, _, -, -, -, -, -, hp, -⟩ := parseRule_ok cStd false std hparseS
    exact neg64_of_parseOffset to_ _ hp
  have hnD : neg64 dst.tzOffsetTo = -dst.tzOffsetTo := by
    obtain ⟨_, to_, _, -, -, -, -, -, hp, -⟩ := parseRule_ok cDst true dst hparseD
    exact neg64_of_parseOffset to_ _ hp
  have hloop : processChildren ev vTimezone.Children
      { Name := name, Zones := [], Changes := [], Extend := [] }
      { slotName := "standard".toList, r := zoneRule.zero, present := false }
      { slotName := "daylight".toList, r := zoneRule.zero, present := false }
      = .ok ({ Name := name, Zones := [], Changes := [], Extend := [] },
             { slotName := "standard".toList, r := std, present := true },
             { slotName := "daylight".toList, r := dst, present := true }) := by
    rcases hchildren with hc | hc
    · rw [hc, processChildren_standard ev cStd _ _ _ _ std hnameS hparseS hfS rfl,
        processChildren_daylight ev cDst _ _ _ _ dst hnameD hparseD hfD rfl]
      rfl
    · rw [hc, processChildren_daylight ev cDst _ _ _ _ dst hnameD hparseD hfD rfl,
        processChildren_standard ev cStd _ _ _ _ std hnameS hparseS hfS rfl]
      rfl
  have hext := addExtendRules_pair { Name := name, Zones := [], Changes := [], Extend := [] }
    { slotName := "standard".toList, r := std, present := true }
    { slotName := "daylight".toList, r := dst, present := true }
    (ruleText monthS weekS weekDayS hourS minuteS secondS)
    (ruleText monthD weekD weekDayD hourD minuteD secondD) rfl rfl hgtS hgtD
    (fun sb => addExtendRule_valid sb dst monthD hourD minuteD secondD weekD weekDayD
      hfreqD hintD hsigD hmonthD hdayD hclockD)
    (fun sb => addExtendRule_valid sb std monthS hourS minuteS secondS weekS weekDayS
      hfreqS hintS hsigS hmonthS hdayS hclockS)
  unfold ToLocationTemplate
  simp only
  rw [hloop]
  simp only
  rw [hext]
  simp only [sortSlice_nil sortSlice hsort, hnS, hnD]

theorem cetRule_fields : FieldsAreMonthDay cetRule.rruleParts := by
  unfold FieldsAreMonthDay; decide

theorem cestRule_fields : FieldsAreMonthDay cestRule.rruleParts := by
  unfold FieldsAreMonthDay; decide

theorem cetRule_month : ByMonthText (mapGet cetRule.rruleParts "BYMONTH".toList) 10 := by
  unfold ByMonthText; decide

theorem cestRule_month : ByMonthText (mapGet cestRule.rruleParts "BYMONTH".toList) 3 := by
  unfold ByMonthText; decide

theorem lastSunday_day : ByDayText "-1SU".toList 5 0 :=
  (extendByDay_iff _ _ _).1 (by decide)

set_option maxRecDepth 100000 in
theorem cetCest_text :
    ['<'] ++ cetRule.tzName ++ ['>'] ++ offsetText (-cetRule.tzOffsetTo)
      ++ ['<'] ++ cestRule.tzName ++ ['>'] ++ offsetText (-cestRule.tzOffsetTo)
      ++ ruleText 3 5 0 2 0 0 ++ ruleText 10 5 0 3 0 0 = cetCestExtend := by
  decide

/-- Claim C1: when the children of a definition are exactly one unbounded
STANDARD rule and one unbounded DAYLIGHT rule, in either order, each with
FREQ=YEARLY, the fields BYMONTH and BYDAY with valid values (INTERVAL absent or
1), a well-formed local start and a name without `>`, `ToLocationTemplate`
succeeds with empty zones and changes, and the extend string is the standard
name in angle brackets, the negated standard offset, the daylight name in angle
brackets, the negated daylight offset, then the transition rule of the daylight
rule and after it the transition rule of the standard rule, each
`M{month}.{week}.{weekday}/HH:MM:SS`. For the CET/CEST example the extend string
is `<CET>-01:00:00<CEST>-02:00:00M3.5.0/02:00:00M10.5.0/03:00:00`. -/
theorem C1_unbounded_pair_extend_string (ev : Evaluator)
    (sortSlice : (Change → Change → Bool) → List Change → List Change)
    (hsort : SortsChanges sortSlice)
    (name : Str) (vTimezone cStd cDst : Component) (std dst : zoneRule)
    (monthS hourS minuteS secondS monthD hourD minuteD secondD : Nat)
    (weekS weekDayS weekD weekDayD : Int)
    (hchildren : vTimezone.Children = [cStd, cDst] ∨ vTimezone.Children = [cDst, cStd])
    (hnameS : cStd.Name = CompTimezoneStandard) (hnameD : cDst.Name = CompTimezoneDaylight)
    (hparseS : parseRule cStd false = .ok std) (hparseD : parseRule cDst true = .ok dst)
    (hfreqS : mapGet std.rruleParts "FREQ".toList = "YEARLY".toList)
    (hintS : mapGet std.rruleParts "INTERVAL".toList = [] ∨
      mapGet std.rruleParts "INTERVAL".toList = "1".toList)
    (hsigS : FieldsAreMonthDay std.rruleParts)
    (hmonthS : ByMonthText (mapGet std.rruleParts "BYMONTH".toList) monthS)
    (hdayS : ByDayText (mapGet std.rruleParts "BYDAY".toList) weekS weekDayS)
    (hclockS : parseLocalClock std.dtStart = some (hourS, minuteS, secondS))
    (hgtS : '>' ∉ std.tzName)
    (hfreqD : mapGet dst.rruleParts "FREQ".toList = "YEARLY".toList)
    (hintD : mapGet dst.rruleParts "INTERVAL".toList = [] ∨
      mapGet dst.rruleParts "INTERVAL".toList = "1".toList)
    (hsigD : FieldsAreMonthDay dst.rruleParts)
    (hmonthD : ByMonthText (mapGet dst.rruleParts "BYMONTH".toList) monthD)
    (hdayD : ByDayText (mapGet dst.rruleParts "BYDAY".toList) weekD weekDayD)
    (hclockD : parseLocalClock dst.dtStart = some (hourD, minuteD, secondD))
    (hgtD : '>' ∉ dst.tzName) :
    ToLocationTemplate ev sortSlice name vTimezone = .ok
      { Name := name, Zones := [], Changes := [],
        Extend := ['<'] ++ std.tzName ++ ['>'] ++ offsetText (-std.tzOffsetTo)
          ++ ['<'] ++ dst.tzName ++ ['>'] ++ offsetText (-dst.tzOffsetTo)
          ++ ruleText monthD weekD weekDayD hourD minuteD secondD
          ++ ruleText monthS weekS weekDayS hourS minuteS secondS } ∧
    ToLocationTemplate ev sortSlice name cetCestZone = .ok
      { Name := name, Zones := [], Changes := [], Extend := cetCestExtend } := by
  refine ⟨toLocationTemplate_pair ev sortSlice hsort name vTimezone cStd cDst std dst
    monthS hourS minuteS secondS monthD hourD minuteD secondD weekS weekDayS weekD weekDayD
    hchildren hnameS hnameD hparseS hparseD hfreqS hintS hsigS hmonthS hdayS hclockS hgtS
    hfreqD hintD hsigD hmonthD hdayD hclockD hgtD, ?_⟩
  have h := toLocationTemplate_pair ev sortSlice hsort name cetCestZone cetStandard cestDaylight
    cetRule cestRule 10 3 0 0 3 2 0 0 5 0 5 0 (Or.inl rfl) rfl rfl (by decide) (by decide)
    (by decide) (Or.inl (by decide)) cetRule_fields cetRule_month lastSunday_day (by decide)
    (by decide)
    (by decide) (Or.inl (by decide)) cestRule_fields cestRule_month lastSunday_day (by decide)
    (by decide)
  rw [h, cetCest_text]

/-- Witness of C1: the CET/CEST example meets every hypothesis. -/
theorem C1_witness :
    ToLocationTemplate sampleEvaluator insertionSortSlice "go49951.ical".toList cetCestZone = .ok
      { Name := "go49951.ical".toList, Zones := [], Changes := [],
        Extend := ['<'] ++ cetRule.tzName ++ ['>'] ++ offsetText (-cetRule.tzOffsetTo)
          ++ ['<'] ++ cestRule.tzName ++ ['>'] ++ offsetText (-cestRule.tzOffsetTo)
          ++ ruleText 3 5 0 2 0 0 ++ ruleText 10 5 0 3 0 0 } ∧
    ToLocationTemplate sampleEvaluator insertionSortSlice "go49951.ical".toList cetCestZone = .ok
      { Name := "go49951.ical".toList, Zones := [], Changes := [], Extend := cetCestExtend } :=
  C1_unbounded_pair_extend_string sampleEvaluator insertionSortSlice insertionSortSlice_sorts
    "go49951.ical".toList cetCestZone cetStandard cestDaylight
    cetRule cestRule 10 3 0 0 3 2 0 0 5 0 5 0 (Or.inl rfl) rfl rfl (by decide) (by decide)
    (by decide) (Or.inl (by decide)) cetRule_fields cetRule_month lastSunday_day (by decide)
    (by decide)
    (by decide) (Or.inl (by decide)) cestRule_fields cestRule_month lastSunday_day (by decide)
    (by decide)

theorem processChildren_bounded (ev : Evaluator) (children : List Component)
    (lt : Template) (s d : extendRuleSlot) (lt1 : Template) (s1 d1 : extendRuleSlot)
    (hno : ∀ c ∈ children, ∀ (b : Bool) (r : zoneRule),
      parseRule c b = .ok r → r.isRepeatingForever = false)
    (h : processChildren ev children lt s d = .ok (lt1, s1, d1)) : s1 = s ∧ d1 = d := by
  induction children generalizing lt with
  | nil =>
    simp only [processChildren, Except.ok.injEq, Prod.mk.injEq] at h
    exact ⟨h.2.1.symm, h.2.2.symm⟩
  | cons child rest ih =>
    rw [processChildren] at h
    split at h
    · cases h
    · split at h
      · cases h
      · rename_i rule hrule
        have hb := hno child (List.mem_cons_self _ _) _ rule hrule
        rw [hb] at h
        simp only [Bool.false_eq_true, if_false] at h
        split at h
        · cases h
        · rename_i lt2 hlt2
          exact ih lt2 (fun c hc => hno c (List.mem_cons_of_mem _ hc)) h

theorem addExtendRules_empty_slots (lt : Template) :
    addExtendRules lt
      { slotName := "standard".toList, r := zoneRule.zero, present := false }
      { slotName := "daylight".toList, r := zoneRule.zero, present := false }
      = .ok { lt with Extend := "<>00:00:00".toList } := by
  rfl

/-- Claim C10, evaluated on the code: on every definition all of whose rules
are bounded, also one without children, on which `ToLocationTemplate` succeeds,
the extend string is `<>00:00:00`, not the empty string: `addExtendRules` writes
the name and offset of the zero rule of the empty standard slot. -/
theorem C10_extend_without_unbounded_rule_is_not_empty (ev : Evaluator)
    (sortSlice : (Change → Change → Bool) → List Change → List Change)
    (name : Str) (vTimezone : Component) (lt : Template)
    (hno : ∀ c ∈ vTimezone.Children, ∀ (b : Bool) (r : zoneRule),
      parseRule c b = .ok r → r.isRepeatingForever = false)
    (h : ToLocationTemplate ev sortSlice name vTimezone = .ok lt) :
    lt.Extend = "<>00:00:00".toList ∧ lt.Extend ≠ [] := by
  obtain ⟨lt1, lt2, s, d, h1, h2, rfl⟩ := ToLocationTemplate_ok ev sortSlice name vTimezone lt h
  obtain ⟨rfl, rfl⟩ := processChildren_bounded ev _ _ _ _ lt1 s d hno h1
  rw [addExtendRules_empty_slots] at h2
  simp only [Except.ok.injEq] at h2
  subst h2
  refine ⟨rfl, ?_⟩
  show "<>00:00:00".toList ≠ []
  decide

/-- Witness of C10: the definition without children, and a definition with one
bounded rule. -/
theorem C10_witness :
    (({ Name := "x".toList, Zones := [], Changes := [], Extend := "<>00:00:00".toList }
        : Template).Extend = "<>00:00:00".toList ∧
      ({ Name := "x".toList, Zones := [], Changes := [], Extend := "<>00:00:00".toList }
        : Template).Extend ≠ []) ∧
    ToLocationTemplate sampleEvaluator insertionSortSlice "x".toList boundedOnlyZone = .ok
      { Name := "x".toList, Zones := [⟨"CEST".toList, 2 * Hour, true⟩],
        Changes := [⟨3, 0⟩, ⟨5, 0⟩], Extend := "<>00:00:00".toList } :=
  ⟨C10_extend_without_unbounded_rule_is_not_empty sampleEvaluator insertionSortSlice "x".toList
    emptyZone _ (by intro c hc; cases hc) (by decide), by decide⟩

/-- Claim C4, evaluated on the code: `addZones` hands the evaluator the text of
the rule and the zone only, so its result does not depend on the local start of
the rule. Two sub-definitions with `COUNT=1` that differ in DTSTART only
(1970-01-01 and 1971-01-01, at +01:00) get the same changes from every
evaluator, hence it is not the case that each of them yields one change at its
own local start. -/
theorem C4_addZones_ignores_local_start (ev : Evaluator) (lt : Template) :
    (∀ (rule : zoneRule) (dtStart : Str),
      addZones ev lt { rule with dtStart := dtStart } = addZones ev lt rule) ∧
    parseRule (countOneStandard "19700101T000000".toList) false
      = .ok (countOneRule "19700101T000000".toList) ∧
    parseRule (countOneStandard "19710101T000000".toList) false
      = .ok (countOneRule "19710101T000000".toList) ∧
    (countOneRule "19700101T000000".toList).isRepeatingForever = false ∧
    (countOneRule "19710101T000000".toList).isRepeatingForever = false ∧
    localStartInstant "19700101T000000".toList Hour = some (-3600) ∧
    localStartInstant "19710101T000000".toList Hour = some 31532400 ∧
    ¬ (∀ dt ∈ ["19700101T000000".toList, "19710101T000000".toList],
        ∃ (lt1 : Template) (c : Change),
          addZones ev lt (countOneRule dt) = .ok lt1 ∧
          lt1.Changes = lt.Changes ++ [c] ∧
          some c.Start = localStartInstant dt Hour) := by
  refine ⟨fun _ _ => rfl, by decide, by decide, by decide, by decide, by decide, by decide, ?_⟩
  intro hall
  obtain ⟨ltA, cA, hA, hcA, hsA⟩ := hall "19700101T000000".toList (by simp)
  obtain ⟨ltB, cB, hB, hcB, hsB⟩ := hall "19710101T000000".toList (by simp)
  have hsame : addZones ev lt (countOneRule "19700101T000000".toList)
      = addZones ev lt (countOneRule "19710101T000000".toList) := rfl
  rw [hA, hB] at hsame
  simp only [Except.ok.injEq] at hsame
  subst hsame
  rw [hcA] at hcB
  have hc : cA = cB := by simpa using hcB
  subst hc
  rw [hsA] at hsB
  revert hsB
  decide

/-- Witness of C3: a definition with two bounded rules, each yielding two
occurrences, around an unbounded rule. -/
theorem C3_witness :
    mixedTemplate.Changes.Pairwise (fun a b => a.Start ≤ b.Start) ∧
    ∀ c ∈ mixedTemplate.Changes, 0 ≤ c.ZoneIndex ∧ c.ZoneIndex < (mixedTemplate.Zones.length : Int) :=
  C3_changes_sorted_and_indices_in_range sampleEvaluator insertionSortSlice
    insertionSortSlice_sorts "x".toList mixedZone mixedTemplate (by decide)

/-- Witness of C5: the standard rule of the CET/CEST example. -/
theorem C5_witness :
    (cetRule.isRepeatingForever = true ↔
      ("COUNT".toList ∉ mapKeys cetRule.rruleParts ∧ "UNTIL".toList ∉ mapKeys cetRule.rruleParts)) ∧
    ValuesNonEmpty cetRule.rruleParts :=
  C5_isRepeatingForever_iff_keys_absent cetStandard false cetRule (by decide)

/-- Witness of C6: the standard rule of the CET/CEST example. -/
theorem C6_witness :
    (∀ out, addExtendRule [] cetRule = .ok out →
      mapGet cetRule.rruleParts "FREQ".toList = "YEARLY".toList ∧
      ("INTERVAL".toList ∉ mapKeys cetRule.rruleParts ∨
        mapGet cetRule.rruleParts "INTERVAL".toList = "1".toList) ∧
      FieldsAreMonthDay cetRule.rruleParts) ∧
    (¬ (mapGet cetRule.rruleParts "FREQ".toList = "YEARLY".toList ∧
        ("INTERVAL".toList ∉ mapKeys cetRule.rruleParts ∨
          mapGet cetRule.rruleParts "INTERVAL".toList = "1".toList) ∧
        FieldsAreMonthDay cetRule.rruleParts) →
      ∃ e, addExtendRule [] cetRule = .error e) :=
  C6_addExtendRule_success_needs_month_day_signature cetStandard false cetRule [] (by decide)

theorem byHourRule_fields : ¬ FieldsAreMonthDay byHourRule.rruleParts := by
  unfold FieldsAreMonthDay; decide

/-- Witness of C7: the rule with BYHOUR, BYMONTH and BYDAY. -/
theorem C7_witness :
    ((∀ k ∈ mapKeys byHourRule.rruleParts, k ∈ fieldFlagsByName.map Prod.fst) →
      ∃ L : List Str,
        addExtendRule [] byHourRule = .error (.unsupportedCombination (joinWith ", ".toList L)) ∧
        L.Pairwise (fun x y => strLt y x = false) ∧ L.Nodup ∧
        ∀ k, k ∈ L ↔
          (k ∈ mapKeys byHourRule.rruleParts ∧ k ≠ "FREQ".toList ∧ k ≠ "INTERVAL".toList)) ∧
    ((∃ k ∈ mapKeys byHourRule.rruleParts, k ∉ fieldFlagsByName.map Prod.fst) →
      ∃ k ∈ mapKeys byHourRule.rruleParts, k ∉ fieldFlagsByName.map Prod.fst ∧
        addExtendRule [] byHourRule = .error (.unsupportedField k)) :=
  C7_unsupported_combination_lists_all_fields [] byHourRule (by decide) (Or.inl (by decide))
    byHourRule_fields

theorem monthDayRule_fields : FieldsAreMonthDay (monthDayRule "3".toList "-1SU".toList).rruleParts := by
  unfold FieldsAreMonthDay; decide

theorem monthDayRule_month :
    ByMonthText (mapGet (monthDayRule "3".toList "-1SU".toList).rruleParts "BYMONTH".toList) 3 := by
  unfold ByMonthText; decide

/-- Witness of C8: the rule `FREQ=YEARLY;BYMONTH=3;BYDAY=-1SU`. -/
theorem C8_witness :
    (∀ out, addExtendRule [] (monthDayRule "3".toList "-1SU".toList) = .ok out ↔
      ∃ week weekDay,
        ByDayText (mapGet (monthDayRule "3".toList "-1SU".toList).rruleParts "BYDAY".toList)
          week weekDay ∧
        out = [] ++ ruleText 3 week weekDay 2 0 0) ∧
    addExtendRule [] (monthDayRule "3".toList "-1SU".toList) = .ok "M3.5.0/02:00:00".toList :=
  ⟨(C8_byDay_accepted_iff_offset_and_weekday [] (monthDayRule "3".toList "-1SU".toList) 3 2 0 0
    (by decide) (Or.inl (by decide)) monthDayRule_fields monthDayRule_month (by decide)).1,
   by decide⟩

/-- Witness of C9: the rule `FREQ=YEARLY;BYMONTH=3;BYDAY=-1SU`. -/
theorem C9_witness :
    addExtendRule [] (monthDayRule "3".toList "-1SU".toList) = .ok "M3.5.0/02:00:00".toList ∧
    ∃ (month : Nat) (week weekDay : Int) (hour minute second : Nat),
      ByMonthText (mapGet (monthDayRule "3".toList "-1SU".toList).rruleParts "BYMONTH".toList)
        month ∧
      ',' ∉ mapGet (monthDayRule "3".toList "-1SU".toList).rruleParts "BYMONTH".toList ∧
      "M3.5.0/02:00:00".toList = [] ++ ruleText month week weekDay hour minute second ∧
      ruleText month week weekDay hour minute second
        = ['M'] ++ fmtD (month : Int) ++ ['.'] ++ fmtD week ++ ['.'] ++ fmtD weekDay
            ++ ['/'] ++ fmt02d (hour : Int) ++ [':'] ++ fmt02d (minute : Int)
            ++ [':'] ++ fmt02d (second : Int) :=
  ⟨by decide, (C9_byMonth_single_integer_1_to_12 [] (monthDayRule "3".toList "-1SU".toList)
    "M3.5.0/02:00:00".toList (by decide)).1⟩

/-! ## The loop over the children -/

theorem processChildren_cons (ev : Evaluator) (c : Component) (rest : List Component)
    (lt : Template) (s d : extendRuleSlot) :
    processChildren ev (c :: rest) lt s d =
      match processChild ev c lt s d with
      | .error e => .error e
      | .ok (lt2, s2, d2) => processChildren ev rest lt2 s2 d2 := by
  rw [processChildren]
  unfold processChild
  simp only
  by_cases hk : (!decide (c.Name = CompTimezoneStandard) &&
      !decide (c.Name = CompTimezoneDaylight)) = true
  · rw [if_pos hk, if_pos hk]
  · rw [if_neg hk, if_neg hk]
    cases parseRule c (decide (c.Name = CompTimezoneDaylight)) with
    | error e => rfl
    | ok rule =>
      simp only
      by_cases hf : rule.isRepeatingForever = true
      · rw [if_pos hf, if_pos hf]
        by_cases hs : decide (c.Name = CompTimezoneStandard) = true
        · rw [if_pos hs, if_pos hs]
          cases s.set rule <;> rfl
        · rw [if_neg hs, if_neg hs]
          cases d.set rule <;> rfl
      · rw [if_neg hf, if_neg hf]
        cases addZones ev lt rule <;> rfl

theorem processChildren_append (ev : Evaluator) (pre rest : List Component)
    (lt : Template) (s d : extendRuleSlot) :
    processChildren ev (pre ++ rest) lt s d =
      match processChildren ev pre lt s d with
      | .error e => .error e
      | .ok (lt2, s2, d2) => processChildren ev rest lt2 s2 d2 := by
  induction pre generalizing lt s d with
  | nil => simp [processChildren]
  | cons c pre ih =>
    rw [List.cons_append, processChildren_cons, processChildren_cons]
    cases h : processChild ev c lt s d with
    | error e => rfl
    | ok st =>
      obtain ⟨lt2, s2, d2⟩ := st
      exact ih lt2 s2 d2

theorem standard_ne_daylight : CompTimezoneStandard ≠ CompTimezoneDaylight := by decide

/-- What one successful pass of the loop has done. -/
theorem processChild_ok (ev : Evaluator) (c : Component) (lt : Template)
    (s d : extendRuleSlot) (lt2 : Template) (s2 d2 : extendRuleSlot)
    (h : processChild ev c lt s d = .ok (lt2, s2, d2)) :
    (∃ r, UnboundedStandard c r ∧ s.present = false ∧
        s2 = { s with r := r, present := true } ∧ d2 = d ∧ lt2 = lt) ∨
    (∃ r, UnboundedDaylight c r ∧ d.present = false ∧
        d2 = { d with r := r, present := true } ∧ s2 = s ∧ lt2 = lt) ∨
    (∃ r, BoundedRule c r ∧ addZones ev lt r = .ok lt2 ∧ s2 = s ∧ d2 = d) := by
  unfold processChild at h
  simp only at h
  split at h
  · cases h
  · rename_i hkind
    split at h
    · cases h
    · rename_i rule hrule
      by_cases hf : rule.isRepeatingForever = true
      · rw [if_pos hf] at h
        by_cases hs : c.Name = CompTimezoneStandard
        · have hd : decide (c.Name = CompTimezoneDaylight) = false := by
            rw [hs]; exact decide_eq_false standard_ne_daylight
          rw [hd] at hrule
          simp only [hs, decide_True, if_true, extendRuleSlot.set] at h
          by_cases hp : s.present = true
          · rw [if_pos hp] at h; cases h
          · rw [if_neg hp] at h
            simp only [Except.ok.injEq, Prod.mk.injEq] at h
            obtain ⟨rfl, rfl, rfl⟩ := h
            exact Or.inl ⟨rule, ⟨hs, hrule, hf⟩, by simpa using hp, rfl, rfl, rfl⟩
        · have hdn : c.Name = CompTimezoneDaylight := by
            by_contra hdn
            apply hkind
            simp [hs, hdn]
          have hd : decide (c.Name = CompTimezoneDaylight) = true := by simp [hdn]
          rw [hd] at hrule
          have hs2 : decide (c.Name = CompTimezoneStandard) = false := by simp [hs]
          simp only [hs2, Bool.false_eq_true, if_false, extendRuleSlot.set] at h
          by_cases hp : d.present = true
          · rw [if_pos hp] at h; cases h
          · rw [if_neg hp] at h
            simp only [Except.ok.injEq, Prod.mk.injEq] at h
            obtain ⟨rfl, rfl, rfl⟩ := h
            exact Or.inr (Or.inl ⟨rule, ⟨hdn, hrule, hf⟩, by simpa using hp, rfl, rfl, rfl⟩)
      · rw [if_neg hf] at h
        split at h
        · cases h
        · rename_i lt1 hlt1
          simp only [Except.ok.injEq, Prod.mk.injEq] at h
          obtain ⟨rfl, rfl, rfl⟩ := h
          refine Or.inr (Or.inr ⟨rule, ⟨?_, hrule, by simpa using hf⟩, hlt1, rfl, rfl⟩)
          by_cases hs : c.Name = CompTimezoneStandard
          · exact Or.inl hs
          · right
            by_contra hdn
            apply hkind
            simp [hs, hdn]

theorem processChildren_nil (ev : Evaluator) (lt : Template) (s d : extendRuleSlot) :
    processChildren ev [] lt s d = .ok (lt, s, d) := by
  simp [processChildren]

/-- The loop never clears a slot and keeps the names of the slots. -/
theorem processChildren_slots_mono (ev : Evaluator) (children : List Component)
    (lt : Template) (s d : extendRuleSlot) (lt1 : Template) (s1 d1 : extendRuleSlot)
    (h : processChildren ev children lt s d = .ok (lt1, s1, d1)) :
    (s.present = true → s1 = s) ∧ (d.present = true → d1 = d) ∧
    s1.slotName = s.slotName ∧ d1.slotName = d.slotName := by
  induction children generalizing lt s d with
  | nil =>
    rw [processChildren_nil] at h
    simp only [Except.ok.injEq, Prod.mk.injEq] at h
    obtain ⟨-, rfl, rfl⟩ := h
    exact ⟨fun _ => rfl, fun _ => rfl, rfl, rfl⟩
  | cons c rest ih =>
    rw [processChildren_cons] at h
    cases hc : processChild ev c lt s d with
    | error e => rw [hc] at h; cases h
    | ok st =>
      obtain ⟨lt2, s2, d2⟩ := st
      rw [hc] at h
      simp only at h
      obtain ⟨i1, i2, i3, i4⟩ := ih lt2 s2 d2 h
      rcases processChild_ok ev c lt s d lt2 s2 d2 hc with
        ⟨r, -, hp, rfl, rfl, -⟩ | ⟨r, -, hp, rfl, rfl, -⟩ | ⟨r, -, -, rfl, rfl⟩
      · refine ⟨fun hs => ?_, i2, i3, i4⟩
        rw [hp] at hs; cases hs
      · refine ⟨i1, fun hd => ?_, i3, i4⟩
        rw [hp] at hd; cases hd
      · exact ⟨i1, i2, i3, i4⟩

/-- After a successful loop, an unbounded standard rule among the children is
the rule of the standard slot, and the slot was empty before. -/
theorem processChildren_standard_slot (ev : Evaluator) (children : List Component)
    (lt : Template) (s d : extendRuleSlot) (lt1 : Template) (s1 d1 : extendRuleSlot)
    (h : processChildren ev children lt s d = .ok (lt1, s1, d1))
    (c : Component) (r : zoneRule) (hc : c ∈ children) (hu : UnboundedStandard c r) :
    s.present = false ∧ s1.present = true ∧ s1.r = r := by
  induction children generalizing lt s d with
  | nil => cases hc
  | cons c0 rest ih =>
    rw [processChildren_cons] at h
    cases hp : processChild ev c0 lt s d with
    | error e => rw [hp] at h; cases h
    | ok st =>
      obtain ⟨lt2, s2, d2⟩ := st
      rw [hp] at h
      simp only at h
      have hmono := processChildren_slots_mono ev rest lt2 s2 d2 lt1 s1 d1 h
      rcases List.mem_cons.1 hc with rfl | hmem
      · rcases processChild_ok ev c lt s d lt2 s2 d2 hp with
          ⟨r2, hu2, hpres, rfl, rfl, -⟩ | ⟨r2, hu2, -, -, -, -⟩ | ⟨r2, hb, -, -, -⟩
        · have hr : r2 = r := by
            have := hu2.2.1; rw [hu.2.1] at this; simp only [Except.ok.injEq] at this
            exact this.symm
          subst hr
          have := hmono.1 rfl
          subst this
          exact ⟨hpres, rfl, rfl⟩
        · exact absurd (hu.1.symm.trans hu2.1) standard_ne_daylight
        · have hd : decide (c.Name = CompTimezoneDaylight) = false := by
            rw [hu.1]; exact decide_eq_false standard_ne_daylight
          have h1 := hb.2.1
          rw [hd, hu.2.1] at h1
          simp only [Except.ok.injEq] at h1
          subst h1
          have := hb.2.2; rw [hu.2.2] at this; cases this
      · obtain ⟨j1, j2, j3⟩ := ih lt2 s2 d2 h hmem
        refine ⟨?_, j2, j3⟩
        rcases processChild_ok ev c0 lt s d lt2 s2 d2 hp with
          ⟨r2, -, -, rfl, -, -⟩ | ⟨r2, -, -, -, rfl, -⟩ | ⟨r2, -, -, rfl, -⟩
        · cases j1
        · exact j1
        · exact j1

/-- After a successful loop, an unbounded daylight rule among the children is
the rule of the daylight slot, and the slot was empty before. -/
theorem processChildren_daylight_slot (ev : Evaluator) (children : List Component)
    (lt : Template) (s d : extendRuleSlot) (lt1 : Template) (s1 d1 : extendRuleSlot)
    (h : processChildren ev children lt s d = .ok (lt1, s1, d1))
    (c : Component) (r : zoneRule) (hc : c ∈ children) (hu : UnboundedDaylight c r) :
    d.present = false ∧ d1.present = true ∧ d1.r = r := by
  induction children generalizing lt s d with
  | nil => cases hc
  | cons c0 rest ih =>
    rw [processChildren_cons] at h
    cases hp : processChild ev c0 lt s d with
    | error e => rw [hp] at h; cases h
    | ok st =>
      obtain ⟨lt2, s2, d2⟩ := st
      rw [hp] at h
      simp only at h
      have hmono := processChildren_slots_mono ev rest lt2 s2 d2 lt1 s1 d1 h
      rcases List.mem_cons.1 hc with rfl | hmem
      · rcases processChild_ok ev c lt s d lt2 s2 d2 hp with
          ⟨r2, hu2, -, -, -, -⟩ | ⟨r2, hu2, hpres, rfl, rfl, -⟩ | ⟨r2, hb, -, -, -⟩
        · exact absurd (hu2.1.symm.trans hu.1) standard_ne_daylight
        · have hr : r2 = r := by
            have := hu2.2.1; rw [hu.2.1] at this; simp only [Except.ok.injEq] at this
            exact this.symm
          subst hr
          have := hmono.2.1 rfl
          subst this
          exact ⟨hpres, rfl, rfl⟩
        · have hd : decide (c.Name = CompTimezoneDaylight) = true := by
            rw [hu.1]; simp
          have h1 := hb.2.1
          rw [hd, hu.2.1] at h1
          simp only [Except.ok.injEq] at h1
          subst h1
          have := hb.2.2; rw [hu.2.2] at this; cases this
      · obtain ⟨j1, j2, j3⟩ := ih lt2 s2 d2 h hmem
        refine ⟨?_, j2, j3⟩
        rcases processChild_ok ev c0 lt s d lt2 s2 d2 hp with
          ⟨r2, -, -, -, rfl, -⟩ | ⟨r2, -, -, rfl, -, -⟩ | ⟨r2, -, -, -, rfl⟩
        · exact j1
        · cases j1
        · exact j1

/-- The standard slot is filled by the loop only from an unbounded standard
rule among the children. -/
theorem processChildren_standard_source (ev : Evaluator) (children : List Component)
    (lt : Template) (s d : extendRuleSlot) (lt1 : Template) (s1 d1 : extendRuleSlot)
    (h : processChildren ev children lt s d = .ok (lt1, s1, d1))
    (hs : s.present = false) (hs1 : s1.present = true) :
    ∃ c ∈ children, ∃ r, UnboundedStandard c r := by
  induction children generalizing lt s d with
  | nil =>
    rw [processChildren_nil] at h
    simp only [Except.ok.injEq, Prod.mk.injEq] at h
    obtain ⟨-, rfl, -⟩ := h
    rw [hs] at hs1; cases hs1
  | cons c0 rest ih =>
    rw [processChildren_cons] at h
    cases hp : processChild ev c0 lt s d with
    | error e => rw [hp] at h; cases h
    | ok st =>
      obtain ⟨lt2, s2, d2⟩ := st
      rw [hp] at h
      simp only at h
      rcases processChild_ok ev c0 lt s d lt2 s2 d2 hp with
        ⟨r2, hu2, -, -, -, -⟩ | ⟨r2, -, -, -, rfl, -⟩ | ⟨r2, -, -, rfl, -⟩
      · exact ⟨c0, List.mem_cons_self _ _, r2, hu2⟩
      · obtain ⟨c, hc, r, hu⟩ := ih lt2 _ _ h hs
        exact ⟨c, List.mem_cons_of_mem _ hc, r, hu⟩
      · obtain ⟨c, hc, r, hu⟩ := ih lt2 _ _ h hs
        exact ⟨c, List.mem_cons_of_mem _ hc, r, hu⟩

/-- The daylight slot is filled by the loop only from an unbounded daylight
rule among the children. -/
theorem processChildren_daylight_source (ev : Evaluator) (children : List Component)
    (lt : Template) (s d : extendRuleSlot) (lt1 : Template) (s1 d1 : extendRuleSlot)
    (h : processChildren ev children lt s d = .ok (lt1, s1, d1))
    (hd : d.present = false) (hd1 : d1.present = true) :
    ∃ c ∈ children, ∃ r, UnboundedDaylight c r := by
  induction children generalizing lt s d with
  | nil =>
    rw [processChildren_nil] at h
    simp only [Except.ok.injEq, Prod.mk.injEq] at h
    obtain ⟨-, -, rfl⟩ := h
    rw [hd] at hd1; cases hd1
  | cons c0 rest ih =>
    rw [processChildren_cons] at h
    cases hp : processChild ev c0 lt s d with
    | error e => rw [hp] at h; cases h
    | ok st =>
      obtain ⟨lt2, s2, d2⟩ := st
      rw [hp] at h
      simp only at h
      rcases processChild_ok ev c0 lt s d lt2 s2 d2 hp with
        ⟨r2, -, -, -, rfl, -⟩ | ⟨r2, hu2, -, -, -, -⟩ | ⟨r2, -, -, -, rfl⟩
      · obtain ⟨c, hc, r, hu⟩ := ih lt2 _ _ h hd
        exact ⟨c, List.mem_cons_of_mem _ hc, r, hu⟩
      · exact ⟨c0, List.mem_cons_self _ _, r2, hu2⟩
      · obtain ⟨c, hc, r, hu⟩ := ih lt2 _ _ h hd
        exact ⟨c, List.mem_cons_of_mem _ hc, r, hu⟩

/-! ## The text of an offset -/

theorem fmt02d_small : ∀ n : Nat, n < 100 → fmt02d (n : Int) = twoDigits n := by decide

theorem twoDigits_digits : ∀ a : Nat, a < 10 →
    isDigit (Char.ofNat (48 + a)) = true ∧ digitVal (Char.ofNat (48 + a)) = a ∧
      Char.ofNat (48 + a) ≠ ':' := by decide

theorem Hour_eq : Hour = (3600000000000 : Int) := by decide

theorem Minute_eq : Minute = (60000000000 : Int) := by decide

theorem Second_eq : Second = (1000000000 : Int) := by decide

theorem clock_parts (n : Nat) :
    Int.tdiv (n : Int) Hour = ((n / 1000000000 / 3600 : Nat) : Int) ∧
    Int.tdiv (Int.tmod (n : Int) Hour) Minute = ((n / 1000000000 % 3600 / 60 : Nat) : Int) ∧
    Int.tdiv (Int.tmod (Int.tmod (n : Int) Hour) Minute) Second
      = ((n / 1000000000 % 60 : Nat) : Int) := by
  rw [Hour_eq, Minute_eq, Second_eq]
  have h0 : (0 : Int) ≤ (n : Int) := Int.ofNat_nonneg n
  rw [Int.tdiv_eq_ediv h0 (by norm_num), Int.tmod_eq_emod h0 (by norm_num)]
  have h1 : (0 : Int) ≤ (n : Int) % 3600000000000 := Int.emod_nonneg _ (by norm_num)
  rw [Int.tdiv_eq_ediv h1 (by norm_num), Int.tmod_eq_emod h1 (by norm_num)]
  have h2 : (0 : Int) ≤ (n : Int) % 3600000000000 % 60000000000 :=
    Int.emod_nonneg _ (by norm_num)
  rw [Int.tdiv_eq_ediv h2 (by norm_num)]
  refine ⟨?_, ?_, ?_⟩ <;> omega

theorem offsetText_nonneg (n : Nat) (hn : n < 360000000000000) :
    offsetText (n : Int) =
      twoDigits (n / 1000000000 / 3600) ++ [':'] ++
      twoDigits (n / 1000000000 % 3600 / 60) ++ [':'] ++
      twoDigits (n / 1000000000 % 60) := by
  obtain ⟨e1, e2, e3⟩ := clock_parts n
  unfold offsetText addExtendOffset
  have hneg : ¬ ((n : Int) < 0) := by omega
  simp only [hneg, if_false, e1, e2, e3, List.nil_append]
  rw [fmt02d_small _ (by omega), fmt02d_small _ (by omega), fmt02d_small _ (by omega)]

/-- The text that `addExtendOffset` writes for a duration of magnitude below
one hundred hours is its signed `HH:MM:SS` text. -/
theorem offsetText_eq_signedClock (d : Int)
    (hlo : -(360000000000000 : Int) < d) (hhi : d < (360000000000000 : Int)) :
    offsetText d = signedClock d := by
  unfold signedClock
  by_cases hneg : d < 0
  · have hmin : d ≠ -(2 : Int) ^ 63 := by
      intro hc; rw [hc] at hlo; norm_num at hlo
    have hn : neg64 d = ((d.natAbs : Nat) : Int) := by
      unfold neg64; rw [if_neg hmin]; omega
    have hb : d.natAbs < 360000000000000 := by omega
    have := offsetText_nonneg d.natAbs hb
    unfold offsetText addExtendOffset at this ⊢
    have h0 : ¬ (((d.natAbs : Nat) : Int) < 0) := by omega
    simp only [h0, if_false, List.nil_append] at this
    simp only [hneg, if_true, hn, List.nil_append]
    simp only [List.append_assoc] at this ⊢
    rw [this]
  · have hd : d = ((d.natAbs : Nat) : Int) := by omega
    have hb : d.natAbs < 360000000000000 := by omega
    rw [if_neg hneg, List.nil_append]
    conv_lhs => rw [hd]
    exact offsetText_nonneg d.natAbs hb

theorem removeColons_twoDigits : ∀ n : Nat, n < 100 → removeColons (twoDigits n) = twoDigits n := by
  decide

theorem removeColons_signedClock (d : Int)
    (hlo : -(360000000000000 : Int) < d) (hhi : d < (360000000000000 : Int)) :
    removeColons (signedClock d) =
      (if d < 0 then ['-'] else []) ++
        (twoDigits (d.natAbs / 1000000000 / 3600) ++
          twoDigits (d.natAbs / 1000000000 % 3600 / 60) ++
          twoDigits (d.natAbs / 1000000000 % 60)) := by
  have hb : d.natAbs < 360000000000000 := by omega
  unfold signedClock
  have e1 := removeColons_twoDigits (d.natAbs / 1000000000 / 3600) (by omega)
  have e2 := removeColons_twoDigits (d.natAbs / 1000000000 % 3600 / 60) (by omega)
  have e3 := removeColons_twoDigits (d.natAbs / 1000000000 % 60) (by omega)
  unfold removeColons at e1 e2 e3 ⊢
  simp only [List.filter_append, e1, e2, e3]
  have hc : List.filter (fun c => c != ':') [':'] = [] := by decide
  rw [hc]
  split
  · have hm : List.filter (fun c => c != ':') ['-'] = ['-'] := by decide
    rw [hm]; simp
  · simp

theorem recompose_neg (k : Int) (hneg : k < 0) :
    k * 1000000000 = -1 *
      (((10 * (k.natAbs / 3600 / 10) + k.natAbs / 3600 % 10 : Nat) : Int) * 3600000000000
        + ((10 * (k.natAbs % 3600 / 60 / 10) + k.natAbs % 3600 / 60 % 10 : Nat) : Int) * 60000000000
        + ((k.natAbs % 60 : Nat) : Int) * 1000000000) := by
  omega

theorem recompose_pos (k : Int) (hpos : 0 ≤ k) :
    k * 1000000000 = 1 *
      (((10 * (k.natAbs / 3600 / 10) + k.natAbs / 3600 % 10 : Nat) : Int) * 3600000000000
        + ((10 * (k.natAbs % 3600 / 60 / 10) + k.natAbs % 3600 / 60 % 10 : Nat) : Int) * 60000000000
        + ((k.natAbs % 60 : Nat) : Int) * 1000000000) := by
  omega

/-- Reading back the text of a whole number of seconds within 23:59:59. -/
theorem parseOffset_offsetText (k : Int) (hlo : -86399 ≤ k) (hhi : k ≤ 86399) :
    parseOffset (removeColons (offsetText (k * 1000000000))) = .ok (k * 1000000000) := by
  have hb1 : -(360000000000000 : Int) < k * 1000000000 := by omega
  have hb2 : k * 1000000000 < (360000000000000 : Int) := by omega
  rw [offsetText_eq_signedClock _ hb1 hb2, removeColons_signedClock _ hb1 hb2]
  have hsec : (k * 1000000000).natAbs / 1000000000 = k.natAbs := by omega
  rw [hsec]
  have hk : k.natAbs ≤ 86399 := by omega
  obtain ⟨a1, a2, -⟩ := twoDigits_digits (k.natAbs / 3600 / 10) (by omega)
  obtain ⟨b1, b2, -⟩ := twoDigits_digits (k.natAbs / 3600 % 10) (by omega)
  obtain ⟨c1, c2, -⟩ := twoDigits_digits (k.natAbs % 3600 / 60 / 10) (by omega)
  obtain ⟨d1, d2, -⟩ := twoDigits_digits (k.natAbs % 3600 / 60 % 10) (by omega)
  obtain ⟨e1, e2, -⟩ := twoDigits_digits (k.natAbs % 60 / 10) (by omega)
  obtain ⟨f1, f2, -⟩ := twoDigits_digits (k.natAbs % 60 % 10) (by omega)
  have hsv : decimalValue (twoDigits (k.natAbs % 60)) = k.natAbs % 60 := by
    simp only [twoDigits, decimalValue, List.foldl_cons, List.foldl_nil, e2, f2]
    omega
  apply (parseOffset_iff _ _).2
  refine ⟨if k * 1000000000 < 0 then ['-'] else [], _, _, _, _, twoDigits (k.natAbs % 60), ?_, ?_,
    a1, b1, c1, d1, Or.inr ⟨_, _, rfl, e1, f1⟩, ?_, ?_, ?_, ?_⟩
  · simp [twoDigits]
  · split
    · exact Or.inr (Or.inr rfl)
    · exact Or.inl rfl
  · rw [a2, b2]; omega
  · rw [c2, d2]; omega
  · rw [hsv]; omega
  · rw [a2, b2, c2, d2, hsv, Hour_eq, Minute_eq, Second_eq]
    by_cases hneg : k * 1000000000 < 0
    · rw [if_pos hneg, if_pos rfl]
      exact recompose_neg k (by omega)
    · rw [if_neg hneg, if_neg (by decide)]
      exact recompose_pos k (by omega)

/-- Every value of `parseOffset` is a whole number of seconds within
23:59:59. -/
theorem parseOffset_seconds (s : Str) (d : Duration) (h : parseOffset s = .ok d) :
    ∃ k : Int, -86399 ≤ k ∧ k ≤ 86399 ∧ d = k * 1000000000 := by
  obtain ⟨sign, h1, h2, m1, m2, secs, -, -, -, -, -, -, -, hH, hM, hS, rfl⟩ :=
    (parseOffset_iff s d).1 h
  rw [Hour_eq, Minute_eq, Second_eq]
  generalize digitVal h1 = a at *
  generalize digitVal h2 = b at *
  generalize digitVal m1 = c at *
  generalize digitVal m2 = e at *
  generalize decimalValue secs = g at *
  split
  · refine ⟨-(((10 * a + b : Nat) : Int) * 3600 + ((10 * c + e : Nat) : Int) * 60 + (g : Int)),
      by omega, by omega, ?_⟩
    show (-1 * _ : Int) = _
    push_cast
    ring
  · refine ⟨((10 * a + b : Nat) : Int) * 3600 + ((10 * c + e : Nat) : Int) * 60 + (g : Int),
      by omega, by omega, ?_⟩
    show (1 * _ : Int) = _
    push_cast
    ring

/-- Claim C20: for every offset of a whole number of seconds within 23:59:59,
the text that `addExtendOffset` writes, with its `:` removed, is accepted by
`parseOffset` and reads back as the same offset; every value of `parseOffset`
is such an offset, so it and its negation are written without loss. -/
theorem C20_offset_text_reads_back (d : Duration) (k : Int)
    (hd : d = k * Second) (hlo : -86399 ≤ k) (hhi : k ≤ 86399) :
    parseOffset (removeColons (addExtendOffset [] d)) = .ok d ∧
    (∀ (s : Str) (x : Duration), parseOffset s = .ok x →
      (∃ j : Int, -86399 ≤ j ∧ j ≤ 86399 ∧ x = j * Second) ∧
      parseOffset (removeColons (addExtendOffset [] x)) = .ok x ∧
      parseOffset (removeColons (addExtendOffset [] (neg64 x))) = .ok (-x)) := by
  have key : ∀ j : Int, -86399 ≤ j → j ≤ 86399 →
      parseOffset (removeColons (addExtendOffset [] (j * Second))) = .ok (j * Second) := by
    intro j h1 h2
    rw [Second_eq]
    exact parseOffset_offsetText j h1 h2
  refine ⟨by rw [hd]; exact key k hlo hhi, ?_⟩
  intro s x hx
  obtain ⟨j, h1, h2, hj⟩ := parseOffset_seconds s x hx
  rw [← Second_eq] at hj
  refine ⟨⟨j, h1, h2, hj⟩, by rw [hj]; exact key j h1 h2, ?_⟩
  rw [neg64_of_parseOffset s x hx, hj]
  have : -(j * Second) = (-j) * Second := by ring
  rw [this]
  exact key (-j) (by omega) (by omega)

/-! ## The slots after the loop -/

theorem ToLocationTemplate_eq (ev : Evaluator)
    (sortSlice : (Change → Change → Bool) → List Change → List Change)
    (name : Str) (vTimezone : Component) :
    ToLocationTemplate ev sortSlice name vTimezone =
      match processChildren ev vTimezone.Children (initTemplate name) initStd initDst with
      | .error e => .error e
      | .ok (lt, stdRule, dstRule) =>
        match addExtendRules lt stdRule dstRule with
        | .error e => .error e
        | .ok lt1 => .ok { lt1 with Changes := sortSlice changeBefore lt1.Changes } := rfl

/-- Every child of a successful loop has been read by `parseRule`. -/
theorem processChildren_parsed (ev : Evaluator) (children : List Component)
    (lt : Template) (s d : extendRuleSlot) (lt1 : Template) (s1 d1 : extendRuleSlot)
    (h : processChildren ev children lt s d = .ok (lt1, s1, d1))
    (c : Component) (hc : c ∈ children) :
    (∃ r, UnboundedStandard c r) ∨ (∃ r, UnboundedDaylight c r) ∨ (∃ r, BoundedRule c r) := by
  induction children generalizing lt s d with
  | nil => cases hc
  | cons c0 rest ih =>
    rw [processChildren_cons] at h
    cases hp : processChild ev c0 lt s d with
    | error e => rw [hp] at h; cases h
    | ok st =>
      obtain ⟨lt2, s2, d2⟩ := st
      rw [hp] at h
      simp only at h
      rcases List.mem_cons.1 hc with rfl | hmem
      · rcases processChild_ok ev c lt s d lt2 s2 d2 hp with
          ⟨r, hu, -⟩ | ⟨r, hu, -⟩ | ⟨r, hb, -⟩
        · exact Or.inl ⟨r, hu⟩
        · exact Or.inr (Or.inl ⟨r, hu⟩)
        · exact Or.inr (Or.inr ⟨r, hb⟩)
      · exact ih lt2 s2 d2 h hmem

theorem standardUnbounded_of_parsed (c : Component) (hc : StandardUnbounded c)
    (h : (∃ r, UnboundedStandard c r) ∨ (∃ r, UnboundedDaylight c r) ∨ (∃ r, BoundedRule c r)) :
    ∃ r, UnboundedStandard c r := by
  rcases h with h | ⟨r, hu⟩ | ⟨r, hb⟩
  · exact h
  · exact absurd (hc.1.symm.trans hu.1) standard_ne_daylight
  · have hd : decide (c.Name = CompTimezoneDaylight) = false := by
      rw [hc.1]; exact decide_eq_false standard_ne_daylight
    have h1 := hb.2.1
    rw [hd] at h1
    have := hc.2 r h1
    rw [hb.2.2] at this; cases this

theorem daylightUnbounded_of_parsed (c : Component) (hc : DaylightUnbounded c)
    (h : (∃ r, UnboundedStandard c r) ∨ (∃ r, UnboundedDaylight c r) ∨ (∃ r, BoundedRule c r)) :
    ∃ r, UnboundedDaylight c r := by
  rcases h with ⟨r, hu⟩ | h | ⟨r, hb⟩
  · exact absurd (hu.1.symm.trans hc.1) standard_ne_daylight
  · exact h
  · have hd : decide (c.Name = CompTimezoneDaylight) = true := by
      rw [hc.1]; simp
    have h1 := hb.2.1
    rw [hd] at h1
    have := hc.2 r h1
    rw [hb.2.2] at this; cases this

/-- The result of `addExtendRules` when only the standard slot is filled. -/
theorem addExtendRules_standard_only (lt : Template) (s d : extendRuleSlot)
    (hs : s.present = true) (hd : d.present = false) :
    addExtendRules lt s d =
      if containsChar s.r.tzName '>' then .error (.zoneNameContainsGt s.r.tzName)
      else .ok { lt with
        Extend := ['<'] ++ s.r.tzName ++ ['>'] ++ offsetText (neg64 s.r.tzOffsetTo) } := by
  unfold addExtendRules addExtendName
  simp only [hs, hd, Bool.not_true, Bool.false_and, Bool.false_eq_true, if_false, Bool.not_false,
    if_true, List.nil_append]
  by_cases hgt : containsChar s.r.tzName '>' = true
  · rw [if_pos hgt, if_pos hgt]
  · rw [if_neg hgt, if_neg hgt]
    simp only [addExtendOffset_append]

theorem offsetText_neg_of_bound (x : Int) (h1 : -(86399 * 1000000000) ≤ x)
    (h2 : x ≤ 86399 * 1000000000) : offsetText (-x) = signedClock (-x) :=
  offsetText_eq_signedClock _ (by omega) (by omega)

theorem offsetText_neg_of_parseRule (c : Component) (b : Bool) (r : zoneRule)
    (h : parseRule c b = .ok r) :
    offsetText (neg64 r.tzOffsetTo) = signedClock (-r.tzOffsetTo) := by
  obtain ⟨_, to_, _, -, -, -, -, -, hp, -⟩ := parseRule_ok c b r h
  rw [neg64_of_parseOffset to_ _ hp]
  have hb := parseOffset_bound to_ _ hp
  rw [Second_eq] at hb
  exact offsetText_neg_of_bound _ hb.1 hb.2

/-- The template of a definition with an unbounded standard rule and no
unbounded daylight rule. -/
theorem toLocationTemplate_standard_only (ev : Evaluator)
    (sortSlice : (Change → Change → Bool) → List Change → List Change)
    (name : Str) (vTimezone cStd : Component) (std : zoneRule)
    (hmem : cStd ∈ vTimezone.Children) (hstd : UnboundedStandard cStd std)
    (hnodst : ∀ c ∈ vTimezone.Children, ∀ r, ¬ UnboundedDaylight c r) :
    (∀ lt, ToLocationTemplate ev sortSlice name vTimezone = .ok lt →
      '>' ∉ std.tzName ∧
      lt.Extend = ['<'] ++ std.tzName ++ ['>'] ++ signedClock (-std.tzOffsetTo)) ∧
    ('>' ∈ std.tzName → ∃ e, ToLocationTemplate ev sortSlice name vTimezone = .error e) ∧
    (vTimezone.Children = [cStd] → '>' ∉ std.tzName →
      ∃ lt, ToLocationTemplate ev sortSlice name vTimezone = .ok lt) := by
  have key : ∀ lt1 s d, processChildren ev vTimezone.Children (initTemplate name) initStd initDst
      = .ok (lt1, s, d) →
      addExtendRules lt1 s d =
        if containsChar std.tzName '>' then .error (.zoneNameContainsGt std.tzName)
        else .ok { lt1 with
          Extend := ['<'] ++ std.tzName ++ ['>'] ++ signedClock (-std.tzOffsetTo) } := by
    intro lt1 s d h1
    obtain ⟨-, hs, hr⟩ := processChildren_standard_slot ev _ _ _ _ lt1 s d h1 cStd std hmem hstd
    have hd : d.present = false := by
      by_contra hd
      obtain ⟨c, hc, r, hu⟩ := processChildren_daylight_source ev _ _ _ _ lt1 s d h1 rfl
        (by simpa using hd)
      exact hnodst c hc r hu
    rw [addExtendRules_standard_only lt1 s d hs hd, hr,
      offsetText_neg_of_parseRule cStd false std hstd.2.1]
  have key2 : ∀ lt, ToLocationTemplate ev sortSlice name vTimezone = .ok lt →
      '>' ∉ std.tzName ∧
      lt.Extend = ['<'] ++ std.tzName ++ ['>'] ++ signedClock (-std.tzOffsetTo) := by
    intro lt h
    rw [ToLocationTemplate_eq] at h
    split at h
    · cases h
    · rename_i lt1 s d h1
      rw [key lt1 s d h1] at h
      by_cases hgt : containsChar std.tzName '>' = true
      · rw [if_pos hgt] at h; cases h
      · rw [if_neg hgt] at h
        simp only [Except.ok.injEq] at h
        subst h
        exact ⟨(containsChar_false_iff _ _).1 (by simpa using hgt), rfl⟩
  refine ⟨key2, ?_, ?_⟩
  · intro hgt
    cases h : ToLocationTemplate ev sortSlice name vTimezone with
    | error e => exact ⟨e, rfl⟩
    | ok lt => exact absurd hgt (key2 lt h).1
  · intro hch hgt
    have h1 : processChildren ev vTimezone.Children (initTemplate name) initStd initDst
        = .ok (initTemplate name, { initStd with r := std, present := true }, initDst) := by
      rw [hch, processChildren_standard ev cStd [] _ _ _ std hstd.1 hstd.2.1 hstd.2.2 rfl,
        processChildren_nil]
    rw [ToLocationTemplate_eq, h1]
    simp only
    rw [key _ _ _ h1, if_neg (by rw [(containsChar_false_iff _ _).2 hgt]; simp)]
    exact ⟨_, rfl⟩

/-- Claim C11: for every definition with an unbounded standard rule and no
unbounded daylight rule, whatever the other children are, a successful
conversion has the extend string `<` name `>` followed by the negated offset
to as signed `HH:MM:SS`, with a leading `-` exactly when the negated offset is
negative and two zero-padded digits for hours, minutes and seconds; when the
name contains `>` the conversion fails, and when the rule is the only child and
the name has no `>` the conversion succeeds. The offset to +01:00:00 is written
`-01:00:00`. -/
theorem C11_standard_only_extend_string (ev : Evaluator)
    (sortSlice : (Change → Change → Bool) → List Change → List Change)
    (name : Str) (vTimezone cStd : Component) (std : zoneRule)
    (hmem : cStd ∈ vTimezone.Children) (hstd : UnboundedStandard cStd std)
    (hnodst : ∀ c ∈ vTimezone.Children, ∀ r, ¬ UnboundedDaylight c r) :
    (∀ lt, ToLocationTemplate ev sortSlice name vTimezone = .ok lt →
      '>' ∉ std.tzName ∧
      lt.Extend = ['<'] ++ std.tzName ++ ['>'] ++ signedClock (-std.tzOffsetTo)) ∧
    ('>' ∈ std.tzName → ∃ e, ToLocationTemplate ev sortSlice name vTimezone = .error e) ∧
    (vTimezone.Children = [cStd] → '>' ∉ std.tzName →
      ∃ lt, ToLocationTemplate ev sortSlice name vTimezone = .ok lt) ∧
    signedClock (-Hour) = "-01:00:00".toList ∧
    signedClock (9 * Hour + 30 * Minute) = "09:30:00".toList ∧
    signedClock 0 = "00:00:00".toList := by
  obtain ⟨h1, h2, h3⟩ := toLocationTemplate_standard_only ev sortSlice name vTimezone cStd std
    hmem hstd hnodst
  exact ⟨h1, h2, h3, by decide, by decide, by decide⟩

/-! ## Conflicts of the slots -/

theorem processChild_standard_conflict (ev : Evaluator) (c : Component) (lt : Template)
    (s d : extendRuleSlot) (r : zoneRule) (hu : UnboundedStandard c r)
    (hs : s.present = true) :
    processChild ev c lt s d = .error (.moreThanOneUnbounded s.slotName) := by
  have hd : decide (CompTimezoneStandard = CompTimezoneDaylight) = false := by decide
  unfold processChild
  simp only [hu.1, hd, decide_True, Bool.not_true, Bool.false_and, Bool.false_eq_true, if_false,
    hu.2.1, hu.2.2, if_true, extendRuleSlot.set, hs]

theorem processChild_daylight_conflict (ev : Evaluator) (c : Component) (lt : Template)
    (s d : extendRuleSlot) (r : zoneRule) (hu : UnboundedDaylight c r)
    (hd : d.present = true) :
    processChild ev c lt s d = .error (.moreThanOneUnbounded d.slotName) := by
  have hs : decide (CompTimezoneDaylight = CompTimezoneStandard) = false := by decide
  unfold processChild
  simp only [hu.1, hs, decide_True, Bool.not_true, Bool.not_false, Bool.and_false,
    Bool.false_eq_true, if_false, hu.2.1, hu.2.2, if_true, extendRuleSlot.set, hd]

theorem processChildren_error_of_child (ev : Evaluator) (pre post : List Component)
    (c : Component) (lt : Template) (s d : extendRuleSlot)
    (lt1 : Template) (s1 d1 : extendRuleSlot) (e : Err)
    (hpre : processChildren ev pre lt s d = .ok (lt1, s1, d1))
    (hc : processChild ev c lt1 s1 d1 = .error e) :
    processChildren ev (pre ++ c :: post) lt s d = .error e := by
  rw [processChildren_append, hpre]
  simp only
  rw [processChildren_cons, hc]

theorem toLocationTemplate_error_of_loop (ev : Evaluator)
    (sortSlice : (Change → Change → Bool) → List Change → List Change)
    (name : Str) (vTimezone : Component) (e : Err)
    (h : processChildren ev vTimezone.Children (initTemplate name) initStd initDst = .error e) :
    ToLocationTemplate ev sortSlice name vTimezone = .error e := by
  rw [ToLocationTemplate_eq, h]

theorem toLocationTemplate_fails_or (ev : Evaluator)
    (sortSlice : (Change → Change → Bool) → List Change → List Change)
    (name : Str) (vTimezone : Component)
    (h : ∀ lt, ToLocationTemplate ev sortSlice name vTimezone ≠ .ok lt) :
    ∃ e, ToLocationTemplate ev sortSlice name vTimezone = .error e := by
  cases hr : ToLocationTemplate ev sortSlice name vTimezone with
  | error e => exact ⟨e, rfl⟩
  | ok lt => exact absurd hr (h lt)

/-- The second unbounded rule of a polarity stops the loop. -/
theorem second_unbounded_error (ev : Evaluator)
    (sortSlice : (Change → Change → Bool) → List Change → List Change)
    (name : Str) (vTimezone : Component) (pre post : List Component) (c1 c2 : Component)
    (hch : vTimezone.Children = pre ++ c2 :: post) (h1 : c1 ∈ pre)
    (st : Template × extendRuleSlot × extendRuleSlot) (r2 : zoneRule)
    (hpre : processChildren ev pre (initTemplate name) initStd initDst = .ok st)
    (hparse : parseRule c2 (decide (c2.Name = CompTimezoneDaylight)) = .ok r2) :
    (StandardUnbounded c1 ∧ StandardUnbounded c2 →
      ToLocationTemplate ev sortSlice name vTimezone
        = .error (.moreThanOneUnbounded "standard".toList)) ∧
    (DaylightUnbounded c1 ∧ DaylightUnbounded c2 →
      ToLocationTemplate ev sortSlice name vTimezone
        = .error (.moreThanOneUnbounded "daylight".toList)) := by
  obtain ⟨lt1, s1, d1⟩ := st
  have hmono := processChildren_slots_mono ev pre _ _ _ lt1 s1 d1 hpre
  have hp1 := processChildren_parsed ev pre _ _ _ lt1 s1 d1 hpre c1 h1
  constructor
  · rintro ⟨hu1, hu2⟩
    obtain ⟨r1, hr1⟩ := standardUnbounded_of_parsed c1 hu1 hp1
    obtain ⟨-, hs, -⟩ := processChildren_standard_slot ev pre _ _ _ lt1 s1 d1 hpre c1 r1 h1 hr1
    have hd : decide (c2.Name = CompTimezoneDaylight) = false := by
      rw [hu2.1]; exact decide_eq_false standard_ne_daylight
    rw [hd] at hparse
    have hc := processChild_standard_conflict ev c2 lt1 s1 d1 r2
      ⟨hu2.1, hparse, hu2.2 r2 hparse⟩ hs
    rw [hmono.2.2.1] at hc
    apply toLocationTemplate_error_of_loop
    rw [hch]
    exact processChildren_error_of_child ev pre post c2 _ _ _ lt1 s1 d1 _ hpre hc
  · rintro ⟨hu1, hu2⟩
    obtain ⟨r1, hr1⟩ := daylightUnbounded_of_parsed c1 hu1 hp1
    obtain ⟨-, hs, -⟩ := processChildren_daylight_slot ev pre _ _ _ lt1 s1 d1 hpre c1 r1 h1 hr1
    have hd : decide (c2.Name = CompTimezoneDaylight) = true := by
      rw [hu2.1]; simp
    rw [hd] at hparse
    have hc := processChild_daylight_conflict ev c2 lt1 s1 d1 r2
      ⟨hu2.1, hparse, hu2.2 r2 hparse⟩ hs
    rw [hmono.2.2.2] at hc
    apply toLocationTemplate_error_of_loop
    rw [hch]
    exact processChildren_error_of_child ev pre post c2 _ _ _ lt1 s1 d1 _ hpre hc

theorem processChild_error_of_parse (ev : Evaluator) (c : Component) (lt : Template)
    (s d : extendRuleSlot) (e : Err)
    (h : parseRule c (decide (c.Name = CompTimezoneDaylight)) = .error e) :
    ∃ e1, processChild ev c lt s d = .error e1 := by
  unfold processChild
  simp only
  split
  · exact ⟨_, rfl⟩
  · rw [h]; exact ⟨_, rfl⟩

/-- One pass of the loop on a child that can be processed is a success or the
error of a second assignment to a slot. -/
theorem processChild_processable (ev : Evaluator) (c : Component) (lt : Template)
    (s d : extendRuleSlot) (hc : ChildProcessable ev c) :
    (∃ lt2 s2 d2, processChild ev c lt s d = .ok (lt2, s2, d2)) ∨
    processChild ev c lt s d = .error (.moreThanOneUnbounded s.slotName) ∨
    processChild ev c lt s d = .error (.moreThanOneUnbounded d.slotName) := by
  obtain ⟨hname, r, hparse, hadd⟩ := hc
  have hk : ¬ ((!decide (c.Name = CompTimezoneStandard) &&
      !decide (c.Name = CompTimezoneDaylight)) = true) := by
    rcases hname with h | h <;> simp [h]
  unfold processChild
  simp only
  rw [if_neg hk, hparse]
  simp only
  by_cases hf : r.isRepeatingForever = true
  · rw [if_pos hf]
    by_cases hs : decide (c.Name = CompTimezoneStandard) = true
    · rw [if_pos hs]
      unfold extendRuleSlot.set
      by_cases hp : s.present = true
      · rw [if_pos hp]; exact Or.inr (Or.inl rfl)
      · rw [if_neg hp]; exact Or.inl ⟨_, _, _, rfl⟩
    · rw [if_neg hs]
      unfold extendRuleSlot.set
      by_cases hp : d.present = true
      · rw [if_pos hp]; exact Or.inr (Or.inr rfl)
      · rw [if_neg hp]; exact Or.inl ⟨_, _, _, rfl⟩
  · rw [if_neg hf]
    obtain ⟨lt1, hlt1⟩ := hadd (by simpa using hf) lt
    rw [hlt1]
    exact Or.inl ⟨_, _, _, rfl⟩

theorem processChildren_processable (ev : Evaluator) (children : List Component)
    (lt : Template) (s d : extendRuleSlot)
    (hc : ∀ c ∈ children, ChildProcessable ev c) :
    (∃ st, processChildren ev children lt s d = .ok st) ∨
    processChildren ev children lt s d = .error (.moreThanOneUnbounded s.slotName) ∨
    processChildren ev children lt s d = .error (.moreThanOneUnbounded d.slotName) := by
  induction children generalizing lt s d with
  | nil => exact Or.inl ⟨_, processChildren_nil ev lt s d⟩
  | cons c rest ih =>
    rw [processChildren_cons]
    rcases processChild_processable ev c lt s d (hc c (List.mem_cons_self _ _)) with
      ⟨lt2, s2, d2, h⟩ | h | h
    · rw [h]
      simp only
      have hn : s2.slotName = s.slotName ∧ d2.slotName = d.slotName := by
        rcases processChild_ok ev c lt s d lt2 s2 d2 h with
          ⟨r, -, -, rfl, rfl, -⟩ | ⟨r, -, -, rfl, rfl, -⟩ | ⟨r, -, -, rfl, rfl⟩ <;> exact ⟨rfl, rfl⟩
      rw [← hn.1, ← hn.2]
      exact ih lt2 s2 d2 (fun c hc2 => hc c (List.mem_cons_of_mem _ hc2))
    · rw [h]; exact Or.inr (Or.inl rfl)
    · rw [h]; exact Or.inr (Or.inr rfl)

/-- Claim C12: a definition that contains two unbounded rules of the same
polarity makes `ToLocationTemplate` fail. When the loop over the children
before the second of them ends without error and the second is read by
`parseRule`, the failure is the error of the second assignment to the slot of
that polarity; when every child up to and including the second can be
processed, the failure is the error of a second assignment to a slot. -/
theorem C12_second_unbounded_rule_of_a_polarity_fails (ev : Evaluator)
    (sortSlice : (Change → Change → Bool) → List Change → List Change)
    (name : Str) (vTimezone : Component) (pre post : List Component) (c1 c2 : Component)
    (hch : vTimezone.Children = pre ++ c2 :: post) (h1 : c1 ∈ pre)
    (hpol : (StandardUnbounded c1 ∧ StandardUnbounded c2) ∨
      (DaylightUnbounded c1 ∧ DaylightUnbounded c2)) :
    (∃ e, ToLocationTemplate ev sortSlice name vTimezone = .error e) ∧
    (∀ st r2, processChildren ev pre (initTemplate name) initStd initDst = .ok st →
      parseRule c2 (decide (c2.Name = CompTimezoneDaylight)) = .ok r2 →
      (StandardUnbounded c1 ∧ StandardUnbounded c2 →
        ToLocationTemplate ev sortSlice name vTimezone
          = .error (.moreThanOneUnbounded "standard".toList)) ∧
      (DaylightUnbounded c1 ∧ DaylightUnbounded c2 →
        ToLocationTemplate ev sortSlice name vTimezone
          = .error (.moreThanOneUnbounded "daylight".toList))) ∧
    ((∀ c ∈ pre ++ [c2], ChildProcessable ev c) →
      ToLocationTemplate ev sortSlice name vTimezone
          = .error (.moreThanOneUnbounded "standard".toList) ∨
      ToLocationTemplate ev sortSlice name vTimezone
          = .error (.moreThanOneUnbounded "daylight".toList)) := by
  have hb := second_unbounded_error ev sortSlice name vTimezone pre post c1 c2 hch h1
  refine ⟨?_, fun st r2 hpre hparse => hb st r2 hpre hparse, ?_⟩
  · cases hpre : processChildren ev pre (initTemplate name) initStd initDst with
    | error e =>
      refine ⟨e, toLocationTemplate_error_of_loop ev sortSlice name vTimezone e ?_⟩
      rw [hch, processChildren_append, hpre]
    | ok st =>
      cases hparse : parseRule c2 (decide (c2.Name = CompTimezoneDaylight)) with
      | error e =>
        obtain ⟨lt1, s1, d1⟩ := st
        obtain ⟨e1, he1⟩ := processChild_error_of_parse ev c2 lt1 s1 d1 e hparse
        refine ⟨e1, toLocationTemplate_error_of_loop ev sortSlice name vTimezone e1 ?_⟩
        rw [hch]
        exact processChildren_error_of_child ev pre post c2 _ _ _ lt1 s1 d1 _ hpre he1
      | ok r2 =>
        rcases hpol with hp | hp
        · exact ⟨_, (hb st r2 hpre hparse).1 hp⟩
        · exact ⟨_, (hb st r2 hpre hparse).2 hp⟩
  · intro hall
    obtain ⟨-, r2, hparse, -⟩ := hall c2 (by simp)
    rcases processChildren_processable ev pre (initTemplate name) initStd initDst
        (fun c hc => hall c (by simp [hc])) with ⟨st, hpre⟩ | hpre | hpre
    · rcases hpol with hp | hp
      · exact Or.inl ((hb st r2 hpre hparse).1 hp)
      · exact Or.inr ((hb st r2 hpre hparse).2 hp)
    · left
      apply toLocationTemplate_error_of_loop
      rw [hch, processChildren_append, hpre]
      rfl
    · right
      apply toLocationTemplate_error_of_loop
      rw [hch, processChildren_append, hpre]
      rfl

/-- Claim C13: a definition that contains an unbounded daylight rule and no
unbounded standard rule makes `ToLocationTemplate` fail, whatever the other
children are; when the loop over the children ends without error the failure is
the error of `addExtendRules` for a daylight rule without standard rule. -/
theorem C13_daylight_without_standard_fails (ev : Evaluator)
    (sortSlice : (Change → Change → Bool) → List Change → List Change)
    (name : Str) (vTimezone cD : Component)
    (hmem : cD ∈ vTimezone.Children) (hD : DaylightUnbounded cD)
    (hnostd : ∀ c ∈ vTimezone.Children, ∀ r, ¬ UnboundedStandard c r) :
    (∃ e, ToLocationTemplate ev sortSlice name vTimezone = .error e) ∧
    (∀ st, processChildren ev vTimezone.Children (initTemplate name) initStd initDst = .ok st →
      ToLocationTemplate ev sortSlice name vTimezone = .error .dstWithoutStd) := by
  have key : ∀ st, processChildren ev vTimezone.Children (initTemplate name) initStd initDst
      = .ok st → ToLocationTemplate ev sortSlice name vTimezone = .error .dstWithoutStd := by
    rintro ⟨lt1, s, d⟩ h1
    obtain ⟨r, hr⟩ := daylightUnbounded_of_parsed cD hD
      (processChildren_parsed ev _ _ _ _ lt1 s d h1 cD hmem)
    obtain ⟨-, hd, -⟩ := processChildren_daylight_slot ev _ _ _ _ lt1 s d h1 cD r hmem hr
    have hs : s.present = false := by
      by_contra hs
      obtain ⟨c, hc, r1, hu⟩ := processChildren_standard_source ev _ _ _ _ lt1 s d h1 rfl
        (by simpa using hs)
      exact hnostd c hc r1 hu
    rw [ToLocationTemplate_eq, h1]
    simp only
    unfold addExtendRules
    simp only [hs, hd, Bool.not_false, Bool.and_self, if_true]
  refine ⟨?_, key⟩
  cases h1 : processChildren ev vTimezone.Children (initTemplate name) initStd initDst with
  | error e => exact ⟨e, toLocationTemplate_error_of_loop ev sortSlice name vTimezone e h1⟩
  | ok st => exact ⟨_, key st h1⟩

/-! ## Rules outside the supported subset -/

theorem supported_of_addExtendRule (sb : Str) (r : zoneRule) (out : Str)
    (h : addExtendRule sb r = .ok out) : SupportedRule r := by
  obtain ⟨hfreq, hint, ⟨f, hf, hflags⟩, week, weekDay, month, _, _, _, hday, hm, -, -⟩ :=
    (addExtendRule_ok_iff sb r out).1 h
  have hd := (extendByDay_iff _ _ _).1 hday
  exact ⟨hfreq, hint, (flags_monthDay_iff _ f hf).1 hflags, ⟨week, weekDay, hd⟩,
    ⟨month, (extendByMonth_iff _ _ (ByDayText_noComma _ _ _ hd) _).1 hm⟩⟩

theorem addExtendRules_both_ok (lt lt2 : Template) (s d : extendRuleSlot)
    (hd : d.present = true) (h : addExtendRules lt s d = .ok lt2) :
    SupportedRule d.r ∧ SupportedRule s.r := by
  unfold addExtendRules at h
  split at h
  · cases h
  · split at h
    · cases h
    · simp only [hd, Bool.not_true, Bool.false_eq_true, if_false] at h
      split at h
      · cases h
      · split at h
        · cases h
        · rename_i sb5 h5
          split at h
          · cases h
          · rename_i sb6 h6
            exact ⟨supported_of_addExtendRule _ _ _ h5, supported_of_addExtendRule _ _ _ h6⟩

/-- Beside an unbounded daylight rule, an unbounded rule outside the supported
subset makes `ToLocationTemplate` fail: `addExtendRules` passes both slots to
`addExtendRule`. -/
theorem unsupported_rule_fails_beside_daylight_rule (ev : Evaluator)
    (sortSlice : (Change → Change → Bool) → List Change → List Change)
    (name : Str) (vTimezone cD cX : Component)
    (hD : cD ∈ vTimezone.Children) (hDu : DaylightUnbounded cD)
    (hX : cX ∈ vTimezone.Children) (hXu : StandardUnbounded cX ∨ DaylightUnbounded cX)
    (hbad : ∀ r, parseRule cX (decide (cX.Name = CompTimezoneDaylight)) = .ok r →
      ¬ SupportedRule r) :
    ∃ e, ToLocationTemplate ev sortSlice name vTimezone = .error e := by
  apply toLocationTemplate_fails_or
  intro lt h
  obtain ⟨lt1, lt2, s, d, h1, h2, -⟩ := ToLocationTemplate_ok ev sortSlice name vTimezone lt h
  have hp := processChildren_parsed ev _ _ _ _ lt1 s d h1
  obtain ⟨rD, hrD⟩ := daylightUnbounded_of_parsed cD hDu (hp cD hD)
  obtain ⟨-, hd, -⟩ := processChildren_daylight_slot ev _ _ _ _ lt1 s d h1 cD rD hD hrD
  obtain ⟨hsd, hss⟩ := addExtendRules_both_ok lt1 lt2 s d hd h2
  rcases hXu with hu | hu
  · obtain ⟨rX, hrX⟩ := standardUnbounded_of_parsed cX hu (hp cX hX)
    obtain ⟨-, -, hr⟩ := processChildren_standard_slot ev _ _ _ _ lt1 s d h1 cX rX hX hrX
    have hdec : decide (cX.Name = CompTimezoneDaylight) = false := by
      rw [hu.1]; exact decide_eq_false standard_ne_daylight
    rw [hdec] at hbad
    exact hbad rX hrX.2.1 (hr ▸ hss)
  · obtain ⟨rX, hrX⟩ := daylightUnbounded_of_parsed cX hu (hp cX hX)
    obtain ⟨-, -, hr⟩ := processChildren_daylight_slot ev _ _ _ _ lt1 s d h1 cX rX hX hrX
    have hdec : decide (cX.Name = CompTimezoneDaylight) = true := by
      rw [hu.1]; simp
    rw [hdec] at hbad
    exact hbad rX hrX.2.1 (hr ▸ hsd)

theorem dailyRule_unsupported : ¬ SupportedRule dailyRule := by
  intro h
  have := h.1
  revert this
  decide

/-- Claim C17, evaluated on the code: a definition whose only child is an
unbounded standard rule with recurrence fields outside the supported subset,
and with a name free of `>`, is accepted, and its extend string is the name
and the offset only: without a daylight slot `addExtendRules` returns before
`addExtendRule` looks at the fields. The same rule beside an unbounded daylight
rule makes `ToLocationTemplate` fail. The definition whose only child is the
standard rule `FREQ=DAILY;BYSETPOS=1` gets the extend string `<CET>-01:00:00`,
and the same rule together with the daylight rule of the CET/CEST example is
rejected for its frequency. -/
theorem C17_sole_standard_rule_is_not_checked (ev : Evaluator)
    (sortSlice : (Change → Change → Bool) → List Change → List Change)
    (name : Str) (vTimezone cStd : Component) (std : zoneRule)
    (hch : vTimezone.Children = [cStd]) (hstd : UnboundedStandard cStd std)
    (hbad : ¬ SupportedRule std) (hgt : '>' ∉ std.tzName) :
    (∃ lt, ToLocationTemplate ev sortSlice name vTimezone = .ok lt ∧
      lt.Extend = ['<'] ++ std.tzName ++ ['>'] ++ signedClock (-std.tzOffsetTo)) ∧
    (∀ vT cD : Component, cStd ∈ vT.Children → cD ∈ vT.Children → DaylightUnbounded cD →
      ∃ e, ToLocationTemplate ev sortSlice name vT = .error e) ∧
    parseRule dailyStandard false = .ok dailyRule ∧
    dailyRule.isRepeatingForever = true ∧
    ¬ SupportedRule dailyRule ∧
    ToLocationTemplate sampleEvaluator insertionSortSlice "x".toList dailyOnlyZone = .ok
      { Name := "x".toList, Zones := [], Changes := [], Extend := "<CET>-01:00:00".toList } ∧
    ToLocationTemplate sampleEvaluator insertionSortSlice "x".toList dailyPairZone
      = .error (.unsupportedFreq "DAILY".toList) := by
  refine ⟨?_, ?_, by decide, by decide, dailyRule_unsupported, by decide, by decide⟩
  · have hno : ∀ c ∈ vTimezone.Children, ∀ r, ¬ UnboundedDaylight c r := by
      intro c hc r hu
      rw [hch] at hc
      simp only [List.mem_singleton] at hc
      subst hc
      exact standard_ne_daylight (hstd.1.symm.trans hu.1)
    obtain ⟨k1, -, k3⟩ := toLocationTemplate_standard_only ev sortSlice name vTimezone cStd std
      (by rw [hch]; simp) hstd hno
    obtain ⟨lt, hlt⟩ := k3 hch hgt
    exact ⟨lt, hlt, (k1 lt hlt).2⟩
  · intro vT cD hS hD hDu
    have hdec : decide (cStd.Name = CompTimezoneDaylight) = false := by
      rw [hstd.1]; exact decide_eq_false standard_ne_daylight
    refine unsupported_rule_fails_beside_daylight_rule ev sortSlice name vT cD cStd hD hDu hS
      (Or.inl ⟨hstd.1, fun r hr => ?_⟩) (fun r hr => ?_)
    · rw [hstd.2.1] at hr
      cases hr
      exact hstd.2.2
    · rw [hdec, hstd.2.1] at hr
      cases hr
      exact hbad

/-! ## The zones and changes of the bounded rules -/

theorem processChildren_zones_changes (ev : Evaluator) (children : List Component)
    (lt : Template) (s d : extendRuleSlot) (lt1 : Template) (s1 d1 : extendRuleSlot)
    (h : processChildren ev children lt s d = .ok (lt1, s1, d1)) :
    lt1.Zones = lt.Zones ++ boundedZones children ∧
    lt1.Changes = lt.Changes ++ discoveredChanges ev children lt.Zones.length := by
  induction children generalizing lt s d with
  | nil =>
    rw [processChildren_nil] at h
    simp only [Except.ok.injEq, Prod.mk.injEq] at h
    obtain ⟨rfl, -, -⟩ := h
    simp [boundedZones, discoveredChanges]
  | cons c rest ih =>
    rw [processChildren_cons] at h
    cases hp : processChild ev c lt s d with
    | error e => rw [hp] at h; cases h
    | ok st =>
      obtain ⟨lt2, s2, d2⟩ := st
      rw [hp] at h
      simp only at h
      obtain ⟨i1, i2⟩ := ih lt2 s2 d2 h
      rcases processChild_ok ev c lt s d lt2 s2 d2 hp with
        ⟨r, hu, -, -, -, rfl⟩ | ⟨r, hu, -, -, -, rfl⟩ | ⟨r, hb, hadd, -, -⟩
      · have hd : decide (c.Name = CompTimezoneDaylight) = false := by
          rw [hu.1]; exact decide_eq_false standard_ne_daylight
        unfold boundedZones discoveredChanges
        rw [hd, hu.2.1]
        simp only [hu.2.2, if_true]
        exact ⟨i1, i2⟩
      · have hd : decide (c.Name = CompTimezoneDaylight) = true := by
          rw [hu.1]; simp
        unfold boundedZones discoveredChanges
        rw [hd, hu.2.1]
        simp only [hu.2.2, if_true]
        exact ⟨i1, i2⟩
      · obtain ⟨ro, ts, hro, hts, rfl⟩ := addZones_ok ev lt lt2 r hadd
        have hocc : ruleOccurrences ev r = ts := by
          unfold ruleOccurrences
          rw [hro]
          simp only
          rw [hts]
        obtain ⟨_, _, _, -, -, -, -, -, -, -, -, -, -, hdst⟩ := parseRule_ok c _ r hb.2.1
        unfold boundedZones discoveredChanges
        rw [hb.2.1]
        simp only [hb.2.2, Bool.false_eq_true, if_false, hocc]
        simp only [List.length_append, List.length_singleton] at i2
        rw [i1, i2, hdst]
        simp

/-- Claim C14: on every definition on which `ToLocationTemplate` succeeds the
zones are exactly one entry per bounded rule, in the order of the children,
with the name, the offset to and the polarity of the rule; unbounded rules
give no zone, and a bounded rule for which the evaluator yields no occurrence
still gives its zone and no change. -/
theorem C14_one_zone_per_bounded_rule (ev : Evaluator)
    (sortSlice : (Change → Change → Bool) → List Change → List Change)
    (name : Str) (vTimezone : Component) (lt : Template)
    (h : ToLocationTemplate ev sortSlice name vTimezone = .ok lt) :
    lt.Zones = boundedZones vTimezone.Children ∧
    ToLocationTemplate emptyEvaluator insertionSortSlice "x".toList mixedZone = .ok
      { Name := "x".toList,
        Zones := [⟨"CEST".toList, 2 * Hour, true⟩, ⟨"CEST".toList, 2 * Hour, true⟩],
        Changes := [], Extend := "<CET>-01:00:00".toList } ∧
    boundedZones mixedZone.Children
      = [⟨"CEST".toList, 2 * Hour, true⟩, ⟨"CEST".toList, 2 * Hour, true⟩] := by
  refine ⟨?_, by decide, by decide⟩
  obtain ⟨lt1, lt2, s, d, h1, h2, rfl⟩ := ToLocationTemplate_ok ev sortSlice name vTimezone lt h
  obtain ⟨hz, -, -⟩ := addExtendRules_fields lt1 lt2 s d h2
  obtain ⟨i1, -⟩ := processChildren_zones_changes ev _ _ _ _ lt1 s d h1
  simp only [hz, i1, List.nil_append]

/-! ## The order of the changes -/

/-- Claim C18, as amended: on every definition on which `ToLocationTemplate`
succeeds, with `sort.Slice` within its contract, the changes are a
rearrangement of the changes that the bounded rules produce in discovery
order, in non-decreasing order of their instants. The order among changes with
the same instant is left to `sort.Slice`. -/
theorem C18_changes_are_a_sorted_rearrangement (ev : Evaluator)
    (sortSlice : (Change → Change → Bool) → List Change → List Change)
    (hsort : SortsChanges sortSlice)
    (name : Str) (vTimezone : Component) (lt : Template)
    (h : ToLocationTemplate ev sortSlice name vTimezone = .ok lt) :
    lt.Changes.Perm (discoveredChanges ev vTimezone.Children 0) ∧
    lt.Changes.Pairwise (fun a b => a.Start ≤ b.Start) := by
  obtain ⟨lt1, lt2, s, d, h1, h2, rfl⟩ := ToLocationTemplate_ok ev sortSlice name vTimezone lt h
  obtain ⟨-, hc, -⟩ := addExtendRules_fields lt1 lt2 s d h2
  obtain ⟨-, i2⟩ := processChildren_zones_changes ev _ _ _ _ lt1 s d h1
  obtain ⟨hperm, hsorted⟩ := hsort lt2.Changes
  constructor
  · have : lt2.Changes = discoveredChanges ev vTimezone.Children 0 := by
      rw [hc, i2]; simp
    rw [← this]
    exact hperm
  · refine hsorted.imp ?_
    intro a b hab
    simp only [changeBefore, decide_eq_false_iff_not, not_lt] at hab
    exact hab

/-! ## strings.Split -/

theorem splitChar_ne_nil (sep : Char) (s : Str) : splitChar sep s ≠ [] := by
  induction s with
  | nil => simp [splitChar]
  | cons c cs ih =>
    unfold splitChar
    split
    · simp
    · split
      · simp
      · simp

theorem splitChar_cons_ne (sep c : Char) (cs : Str) (h : c ≠ sep) :
    ∃ p ps, splitChar sep cs = p :: ps ∧ splitChar sep (c :: cs) = (c :: p) :: ps := by
  cases hs : splitChar sep cs with
  | nil => exact absurd hs (splitChar_ne_nil sep cs)
  | cons p ps =>
    refine ⟨p, ps, rfl, ?_⟩
    rw [splitChar, if_neg h, hs]

theorem splitChar_cons_eq (sep : Char) (cs : Str) :
    splitChar sep (sep :: cs) = [] :: splitChar sep cs := by
  rw [splitChar, if_pos rfl]

theorem splitChar_no_sep (sep : Char) (s : Str) : ∀ p ∈ splitChar sep s, sep ∉ p := by
  induction s with
  | nil => simp [splitChar]
  | cons c cs ih =>
    by_cases h : c = sep
    · subst h
      rw [splitChar_cons_eq]
      intro p hp
      rcases List.mem_cons.1 hp with rfl | hp
      · simp
      · exact ih p hp
    · obtain ⟨p0, ps, h1, h2⟩ := splitChar_cons_ne sep c cs h
      rw [h2]
      rw [h1] at ih
      intro p hp
      rcases List.mem_cons.1 hp with rfl | hp
      · intro hm
        rcases List.mem_cons.1 hm with e | hm
        · exact h e.symm
        · exact ih p0 (List.mem_cons_self _ _) hm
      · exact ih p (List.mem_cons_of_mem _ hp)

theorem splitChar_length (sep : Char) (s : Str) :
    (splitChar sep s).length = s.count sep + 1 := by
  induction s with
  | nil => simp [splitChar]
  | cons c cs ih =>
    by_cases h : c = sep
    · subst h
      rw [splitChar_cons_eq, List.length_cons, ih, List.count_cons_self]
    · obtain ⟨p0, ps, h1, h2⟩ := splitChar_cons_ne sep c cs h
      rw [h2, List.count_cons_of_ne (Ne.symm h), ← ih, h1]
      simp

theorem splitChar_single (sep : Char) (s v : Str) (h : splitChar sep s = [v]) : v = s := by
  induction s generalizing v with
  | nil => simp [splitChar] at h; exact h
  | cons c cs ih =>
    by_cases hc : c = sep
    · subst hc
      rw [splitChar_cons_eq] at h
      simp only [List.cons.injEq] at h
      exact absurd h.2 (splitChar_ne_nil _ _)
    · obtain ⟨p0, ps, h1, h2⟩ := splitChar_cons_ne sep c cs hc
      rw [h2] at h
      simp only [List.cons.injEq] at h
      obtain ⟨rfl, rfl⟩ := h
      rw [ih p0 h1]

theorem splitChar_pair (part k v : Str) (h : splitChar '=' part = [k, v]) :
    k = fieldName part ∧ v = fieldValue part := by
  induction part generalizing k with
  | nil => simp [splitChar] at h
  | cons c cs ih =>
    by_cases hc : c = '='
    · subst hc
      rw [splitChar_cons_eq] at h
      simp only [List.cons.injEq] at h
      obtain ⟨rfl, h2⟩ := h
      have := splitChar_single _ _ _ h2
      subst this
      constructor
      · simp [fieldName]
      · simp [fieldValue]
    · obtain ⟨p0, ps, h1, h2⟩ := splitChar_cons_ne '=' c cs hc
      rw [h2] at h
      simp only [List.cons.injEq] at h
      obtain ⟨rfl, rfl⟩ := h
      obtain ⟨e1, e2⟩ := ih p0 h1
      have f1 : fieldName (c :: cs) = c :: fieldName cs := by simp [fieldName, hc]
      have f2 : fieldValue (c :: cs) = fieldValue cs := by simp [fieldValue, hc]
      rw [f1, f2, ← e1, ← e2]
      exact ⟨rfl, rfl⟩

theorem splitChar_two_iff (part : Str) :
    (∃ k v, splitChar '=' part = [k, v]) ↔ part.count '=' = 1 := by
  have hl := splitChar_length '=' part
  constructor
  · rintro ⟨k, v, h⟩
    rw [h] at hl
    simp at hl
    omega
  · intro hc
    rw [hc] at hl
    match hs : splitChar '=' part, hl with
    | [k, v], _ => exact ⟨k, v, rfl⟩

/-! ## The parts of a rule -/

theorem parseParts_cons_ok (part : Str) (rest : List Str) (m : StrMap)
    (h : WellFormedPart part) :
    parseParts (part :: rest) m = parseParts rest (mapSet m (fieldName part) (fieldValue part)) := by
  obtain ⟨k, v, hkv⟩ := (splitChar_two_iff part).2 h.1
  obtain ⟨rfl, rfl⟩ := splitChar_pair part k v hkv
  rw [parseParts, hkv]
  simp only
  rw [if_neg]
  intro hlen
  exact h.2 (List.length_eq_zero.1 hlen)

theorem parseParts_cons_bad (part : Str) (rest : List Str) (m : StrMap)
    (h : ¬ WellFormedPart part) : ∃ e, parseParts (part :: rest) m = .error e := by
  by_cases hc : part.count '=' = 1
  · obtain ⟨k, v, hkv⟩ := (splitChar_two_iff part).2 hc
    obtain ⟨rfl, rfl⟩ := splitChar_pair part k v hkv
    have hv : fieldValue part = [] := by
      by_contra hv
      exact h ⟨hc, hv⟩
    rw [parseParts, hkv]
    simp only
    rw [if_pos (by rw [hv]; rfl)]
    exact ⟨_, rfl⟩
  · rw [parseParts]
    split
    · rename_i k v hkv
      exact absurd ((splitChar_two_iff part).1 ⟨k, v, hkv⟩) hc
    · exact ⟨_, rfl⟩

theorem parseParts_wellFormed (parts : List Str) (m : StrMap)
    (h : ∀ part ∈ parts, WellFormedPart part) :
    parseParts parts m = .ok (setAll m (parts.map partPair)) := by
  induction parts generalizing m with
  | nil => simp [parseParts, setAll]
  | cons part rest ih =>
    rw [parseParts_cons_ok part rest m (h part (List.mem_cons_self _ _)),
      ih _ (fun p hp => h p (List.mem_cons_of_mem _ hp))]
    simp [setAll, partPair]

theorem parseParts_illFormed (parts : List Str) (m : StrMap)
    (h : ∃ part ∈ parts, ¬ WellFormedPart part) : ∃ e, parseParts parts m = .error e := by
  induction parts generalizing m with
  | nil => obtain ⟨_, hp, _⟩ := h; cases hp
  | cons part rest ih =>
    by_cases hw : WellFormedPart part
    · rw [parseParts_cons_ok part rest m hw]
      obtain ⟨p, hp, hbad⟩ := h
      rcases List.mem_cons.1 hp with rfl | hp
      · exact absurd hw hbad
      · exact ih _ ⟨p, hp, hbad⟩
    · exact parseParts_cons_bad part rest m hw

/-! ## Assignments to the field map -/

theorem lookupStr_mapSet (m : StrMap) (k v x : Str) :
    lookupStr x (mapSet m k v) = if k = x then some v else lookupStr x m := by
  induction m with
  | nil => simp [mapSet, lookupStr]
  | cons p rest ih =>
    obtain ⟨k0, v0⟩ := p
    unfold mapSet
    by_cases h : k0 = k
    · rw [if_pos h]
      subst h
      unfold lookupStr
      by_cases hx : k0 = x
      · rw [if_pos hx, if_pos hx]
      · rw [if_neg hx, if_neg hx, if_neg hx]
    · rw [if_neg h]
      unfold lookupStr
      by_cases hx : k0 = x
      · rw [if_pos hx, if_pos hx]
        have : ¬ k = x := fun e => h (hx.trans e.symm)
        rw [if_neg this]
      · rw [if_neg hx, if_neg hx]
        exact ih

theorem mapSet_nodup (m : StrMap) (k v : Str) (h : (mapKeys m).Nodup) :
    (mapKeys (mapSet m k v)).Nodup := by
  induction m with
  | nil => simp [mapSet, mapKeys]
  | cons p rest ih =>
    obtain ⟨k0, v0⟩ := p
    simp only [mapKeys, List.map_cons, List.nodup_cons] at h
    unfold mapSet
    by_cases hk : k0 = k
    · rw [if_pos hk]
      subst hk
      simp only [mapKeys, List.map_cons, List.nodup_cons]
      exact h
    · rw [if_neg hk]
      simp only [mapKeys, List.map_cons, List.nodup_cons]
      refine ⟨?_, ih h.2⟩
      intro hmem
      rcases (mapKeys_mapSet rest k v k0).1 hmem with e | hm
      · exact hk e
      · exact h.1 hm

theorem lookupStr_append (a b : List (Str × Str)) (x : Str) :
    lookupStr x (a ++ b) =
      match lookupStr x a with
      | some v => some v
      | none => lookupStr x b := by
  induction a with
  | nil => simp [lookupStr]
  | cons p rest ih =>
    obtain ⟨k0, v0⟩ := p
    rw [List.cons_append,
      show lookupStr x ((k0, v0) :: (rest ++ b))
        = (if k0 = x then some v0 else lookupStr x (rest ++ b)) from rfl,
      show lookupStr x ((k0, v0) :: rest)
        = (if k0 = x then some v0 else lookupStr x rest) from rfl]
    by_cases hx : k0 = x
    · rw [if_pos hx, if_pos hx]
    · rw [if_neg hx, if_neg hx]
      exact ih

theorem setAll_nodup (m : StrMap) (pairs : List (Str × Str)) (h : (mapKeys m).Nodup) :
    (mapKeys (setAll m pairs)).Nodup := by
  induction pairs generalizing m with
  | nil => exact h
  | cons p rest ih => exact ih _ (mapSet_nodup m p.1 p.2 h)

theorem setAll_keys (m : StrMap) (pairs : List (Str × Str)) (x : Str) :
    x ∈ mapKeys (setAll m pairs) ↔ x ∈ pairs.map Prod.fst ∨ x ∈ mapKeys m := by
  induction pairs generalizing m with
  | nil => simp [setAll]
  | cons p rest ih =>
    show x ∈ mapKeys (setAll (mapSet m p.1 p.2) rest) ↔ _
    rw [ih, mapKeys_mapSet]
    simp only [List.map_cons, List.mem_cons]
    tauto

/-- After the assignments, a name has the value of its last assignment. -/
theorem setAll_lookup (m : StrMap) (pairs : List (Str × Str)) (x : Str) :
    lookupStr x (setAll m pairs) =
      match lookupStr x pairs.reverse with
      | some v => some v
      | none => lookupStr x m := by
  induction pairs generalizing m with
  | nil => simp [setAll, lookupStr]
  | cons p rest ih =>
    show lookupStr x (setAll (mapSet m p.1 p.2) rest) = _
    rw [ih, List.reverse_cons, lookupStr_append, lookupStr_mapSet]
    cases lookupStr x rest.reverse with
    | some v => rfl
    | none =>
      obtain ⟨k0, v0⟩ := p
      simp only [lookupStr]
      by_cases hx : k0 = x
      · rw [if_pos hx, if_pos hx]
      · rw [if_neg hx, if_neg hx]

theorem lookupStr_of_mem (t : List (Str × Str)) (hn : (t.map Prod.fst).Nodup)
    (k v : Str) (h : (k, v) ∈ t) : lookupStr k t = some v := by
  induction t with
  | nil => cases h
  | cons p rest ih =>
    obtain ⟨k0, v0⟩ := p
    simp only [List.map_cons, List.nodup_cons] at hn
    unfold lookupStr
    rcases List.mem_cons.1 h with h | h
    · simp only [Prod.mk.injEq] at h
      rw [if_pos h.1.symm, h.2]
    · have : k0 ≠ k := by
        rintro rfl
        exact hn.1 (List.mem_map.2 ⟨(k0, v), h, rfl⟩)
      rw [if_neg this]
      exact ih hn.2 h

/-! ## parseRule and the field map -/

theorem parseRule_of_props (vRule : Component) (isDST : Bool)
    (dtStart fromS toS value : Str) (offFrom offTo : Duration)
    (hdt : lookupStr "DTSTART".toList vRule.Props = some dtStart)
    (hlen : dtStart.length = LocalDateTimeFormat.length)
    (hfrom : lookupStr "TZOFFSETFROM".toList vRule.Props = some fromS)
    (hpf : parseOffset fromS = .ok offFrom)
    (hto : lookupStr "TZOFFSETTO".toList vRule.Props = some toS)
    (hpt : parseOffset toS = .ok offTo)
    (hrr : lookupStr "RRULE".toList vRule.Props = some value) :
    parseRule vRule isDST =
      match parseParts (splitChar ';' value) [] with
      | .error e => .error e
      | .ok m =>
        .ok { isDST := isDST, dtStart := dtStart, tzOffsetFrom := offFrom, tzOffsetTo := offTo,
              tzName := (lookupStr "TZNAME".toList vRule.Props).getD [],
              rrule := some value, rruleParts := m } := by
  unfold parseRule
  rw [hdt]
  simp only
  rw [if_neg (not_not.2 hlen), hfrom]
  simp only
  rw [hpf]
  simp only
  rw [hto]
  simp only
  rw [hpt]
  simp only
  rw [hrr]

/-- The field map that `parseRule` builds from well-formed parts. -/
theorem parseRule_wellFormed (vRule : Component) (isDST : Bool)
    (dtStart fromS toS value : Str) (offFrom offTo : Duration)
    (hdt : lookupStr "DTSTART".toList vRule.Props = some dtStart)
    (hlen : dtStart.length = LocalDateTimeFormat.length)
    (hfrom : lookupStr "TZOFFSETFROM".toList vRule.Props = some fromS)
    (hpf : parseOffset fromS = .ok offFrom)
    (hto : lookupStr "TZOFFSETTO".toList vRule.Props = some toS)
    (hpt : parseOffset toS = .ok offTo)
    (hrr : lookupStr "RRULE".toList vRule.Props = some value)
    (hparts : ∀ part ∈ splitChar ';' value, WellFormedPart part) :
    ∃ r, parseRule vRule isDST = .ok r ∧
      r.rruleParts = setAll [] ((splitChar ';' value).map partPair) := by
  rw [parseRule_of_props vRule isDST dtStart fromS toS value offFrom offTo hdt hlen hfrom hpf
    hto hpt hrr, parseParts_wellFormed _ _ hparts]
  exact ⟨_, rfl, rfl⟩

theorem map_partPair_fst (parts : List Str) :
    (parts.map partPair).map Prod.fst = parts.map fieldName := by
  induction parts with
  | nil => rfl
  | cons p rest ih => simp [partPair]

/-- Claim C16: for a sub-definition with valid DTSTART, TZOFFSETFROM and
TZOFFSETTO and an RRULE property, `parseRule` fails when some part of the RRULE
value between `;` does not have exactly one `=`, such as the empty part after a
trailing `;`, or has an empty value; otherwise it succeeds, the keys of the
field map are exactly the names of the parts and, when the names are distinct,
each name maps to its value as written. -/
theorem C16_parseRule_parts (vRule : Component) (isDST : Bool)
    (dtStart fromS toS value : Str) (offFrom offTo : Duration)
    (hdt : lookupStr "DTSTART".toList vRule.Props = some dtStart)
    (hlen : dtStart.length = LocalDateTimeFormat.length)
    (hfrom : lookupStr "TZOFFSETFROM".toList vRule.Props = some fromS)
    (hpf : parseOffset fromS = .ok offFrom)
    (hto : lookupStr "TZOFFSETTO".toList vRule.Props = some toS)
    (hpt : parseOffset toS = .ok offTo)
    (hrr : lookupStr "RRULE".toList vRule.Props = some value) :
    ((∃ part ∈ splitChar ';' value, part.count '=' ≠ 1 ∨ fieldValue part = []) →
      ∃ e, parseRule vRule isDST = .error e) ∧
    ((∀ part ∈ splitChar ';' value, part.count '=' = 1 ∧ fieldValue part ≠ []) →
      ∃ r, parseRule vRule isDST = .ok r ∧
        (∀ k, k ∈ mapKeys r.rruleParts ↔ k ∈ (splitChar ';' value).map fieldName) ∧
        (((splitChar ';' value).map fieldName).Nodup →
          ∀ part ∈ splitChar ';' value,
            lookupStr (fieldName part) r.rruleParts = some (fieldValue part))) ∧
    parseParts (splitChar ';' "FREQ=YEARLY;".toList) [] = .error .rulePartNotSingleEq ∧
    parseParts (splitChar ';' "FREQ=YEARLY;BYMONTH".toList) [] = .error .rulePartNotSingleEq ∧
    parseParts (splitChar ';' "FREQ=YEARLY;BYDAY=1SU=2".toList) [] = .error .rulePartNotSingleEq ∧
    parseParts (splitChar ';' "FREQ=YEARLY;BYMONTH=".toList) []
      = .error (.ruleOptionNoValue "BYMONTH".toList) ∧
    parseParts (splitChar ';' "freq= Yearly;X-A=b c".toList) []
      = .ok [("freq".toList, " Yearly".toList), ("X-A".toList, "b c".toList)] := by
  refine ⟨?_, ?_, by decide, by decide, by decide, by decide, by decide⟩
  · rintro ⟨part, hp, hbad⟩
    rw [parseRule_of_props vRule isDST dtStart fromS toS value offFrom offTo hdt hlen hfrom hpf
      hto hpt hrr]
    obtain ⟨e, he⟩ := parseParts_illFormed (splitChar ';' value) [] ⟨part, hp, by
      intro hw
      rcases hbad with h | h
      · exact h hw.1
      · exact hw.2 h⟩
    rw [he]
    exact ⟨e, rfl⟩
  · intro hparts
    obtain ⟨r, hr, hm⟩ := parseRule_wellFormed vRule isDST dtStart fromS toS value offFrom offTo
      hdt hlen hfrom hpf hto hpt hrr hparts
    refine ⟨r, hr, ?_, ?_⟩
    · intro k
      rw [hm, setAll_keys, map_partPair_fst]
      simp [mapKeys]
    · intro hnodup part hp
      rw [hm, setAll_lookup]
      have hmem : (fieldName part, fieldValue part) ∈ ((splitChar ';' value).map partPair).reverse :=
        List.mem_reverse.2 (List.mem_map.2 ⟨part, hp, rfl⟩)
      have hn : ((((splitChar ';' value).map partPair).reverse).map Prod.fst).Nodup := by
        rw [List.map_reverse, List.nodup_reverse, map_partPair_fst]
        exact hnodup
      rw [lookupStr_of_mem _ hn _ _ hmem]

/-- Claim C15, as amended: `parseRule` does not reject a rule in which a field
name occurs in two parts. When every part has exactly one `=` and a non-empty
value, `parseRule` succeeds, the keys of the field map are the names of the
parts, each once, and every name has the value of its last part. -/
theorem C15_duplicate_field_is_overwritten (vRule : Component) (isDST : Bool)
    (dtStart fromS toS value : Str) (offFrom offTo : Duration)
    (hdt : lookupStr "DTSTART".toList vRule.Props = some dtStart)
    (hlen : dtStart.length = LocalDateTimeFormat.length)
    (hfrom : lookupStr "TZOFFSETFROM".toList vRule.Props = some fromS)
    (hpf : parseOffset fromS = .ok offFrom)
    (hto : lookupStr "TZOFFSETTO".toList vRule.Props = some toS)
    (hpt : parseOffset toS = .ok offTo)
    (hrr : lookupStr "RRULE".toList vRule.Props = some value)
    (hparts : ∀ part ∈ splitChar ';' value, part.count '=' = 1 ∧ fieldValue part ≠ []) :
    ∃ r, parseRule vRule isDST = .ok r ∧
      (mapKeys r.rruleParts).Nodup ∧
      (∀ k, k ∈ mapKeys r.rruleParts ↔ k ∈ (splitChar ';' value).map fieldName) ∧
      (∀ k, lookupStr k r.rruleParts
        = lookupStr k ((splitChar ';' value).map partPair).reverse) := by
  obtain ⟨r, hr, hm⟩ := parseRule_wellFormed vRule isDST dtStart fromS toS value offFrom offTo
    hdt hlen hfrom hpf hto hpt hrr hparts
  refine ⟨r, hr, ?_, ?_, ?_⟩
  · rw [hm]
    exact setAll_nodup [] _ (by simp [mapKeys])
  · intro k
    rw [hm, setAll_keys, map_partPair_fst]
    simp [mapKeys]
  · intro k
    rw [hm, setAll_lookup]
    cases lookupStr k ((splitChar ';' value).map partPair).reverse <;> rfl

/-- Counterexample to C15 as stated: the rule `FREQ=YEARLY;BYMONTH=3;BYMONTH=10`
has the field name BYMONTH in two parts and `parseRule` accepts it, with
BYMONTH mapped to 10. -/
theorem C15_counterexample_duplicate_field_accepted :
    ¬ ((splitChar ';' "FREQ=YEARLY;BYMONTH=3;BYMONTH=10".toList).map fieldName).Nodup ∧
    parseRule (standardWithRule "FREQ=YEARLY;BYMONTH=3;BYMONTH=10".toList) false = .ok
      (standardRuleWith "FREQ=YEARLY;BYMONTH=3;BYMONTH=10".toList
        [("FREQ".toList, "YEARLY".toList), ("BYMONTH".toList, "10".toList)]) := by
  constructor <;> decide

/-- Witness of C15: the rule `FREQ=YEARLY;BYMONTH=3;BYMONTH=10`. -/
theorem C15_witness :
    ∃ r, parseRule (standardWithRule "FREQ=YEARLY;BYMONTH=3;BYMONTH=10".toList) false = .ok r ∧
      (mapKeys r.rruleParts).Nodup ∧
      (∀ k, k ∈ mapKeys r.rruleParts ↔
        k ∈ (splitChar ';' "FREQ=YEARLY;BYMONTH=3;BYMONTH=10".toList).map fieldName) ∧
      (∀ k, lookupStr k r.rruleParts
        = lookupStr k
            ((splitChar ';' "FREQ=YEARLY;BYMONTH=3;BYMONTH=10".toList).map partPair).reverse) :=
  C15_duplicate_field_is_overwritten (standardWithRule "FREQ=YEARLY;BYMONTH=3;BYMONTH=10".toList)
    false "19701025T030000".toList "+0200".toList "+0100".toList
    "FREQ=YEARLY;BYMONTH=3;BYMONTH=10".toList (2 * Hour) Hour
    (by decide) (by decide) (by decide) (by decide) (by decide) (by decide) (by decide)
    (by unfold fieldValue; decide)

/-- Witness of C16: the standard rule of the CET/CEST example. -/
theorem C16_witness :
    ((∃ part ∈ splitChar ';' "FREQ=YEARLY;BYMONTH=10;BYDAY=-1SU".toList,
        part.count '=' ≠ 1 ∨ fieldValue part = []) →
      ∃ e, parseRule cetStandard false = .error e) ∧
    ((∀ part ∈ splitChar ';' "FREQ=YEARLY;BYMONTH=10;BYDAY=-1SU".toList,
        part.count '=' = 1 ∧ fieldValue part ≠ []) →
      ∃ r, parseRule cetStandard false = .ok r ∧
        (∀ k, k ∈ mapKeys r.rruleParts ↔
          k ∈ (splitChar ';' "FREQ=YEARLY;BYMONTH=10;BYDAY=-1SU".toList).map fieldName) ∧
        (((splitChar ';' "FREQ=YEARLY;BYMONTH=10;BYDAY=-1SU".toList).map fieldName).Nodup →
          ∀ part ∈ splitChar ';' "FREQ=YEARLY;BYMONTH=10;BYDAY=-1SU".toList,
            lookupStr (fieldName part) r.rruleParts = some (fieldValue part))) :=
  ⟨(C16_parseRule_parts cetStandard false "19701025T030000".toList "+0200".toList
      "+0100".toList "FREQ=YEARLY;BYMONTH=10;BYDAY=-1SU".toList (2 * Hour) Hour
      (by decide) (by decide) (by decide) (by decide) (by decide) (by decide) (by decide)).1,
   (C16_parseRule_parts cetStandard false "19701025T030000".toList "+0200".toList
      "+0100".toList "FREQ=YEARLY;BYMONTH=10;BYDAY=-1SU".toList (2 * Hour) Hour
      (by decide) (by decide) (by decide) (by decide) (by decide) (by decide) (by decide)).2.1⟩

/-! ## The start date inside the rule -/

theorem parseParts_noEq (parts : List Str) (m m1 : StrMap)
    (hm : ∀ p ∈ m, '=' ∉ p.1 ∧ '=' ∉ p.2)
    (h : parseParts parts m = .ok m1) : ∀ p ∈ m1, '=' ∉ p.1 ∧ '=' ∉ p.2 := by
  induction parts generalizing m with
  | nil => simp [parseParts] at h; exact h ▸ hm
  | cons part rest ih =>
    unfold parseParts at h
    split at h
    · rename_i key value heq
      split at h
      · cases h
      · refine ih (mapSet m key value) ?_ h
        have hs := splitChar_no_sep '=' part
        rw [heq] at hs
        intro p hp
        rcases mem_mapSet m key value p hp with rfl | hp
        · exact ⟨hs key (by simp), hs value (by simp)⟩
        · exact hm p hp
    · cases h

theorem containsSub_mem (s sub : Str) (h : containsSub s sub = true) : ∀ c ∈ sub, c ∈ s := by
  unfold containsSub at h
  rw [List.any_eq_true] at h
  obtain ⟨t, ht, hpre⟩ := h
  have h1 : sub <+: t := List.isPrefixOf_iff_prefix.1 hpre
  have h2 : t <:+ s := (List.mem_tails _ _).1 ht
  intro c hc
  exact h2.subset (h1.subset hc)

/-- Claim C19: in a rule returned by `parseRule` no name and no value of the
field map contains `=`, so the value under DTSTART does not contain `TZID=` and
`roption` never takes the branch that rejects a start date with a zone
reference: it is the rest of its body. -/
theorem C19_start_date_branch_of_roption_unreachable (ev : Evaluator) (vRule : Component)
    (isDST : Bool) (r : zoneRule) (h : parseRule vRule isDST = .ok r) :
    (∀ p ∈ r.rruleParts, '=' ∉ p.1 ∧ '=' ∉ p.2) ∧
    containsSub (mapGet r.rruleParts "DTSTART".toList) "TZID=".toList = false ∧
    r.roption ev =
      (if (mapGet r.rruleParts "UNTIL".toList).length > 0 ∧
          (mapGet r.rruleParts "UNTIL".toList).length ≠ DateTimeFormat.length
        then .error .untilNotUtc
        else
          match r.rrule with
          | none => .error .nilRrule
          | some value => ev.StrToROptionInLocation value (Int.tdiv r.tzOffsetFrom Second)) := by
  obtain ⟨_, _, value, -, -, -, -, -, -, -, -, -, hp, -⟩ := parseRule_ok vRule isDST r h
  have hno := parseParts_noEq _ [] _ (by intro p hp; cases hp) hp
  have hdt : '=' ∉ mapGet r.rruleParts "DTSTART".toList := by
    unfold mapGet
    cases hl : lookupStr "DTSTART".toList r.rruleParts with
    | none => simp
    | some v => exact (hno _ (lookupStr_mem _ _ _ hl)).2
  have hc : containsSub (mapGet r.rruleParts "DTSTART".toList) "TZID=".toList = false := by
    by_contra hc
    exact hdt (containsSub_mem _ _ (by simpa using hc) '=' (by decide))
  refine ⟨hno, hc, ?_⟩
  unfold zoneRule.roption
  rw [hc]
  simp only [Bool.false_eq_true, if_false]

/-- Witness of C19: the standard rule of the CET/CEST example. -/
theorem C19_witness :
    (∀ p ∈ cetRule.rruleParts, '=' ∉ p.1 ∧ '=' ∉ p.2) ∧
    containsSub (mapGet cetRule.rruleParts "DTSTART".toList) "TZID=".toList = false ∧
    cetRule.roption sampleEvaluator =
      (if (mapGet cetRule.rruleParts "UNTIL".toList).length > 0 ∧
          (mapGet cetRule.rruleParts "UNTIL".toList).length ≠ DateTimeFormat.length
        then .error .untilNotUtc
        else
          match cetRule.rrule with
          | none => .error .nilRrule
          | some value =>
            sampleEvaluator.StrToROptionInLocation value (Int.tdiv cetRule.tzOffsetFrom Second)) :=
  C19_start_date_branch_of_roption_unreachable sampleEvaluator cetStandard false cetRule
    (by decide)

/-! ## The library sort on changes with the same instant -/

/-- Counterexample to C18 as stated: a definition with the same bounded rule
twice, each yielding the same seven instants, has fourteen changes; `sort.Slice`
takes the fourth as pivot, partitions once and sorts both sides by insertion,
which leaves the change of the second rule at the first instant before that of
the first rule. On the four changes of `mixedZone` it sorts by insertion alone
and keeps the discovery order. -/
theorem C18_counterexample_sort_Slice_reorders_ties :
    discoveredChanges sevenEvaluator tiedZone.Children 0 = tiedDiscovered ∧
    sort.choosePivot_func changeBefore tiedDiscovered 0 14 = (3, .unknownHint) ∧
    sort.partition_func changeBefore tiedDiscovered 0 14 3 =
      ([⟨1, 1⟩, ⟨2, 0⟩, ⟨3, 0⟩, ⟨1, 0⟩, ⟨3, 1⟩, ⟨2, 1⟩, ⟨4, 0⟩,
        ⟨7, 0⟩, ⟨6, 0⟩, ⟨5, 0⟩, ⟨4, 1⟩, ⟨5, 1⟩, ⟨6, 1⟩, ⟨7, 1⟩], 6, false) ∧
    sort.Slice changeBefore tiedDiscovered = tiedSorted ∧
    ToLocationTemplate sevenEvaluator sort.Slice "x".toList tiedZone = .ok
      { Name := "x".toList,
        Zones := [⟨"CEST".toList, 2 * Hour, true⟩, ⟨"CEST".toList, 2 * Hour, true⟩],
        Changes := tiedSorted,
        Extend := "<CET>-01:00:00".toList } ∧
    tiedSorted.Perm tiedDiscovered ∧
    ¬ KeepsTieOrder tiedDiscovered tiedSorted ∧
    ToLocationTemplate sampleEvaluator sort.Slice "x".toList mixedZone = .ok mixedTemplate ∧
    ¬ (∀ lt, ToLocationTemplate sevenEvaluator sort.Slice "x".toList tiedZone = .ok lt →
        KeepsTieOrder (discoveredChanges sevenEvaluator tiedZone.Children 0) lt.Changes) := by
  have hd : discoveredChanges sevenEvaluator tiedZone.Children 0 = tiedDiscovered := by decide
  have ht : ToLocationTemplate sevenEvaluator sort.Slice "x".toList tiedZone = .ok
      { Name := "x".toList,
        Zones := [⟨"CEST".toList, 2 * Hour, true⟩, ⟨"CEST".toList, 2 * Hour, true⟩],
        Changes := tiedSorted,
        Extend := "<CET>-01:00:00".toList } := by decide
  have hk : ¬ KeepsTieOrder tiedDiscovered tiedSorted := by
    intro hk
    have := hk 1
    revert this
    decide
  refine ⟨hd, by decide, by decide, by decide, ht, by decide, hk, by decide, ?_⟩
  intro h
  have := h _ ht
  rw [hd] at this
  exact hk this

/-! ## Witnesses -/

theorem cetStandard_unbounded : UnboundedStandard cetStandard cetRule :=
  ⟨rfl, by decide, by decide⟩

theorem cetStandard_standardUnbounded : StandardUnbounded cetStandard := by
  refine ⟨rfl, fun r h => ?_⟩
  have e : parseRule cetStandard false = .ok cetRule := by decide
  rw [e] at h
  cases h
  decide

theorem cestDaylight_daylightUnbounded : DaylightUnbounded cestDaylight := by
  refine ⟨rfl, fun r h => ?_⟩
  have e : parseRule cestDaylight true = .ok cestRule := by decide
  rw [e] at h
  cases h
  decide

/-- Witness of C11: the definition whose only child is the standard rule of the
CET/CEST example. -/
theorem C11_witness :
    ∃ lt, ToLocationTemplate sampleEvaluator insertionSortSlice "x".toList cetOnlyZone = .ok lt ∧
      lt.Extend = ['<'] ++ cetRule.tzName ++ ['>'] ++ signedClock (-cetRule.tzOffsetTo) ∧
      lt.Extend = "<CET>-01:00:00".toList := by
  have hw := C11_standard_only_extend_string sampleEvaluator insertionSortSlice "x".toList
    cetOnlyZone cetStandard cetRule (List.mem_cons_self _ _) cetStandard_unbounded
    (by
      intro c hc r hu
      have hc1 : c = cetStandard := by simpa [cetOnlyZone, Component.Children] using hc
      subst hc1
      exact standard_ne_daylight hu.1)
  obtain ⟨lt, hlt⟩ := hw.2.2.1 rfl (by decide)
  refine ⟨lt, hlt, (hw.1 lt hlt).2, ?_⟩
  rw [(hw.1 lt hlt).2]
  decide

/-- Witness of C12: a definition with the standard rule of the CET/CEST example
twice. -/
theorem C12_witness :
    ToLocationTemplate sampleEvaluator insertionSortSlice "x".toList twoStandardZone
      = .error (.moreThanOneUnbounded "standard".toList) :=
  ((C12_second_unbounded_rule_of_a_polarity_fails sampleEvaluator insertionSortSlice "x".toList
    twoStandardZone [cetStandard] [] cetStandard cetStandard rfl (List.mem_cons_self _ _)
    (Or.inl ⟨cetStandard_standardUnbounded, cetStandard_standardUnbounded⟩)).2.1
    (initTemplate "x".toList, { initStd with r := cetRule, present := true }, initDst) cetRule
    (by decide) (by decide)).1 ⟨cetStandard_standardUnbounded, cetStandard_standardUnbounded⟩

/-- Witness of C13: a definition whose only child is the daylight rule of the
CET/CEST example. -/
theorem C13_witness :
    ToLocationTemplate sampleEvaluator insertionSortSlice "x".toList daylightOnlyZone
      = .error .dstWithoutStd :=
  (C13_daylight_without_standard_fails sampleEvaluator insertionSortSlice "x".toList
    daylightOnlyZone cestDaylight (List.mem_cons_self _ _) cestDaylight_daylightUnbounded
    (by
      intro c hc r hu
      have hc1 : c = cestDaylight := by simpa [daylightOnlyZone, Component.Children] using hc
      subst hc1
      exact standard_ne_daylight hu.1.symm)).2
    (initTemplate "x".toList, initStd, { initDst with r := cestRule, present := true })
    (by decide)

/-- Witness of C14: a definition with two bounded rules around an unbounded
rule. -/
theorem C14_witness : mixedTemplate.Zones = boundedZones mixedZone.Children :=
  (C14_one_zone_per_bounded_rule sampleEvaluator insertionSortSlice "x".toList mixedZone
    mixedTemplate (by decide)).1

/-- Witness of C17: the definition whose only child is the standard rule
`FREQ=DAILY;BYSETPOS=1`. -/
theorem C17_witness :
    ∃ lt, ToLocationTemplate sampleEvaluator insertionSortSlice "x".toList dailyOnlyZone = .ok lt ∧
      lt.Extend = ['<'] ++ dailyRule.tzName ++ ['>'] ++ signedClock (-dailyRule.tzOffsetTo) :=
  (C17_sole_standard_rule_is_not_checked sampleEvaluator insertionSortSlice "x".toList
    dailyOnlyZone dailyStandard dailyRule rfl ⟨rfl, by decide, by decide⟩
    dailyRule_unsupported (by decide)).1

/-- Witness of C18: a definition with two bounded rules around an unbounded
rule. -/
theorem C18_witness :
    mixedTemplate.Changes.Perm (discoveredChanges sampleEvaluator mixedZone.Children 0) ∧
    mixedTemplate.Changes.Pairwise (fun a b => a.Start ≤ b.Start) :=
  C18_changes_are_a_sorted_rearrangement sampleEvaluator insertionSortSlice
    insertionSortSlice_sorts "x".toList mixedZone mixedTemplate (by decide)

/-- Witness of C20: the offset of minus one hour. -/
theorem C20_witness :
    parseOffset (removeColons (addExtendOffset [] (-Hour))) = .ok (-Hour) ∧
    removeColons (addExtendOffset [] (-Hour)) = "-010000".toList :=
  ⟨(C20_offset_text_reads_back (-Hour) (-3600) (by decide) (by decide) (by decide)).1, by decide⟩

end Vtimezone
